import Mathlib

/-!
# Dual contouring over a lazily allocated voxel field

A shallow embedding of `Source/FastDcTest/FastDualContouringActor.{h,cpp}`:
the voxel storage `TVoxelData`, the packed cell and edge keys, the scan
`FindActiveVoxels`, the vertex pass `GenerateVertexData` and the triangle pass
`GenerateTriangles`, followed by the properties proved about them.

Conventions of the embedding.

* `float` values are rationals (`ℚ`): every comparison and every arithmetic
  step of the source is carried out exactly, rounding is not modelled.
* `int` values are `Int`, without wrap-around, wherever the source keeps them
  small (loop counters, linear buffer indices of a field whose cell count fits
  an `int`).  The packed keys are `uint32_t`: they are `Nat` reduced modulo
  `2 ^ 32` after every operation that can leave the range.
* `unsigned char *density_data` is `Option (Int → Nat)`: `none` is `NULL`,
  `some f` is a live pointer and `f i` is the byte at `density_data[i]`.  The
  block obtained from `new unsigned char[s]` covers `0 ≤ i < s`; its initial
  contents, like the bytes around it, are unspecified and enter the model as
  the parameter `heap` of the operations that allocate.  The coordinate tests
  of the source bound the coordinates from above only, so an access with a
  negative coordinate goes through the pointer at whatever index results; the
  model follows it there, inside or outside the block.
* `std::unordered_set` and `std::unordered_map` are lists without repeated
  keys; iterating a container visits the list front to back.
* the four wall-clock stamps of `TVoxelData` (`last_change`, ...) are left out.
-/

namespace FastDc

/-! ## Vectors and lattice indices -/

/-- Three `float` components, as the engine type `FVector`. -/
structure FVector where
  X : ℚ
  Y : ℚ
  Z : ℚ
deriving DecidableEq

/-- Four `float` components, as the engine type `FVector4`. -/
structure FVector4 where
  X : ℚ
  Y : ℚ
  Z : ℚ
  W : ℚ
deriving DecidableEq

/-- Modelled from the spec: `TVoxelIndex4` of the header `VoxelIndex.h`, which
is not among the sources: four `int` components added and subtracted
componentwise. -/
structure TVoxelIndex4 where
  X : Int
  Y : Int
  Z : Int
  W : Int
deriving DecidableEq

instance : Add FVector := ⟨fun a b => ⟨a.X + b.X, a.Y + b.Y, a.Z + b.Z⟩⟩
instance : Sub FVector := ⟨fun a b => ⟨a.X - b.X, a.Y - b.Y, a.Z - b.Z⟩⟩
instance : HMul FVector ℚ FVector := ⟨fun a s => ⟨a.X * s, a.Y * s, a.Z * s⟩⟩

instance : Add FVector4 := ⟨fun a b => ⟨a.X + b.X, a.Y + b.Y, a.Z + b.Z, a.W + b.W⟩⟩
instance : Neg FVector4 := ⟨fun a => ⟨-a.X, -a.Y, -a.Z, -a.W⟩⟩
instance : HMul FVector4 ℚ FVector4 := ⟨fun a s => ⟨a.X * s, a.Y * s, a.Z * s, a.W * s⟩⟩

instance : Add TVoxelIndex4 := ⟨fun a b => ⟨a.X + b.X, a.Y + b.Y, a.Z + b.Z, a.W + b.W⟩⟩
instance : Sub TVoxelIndex4 := ⟨fun a b => ⟨a.X - b.X, a.Y - b.Y, a.Z - b.Z, a.W - b.W⟩⟩

/-- The conversion `FVector4(const FVector&)` of the engine, used where the
source initialises an `FVector4` from an `FVector`: the fourth component is 1. -/
def FVector.toFVector4 (v : FVector) : FVector4 := ⟨v.X, v.Y, v.Z, 1⟩

/-- The default-constructed `FVector4` of the engine, `(0, 0, 0, 1)`. -/
def FVector4.init : FVector4 := ⟨0, 0, 0, 1⟩

/-! ## Fixed tables -/

/-- Table `AXIS_OFFSET`: the unit step along each axis. -/
def AXIS_OFFSET : List TVoxelIndex4 :=
  [⟨1, 0, 0, 0⟩, ⟨0, 1, 0, 0⟩, ⟨0, 0, 1, 0⟩]

/-- Table `EDGE_NODE_OFFSETS`: per axis, the four offsets subtracted from an
edge's cell to reach the cells sharing the edge. -/
def EDGE_NODE_OFFSETS : List (List TVoxelIndex4) :=
  [ [⟨0, 0, 0, 0⟩, ⟨0, 0, 1, 0⟩, ⟨0, 1, 0, 0⟩, ⟨0, 1, 1, 0⟩],
    [⟨0, 0, 0, 0⟩, ⟨1, 0, 0, 0⟩, ⟨0, 0, 1, 0⟩, ⟨1, 0, 1, 0⟩],
    [⟨0, 0, 0, 0⟩, ⟨0, 1, 0, 0⟩, ⟨1, 0, 0, 0⟩, ⟨1, 1, 0, 0⟩] ]

/-- Table `ENCODED_EDGE_OFFSETS`: added to a cell key, the keys of its twelve
candidate edges. -/
def ENCODED_EDGE_OFFSETS : List Nat :=
  [ 0x00000000, 0x00100000, 0x00000400, 0x00100400,
    0x40000000, 0x40100000, 0x40000001, 0x40100001,
    0x80000000, 0x80000400, 0x80000001, 0x80000401 ]

/-- Table `ENCODED_EDGE_NODE_OFFSETS`: subtracted from an edge's cell key, the
keys of the four cells sharing the edge, four entries per axis. -/
def ENCODED_EDGE_NODE_OFFSETS : List Nat :=
  [ 0x00000000, 0x00100000, 0x00000400, 0x00100400,
    0x00000000, 0x00000001, 0x00100000, 0x00100001,
    0x00000000, 0x00000400, 0x00000001, 0x00000401 ]

/-! ## Packed keys -/

/-- The 32-bit pattern of an `int`, read as `uint32_t`. -/
def toU32 (i : Int) : Nat := (i % 2 ^ 32).toNat

/-- Function `EncodeAxisUniqueID`:
`(x << 0) | (y << 10) | (z << 20) | (axis << 30)`, returned as `uint32`. -/
def EncodeAxisUniqueID (axis x y z : Int) : Nat :=
  ((toU32 x <<< 0) ||| (toU32 y <<< 10) ||| (toU32 z <<< 20) ||| (toU32 axis <<< 30)) % 2 ^ 32

/-- Function `EncodeVoxelUniqueID`: `X | (Y << 10) | (Z << 20)`, returned as
`uint32`. -/
def EncodeVoxelUniqueID (idxPos : TVoxelIndex4) : Nat :=
  (toU32 idxPos.X ||| (toU32 idxPos.Y <<< 10) ||| (toU32 idxPos.Z <<< 20)) % 2 ^ 32

/-- Function `DecodeVoxelUniqueID`:
`(id & 0x3ff, (id >> 10) & 0x3ff, (id >> 20) & 0x3ff, 0)`. -/
def DecodeVoxelUniqueID (id : Nat) : TVoxelIndex4 :=
  ⟨((id &&& 0x3ff : Nat) : Int), (((id >>> 10) &&& 0x3ff : Nat) : Int),
    (((id >>> 20) &&& 0x3ff : Nat) : Int), 0⟩

/-- The axis of an edge key as `GenerateTriangles` reads it:
`(edge >> 30) & 0xff`. -/
def edgeAxis (edge : Nat) : Nat := (edge >>> 30) &&& 0xff

/-! ## Voxel storage -/

/-- Enumeration `TVoxelDataFillState`. -/
inductive TVoxelDataFillState where
  | ZERO
  | ALL
  | MIX
deriving DecidableEq

/-- Structure `TSubstanceCache`: the list of cached cell indices. -/
structure TSubstanceCache where
  cellList : List Int
deriving DecidableEq

/-- Constant `LOD_ARRAY_SIZE`. -/
def LOD_ARRAY_SIZE : Nat := 7

/-- Class `TVoxelData`.  `voxel_num` is the resolution `N`, a non-negative
`int`; the two buffers are pointers as described in the header of this file;
`substanceCacheLOD` is the `std::array` of `LOD_ARRAY_SIZE` caches. -/
structure TVoxelData where
  density_state : TVoxelDataFillState
  base_fill_mat : Nat
  voxel_num : Nat
  volume_size : ℚ
  density_data : Option (Int → Nat)
  material_data : Option (Int → Nat)
  substanceCacheLOD : List TSubstanceCache

/-- Assignment `buffer[index] = value` through a live pointer. -/
def store (buffer : Int → Nat) (index : Int) (value : Nat) : Int → Nat :=
  fun i => if i = index then value else buffer i

/-- The three nested loops `for x < n, for y < n, for z < n` that the source
repeats in every full traversal, threading the state through the body. -/
def forXYZ {σ : Type} (n : Nat) (body : Nat → Nat → Nat → σ → σ) (s : σ) : σ :=
  (List.range n).foldl (fun s x =>
    (List.range n).foldl (fun s y =>
      (List.range n).foldl (fun s z => body x y z s) s) s) s

/-- Constructor `TVoxelData::TVoxelData(num, size)`: both buffers `NULL`, the
density state `ZERO`, the base material 0 (its in-class initialiser) and every
cache list empty. -/
def TVoxelData.construct (num : Nat) (size : ℚ) : TVoxelData :=
  { density_state := .ZERO, base_fill_mat := 0, voxel_num := num, volume_size := size,
    density_data := none, material_data := none,
    substanceCacheLOD := List.replicate LOD_ARRAY_SIZE ⟨[]⟩ }

/-- Method `TVoxelData::clcLinearIndex`. -/
def TVoxelData.clcLinearIndex (vd : TVoxelData) (x y z : Int) : Int :=
  x * vd.voxel_num * vd.voxel_num + y * vd.voxel_num + z

/-- The conversion `unsigned char d = 255 * density` of `setDensity`, for a
density already clamped to `[0, 1]`: truncation to an 8-bit value. -/
def quantize (density : ℚ) : Nat := Int.toNat ⌊255 * density⌋ % 256

/-- The part of `TVoxelData::setDensity` that runs once `density_data` is not
`NULL` (source lines 440-449): the upper-bound test on the coordinates, the
clamp, the quantisation and the store.  With `density_data == NULL` it is
never reached; the model then leaves the field as it is. -/
def TVoxelData.storeDensity (vd : TVoxelData) (x y z : Int) (density : ℚ) : TVoxelData :=
  match vd.density_data with
  | none => vd
  | some buf =>
    if x < vd.voxel_num ∧ y < vd.voxel_num ∧ z < vd.voxel_num then
      let index := x * vd.voxel_num * vd.voxel_num + y * vd.voxel_num + z
      let density := if density < 0 then 0 else density
      let density := if density > 1 then 1 else density
      { vd with density_data := some (store buf index (quantize density)) }
    else vd

/-- Method `TVoxelData::initializeDensity`: allocate the buffer (`heap` is what
the fresh pointer sees) and, per cell, call `setDensity(x, y, z, 1)` when the
state is `ALL` and `setDensity(x, y, z, 0)` when it is `ZERO`.  The buffer is
live during these calls, so each of them is `storeDensity`. -/
def TVoxelData.initializeDensity (heap : Int → Nat) (vd : TVoxelData) : TVoxelData :=
  forXYZ vd.voxel_num (fun x y z v =>
    let v := if v.density_state = .ALL then v.storeDensity x y z 1 else v
    if v.density_state = .ZERO then v.storeDensity x y z 0 else v)
    { vd with density_data := some heap }

/-- Method `TVoxelData::setDensity`. -/
def TVoxelData.setDensity (heap : Int → Nat) (vd : TVoxelData) (x y z : Int) (density : ℚ) :
    TVoxelData :=
  match vd.density_data with
  | none =>
    if vd.density_state = .ZERO ∧ density = 0 then vd
    else if vd.density_state = .ALL ∧ density = 1 then vd
    else
      let vd := vd.initializeDensity heap
      let vd := { vd with density_state := .MIX }
      vd.storeDensity x y z density
  | some _ => vd.storeDensity x y z density

/-- Method `TVoxelData::getDensity`. -/
def TVoxelData.getDensity (vd : TVoxelData) (x y z : Int) : ℚ :=
  match vd.density_data with
  | none => if vd.density_state = .ALL then 1 else 0
  | some buf =>
    if x < vd.voxel_num ∧ y < vd.voxel_num ∧ z < vd.voxel_num then
      let index := x * vd.voxel_num * vd.voxel_num + y * vd.voxel_num + z
      (buf index : ℚ) / 255
    else 0

/-- Method `TVoxelData::getRawDensity`: no test at all in the source; on a
`NULL` buffer (which its callers exclude) the model answers 0. -/
def TVoxelData.getRawDensity (vd : TVoxelData) (x y z : Int) : Nat :=
  match vd.density_data with
  | none => 0
  | some buf => buf (x * vd.voxel_num * vd.voxel_num + y * vd.voxel_num + z)

/-- The part of `TVoxelData::setMaterial` behind the `NULL` test. -/
def TVoxelData.storeMaterial (vd : TVoxelData) (x y z : Int) (material : Nat) : TVoxelData :=
  match vd.material_data with
  | none => vd
  | some buf =>
    if x < vd.voxel_num ∧ y < vd.voxel_num ∧ z < vd.voxel_num then
      let index := x * vd.voxel_num * vd.voxel_num + y * vd.voxel_num + z
      { vd with material_data := some (store buf index (material % 2 ^ 16)) }
    else vd

/-- Method `TVoxelData::initializeMaterial`. -/
def TVoxelData.initializeMaterial (heap : Int → Nat) (vd : TVoxelData) : TVoxelData :=
  forXYZ vd.voxel_num (fun x y z v => v.storeMaterial x y z v.base_fill_mat)
    { vd with material_data := some heap }

/-- Method `TVoxelData::setMaterial`. -/
def TVoxelData.setMaterial (heap : Int → Nat) (vd : TVoxelData) (x y z : Int) (material : Nat) :
    TVoxelData :=
  match vd.material_data with
  | none => (vd.initializeMaterial heap).storeMaterial x y z material
  | some _ => vd.storeMaterial x y z material

/-- Method `TVoxelData::getMaterial`. -/
def TVoxelData.getMaterial (vd : TVoxelData) (x y z : Int) : Nat :=
  match vd.material_data with
  | none => vd.base_fill_mat
  | some buf =>
    if x < vd.voxel_num ∧ y < vd.voxel_num ∧ z < vd.voxel_num then
      buf (x * vd.voxel_num * vd.voxel_num + y * vd.voxel_num + z)
    else 0

/-- Method `TVoxelData::voxelIndexToVector`, with `step = size / (num - 1)`
and `s = -size / 2` taken from this field (the source keeps them in `static`
locals, set on the first call).  For `num = 1` the source divides by zero; the
quotient is 0 here. -/
def TVoxelData.voxelIndexToVector (vd : TVoxelData) (x y z : Int) : FVector :=
  let step : ℚ := vd.volume_size / (((vd.voxel_num : Int) - 1 : Int) : ℚ)
  let s : ℚ := -vd.volume_size / 2
  let v : FVector := ⟨s, s, s⟩
  let a : FVector := ⟨x * step, y * step, z * step⟩
  v + a

/-- Method `TVoxelData::setVoxelPointDensity`: no coordinate test. -/
def TVoxelData.setVoxelPointDensity (heap : Int → Nat) (vd : TVoxelData) (x y z : Int)
    (density : Nat) : TVoxelData :=
  let vd := match vd.density_data with
    | none => { vd.initializeDensity heap with density_state := .MIX }
    | some _ => vd
  match vd.density_data with
  | none => vd
  | some buf =>
    let index := x * vd.voxel_num * vd.voxel_num + y * vd.voxel_num + z
    { vd with density_data := some (store buf index (density % 2 ^ 8)) }

/-- Method `TVoxelData::setVoxelPointMaterial`: no coordinate test. -/
def TVoxelData.setVoxelPointMaterial (heap : Int → Nat) (vd : TVoxelData) (x y z : Int)
    (material : Nat) : TVoxelData :=
  let vd := match vd.material_data with
    | none => vd.initializeMaterial heap
    | some _ => vd
  match vd.material_data with
  | none => vd
  | some buf =>
    let index := x * vd.voxel_num * vd.voxel_num + y * vd.voxel_num + z
    { vd with material_data := some (store buf index (material % 2 ^ 16)) }

/-- Method `TVoxelData::setVoxelPoint`: allocate whichever buffer is missing
(`dheap`, `mheap` are what the fresh pointers see), then store the material
and the density, in that order. -/
def TVoxelData.setVoxelPoint (dheap mheap : Int → Nat) (vd : TVoxelData) (x y z : Int)
    (density material : Nat) : TVoxelData :=
  let vd := match vd.density_data with
    | none => { vd.initializeDensity dheap with density_state := .MIX }
    | some _ => vd
  let vd := match vd.material_data with
    | none => vd.initializeMaterial mheap
    | some _ => vd
  let index := x * vd.voxel_num * vd.voxel_num + y * vd.voxel_num + z
  let vd := match vd.material_data with
    | none => vd
    | some buf => { vd with material_data := some (store buf index (material % 2 ^ 16)) }
  match vd.density_data with
  | none => vd
  | some buf => { vd with density_data := some (store buf index (density % 2 ^ 8)) }

/-- Method `TVoxelData::deinitializeDensity`. -/
def TVoxelData.deinitializeDensity (vd : TVoxelData) (State : TVoxelDataFillState) :
    TVoxelData :=
  if State = .MIX then vd
  else { vd with density_state := State, density_data := none }

/-- Method `TVoxelData::deinitializeMaterial`. -/
def TVoxelData.deinitializeMaterial (vd : TVoxelData) (base_mat : Nat) : TVoxelData :=
  { vd with base_fill_mat := base_mat % 2 ^ 16, material_data := none }

/-- Method `TVoxelData::getDensityFillState`. -/
def TVoxelData.getDensityFillState (vd : TVoxelData) : TVoxelDataFillState :=
  vd.density_state

/-- Method `TVoxelData::clearSubstanceCache`: every list emptied. -/
def TVoxelData.clearSubstanceCache (vd : TVoxelData) : TVoxelData :=
  { vd with substanceCacheLOD := vd.substanceCacheLOD.map (fun _ => ⟨[]⟩) }

/-- Method `TVoxelData::performCellSubstanceCaching`: the new field and the
returned flag. -/
def TVoxelData.performCellSubstanceCaching (vd : TVoxelData) (x y z : Int) (lod : Nat)
    (step : Int) : TVoxelData × Bool :=
  if x ≤ 0 ∨ y ≤ 0 ∨ z ≤ 0 then (vd, false)
  else if x < step ∨ y < step ∨ z < step then (vd, false)
  else
    let isolevel : Nat := 127
    let rx := x - step
    let ry := y - step
    let rz := z - step
    let density : List Nat :=
      [ vd.getRawDensity x (y - step) z,
        vd.getRawDensity x y z,
        vd.getRawDensity (x - step) (y - step) z,
        vd.getRawDensity (x - step) y z,
        vd.getRawDensity x (y - step) (z - step),
        vd.getRawDensity x y (z - step),
        vd.getRawDensity rx ry rz,
        vd.getRawDensity (x - step) y (z - step) ]
    if density.all (fun d => decide (d > isolevel)) then (vd, false)
    else if density.all (fun d => decide (d ≤ isolevel)) then (vd, false)
    else
      let index := vd.clcLinearIndex rx ry rz
      let lodCache := vd.substanceCacheLOD.getD lod ⟨[]⟩
      ({ vd with substanceCacheLOD :=
          vd.substanceCacheLOD.set lod ⟨lodCache.cellList ++ [index]⟩ }, true)

/-- Method `TVoxelData::performSubstanceCacheNoLOD`. -/
def TVoxelData.performSubstanceCacheNoLOD (vd : TVoxelData) (x y z : Int) : TVoxelData :=
  match vd.density_data with
  | none => vd
  | some _ => (vd.performCellSubstanceCaching x y z 0 1).1

/-- Method `TVoxelData::performSubstanceCacheLOD`. -/
def TVoxelData.performSubstanceCacheLOD (vd : TVoxelData) (x y z : Int) : TVoxelData :=
  match vd.density_data with
  | none => vd
  | some _ =>
    (List.range LOD_ARRAY_SIZE).foldl (fun v lod =>
      let s : Int := ((1 <<< lod : Nat) : Int)
      if x ≥ s ∧ y ≥ s ∧ z ≥ s then
        if x % s = 0 ∧ y % s = 0 ∧ z % s = 0 then
          (v.performCellSubstanceCaching x y z lod s).1
        else v
      else v) vd

/-- Method `TVoxelData::forEach`.  The callback works on the field it
captured, so it is a transformer of the field. -/
def TVoxelData.forEach (vd : TVoxelData) (func : Int → Int → Int → TVoxelData → TVoxelData) :
    TVoxelData :=
  forXYZ vd.voxel_num (fun x y z v => func x y z v) vd

/-- Method `TVoxelData::forEachWithCache`.  The loop bounds `num()` are read
from the field at the start: no operation changes `voxel_num`. -/
def TVoxelData.forEachWithCache (vd : TVoxelData)
    (func : Int → Int → Int → TVoxelData → TVoxelData) (LOD : Bool) : TVoxelData :=
  forXYZ vd.voxel_num (fun x y z v =>
    let v := func x y z v
    if LOD then v.performSubstanceCacheLOD x y z else v.performSubstanceCacheNoLOD x y z)
    vd.clearSubstanceCache

/-! ## Containers -/

/-- Type `VoxelIDSet` (`std::unordered_set<uint32_t>`). -/
abbrev VoxelIDSet := List Nat

/-- Member `insert` of `std::unordered_set`: a key already present is kept
once. -/
def VoxelIDSet.insert (s : VoxelIDSet) (k : Nat) : VoxelIDSet :=
  if k ∈ s then s else s ++ [k]

/-- An `std::unordered_map<uint32_t, β>`: key and value pairs. -/
abbrev UMap (β : Type) := List (Nat × β)

/-- Member `find` of `std::unordered_map`: `none` is `end()`. -/
def UMap.find {β : Type} : UMap β → Nat → Option β
  | [], _ => none
  | (k1, v) :: m, k => if k1 = k then some v else UMap.find m k

/-- Assignment `m[k] = v` of `std::unordered_map`: overwrite the value of a
present key, add an absent one. -/
def UMap.assign {β : Type} : UMap β → Nat → β → UMap β
  | [], k, v => [(k, v)]
  | (k1, v1) :: m, k, v => if k1 = k then (k1, v) :: m else (k1, v1) :: UMap.assign m k v

/-- The keys of a map, in iteration order. -/
def UMap.keys {β : Type} (m : UMap β) : List Nat := m.map Prod.fst

/-- Structure `EdgeInfo`. -/
structure EdgeInfo where
  pos : FVector4
  normal : FVector4
  winding : Bool
deriving DecidableEq

/-- Type `EdgeInfoMap`. -/
abbrev EdgeInfoMap := UMap EdgeInfo

/-- Type `VoxelIndexMap`. -/
abbrev VoxelIndexMap := UMap Int

/-! ## Scan for crossing edges -/

/-- Function `Density`. -/
def Density (VoxelData : TVoxelData) (Index : TVoxelIndex4) : ℚ :=
  VoxelData.getDensity Index.X Index.Y Index.Z

/-- Function `vertexInterpolation`. -/
def vertexInterpolation (p1 p2 : FVector) (valp1 valp2 : ℚ) : FVector :=
  let isolevel : ℚ := 1 / 2
  if |isolevel - valp1| < 1 / 100000 then p1
  else if |isolevel - valp2| < 1 / 100000 then p2
  else if |valp1 - valp2| < 1 / 100000 then p1
  else if valp1 = valp2 then p1
  else
    let mu := (isolevel - valp1) / (valp2 - valp1)
    p1 + (p2 - p1) * mu

/-- The test `zeroCrossing` of `FindActiveVoxels` for the edge leaving the cell
`(x, y, z)` along `axis`. -/
def zeroCrossing (voxelData : TVoxelData) (x y z axis : Nat) : Bool :=
  let p : TVoxelIndex4 := ⟨x, y, z, 0⟩
  let q := p + AXIS_OFFSET.getD axis ⟨0, 0, 0, 0⟩
  let pDensity := Density voxelData p
  let qDensity := Density voxelData q
  (decide (pDensity ≥ 1 / 2) && decide (qDensity < 1 / 2)) ||
    (decide (pDensity < 1 / 2) && decide (qDensity ≥ 1 / 2))

/-- The record `info` that `FindActiveVoxels` builds for a crossing edge.
`GetSafeNormal` is the engine routine `FVector4::GetSafeNormal(tolerance)`. -/
def edgeInfo (GetSafeNormal : FVector4 → ℚ → FVector4) (voxelData : TVoxelData)
    (x y z axis : Nat) : EdgeInfo :=
  let p : TVoxelIndex4 := ⟨x, y, z, 0⟩
  let q := p + AXIS_OFFSET.getD axis ⟨0, 0, 0, 0⟩
  let pDensity := Density voxelData p
  let qDensity := Density voxelData q
  let p1 := voxelData.voxelIndexToVector p.X p.Y p.Z
  let q1 := voxelData.voxelIndexToVector q.X q.Y q.Z
  let pos : FVector4 := (vertexInterpolation p1 q1 pDensity qDensity).toFVector4
  let tmp : FVector4 :=
    ⟨Density voxelData (p + ⟨1, 0, 0, 0⟩) - Density voxelData (p - ⟨1, 0, 0, 0⟩),
     Density voxelData (p + ⟨0, 1, 0, 0⟩) - Density voxelData (p - ⟨0, 1, 0, 0⟩),
     Density voxelData (p + ⟨0, 0, 1, 0⟩) - Density voxelData (p - ⟨0, 0, 1, 0⟩),
     0⟩
  let normal := -(GetSafeNormal tmp (1 / 1000000))
  { pos := pos, normal := normal, winding := decide (pDensity ≥ 1 / 2) }

/-- The body of the innermost loop of `FindActiveVoxels`: one cell, one axis. -/
def scanEdge (GetSafeNormal : FVector4 → ℚ → FVector4) (voxelData : TVoxelData)
    (x y z axis : Nat) (st : VoxelIDSet × EdgeInfoMap) : VoxelIDSet × EdgeInfoMap :=
  if zeroCrossing voxelData x y z axis then
    let p : TVoxelIndex4 := ⟨x, y, z, 0⟩
    let info := edgeInfo GetSafeNormal voxelData x y z axis
    let code := EncodeAxisUniqueID axis x y z
    let activeEdges := st.2.assign code info
    let edgeNodes := EDGE_NODE_OFFSETS.getD axis []
    let activeVoxels := (List.range 4).foldl (fun av i =>
      let nodeIdxPos := p - edgeNodes.getD i ⟨0, 0, 0, 0⟩
      let nodeID := EncodeVoxelUniqueID nodeIdxPos
      VoxelIDSet.insert av nodeID) st.1
    (activeVoxels, activeEdges)
  else st

/-- Function `FindActiveVoxels`: the two containers after the scan. -/
def FindActiveVoxels (GetSafeNormal : FVector4 → ℚ → FVector4) (voxelData : TVoxelData)
    (activeVoxels : VoxelIDSet) (activeEdges : EdgeInfoMap) : VoxelIDSet × EdgeInfoMap :=
  forXYZ voxelData.voxel_num (fun x y z st =>
    (List.range 3).foldl (fun st axis => scanEdge GetSafeNormal voxelData x y z axis st) st)
    (activeVoxels, activeEdges)

/-! ## Vertices -/

/-- The first loop of the body of `GenerateVertexData`: the positions `p` and
the normals `n` of the candidate edges of `voxelID` found in `edges`; the
counter `idx` is the length of either list. -/
def gatherEdges (edges : EdgeInfoMap) (voxelID : Nat) : List FVector4 × List FVector4 :=
  (List.range 12).foldl (fun pn i =>
    let edgeID := (voxelID + ENCODED_EDGE_OFFSETS.getD i 0) % 2 ^ 32
    match edges.find edgeID with
    | some info => (pn.1 ++ [info.pos], pn.2 ++ [info.normal])
    | none => pn) ([], [])

/-- The vertex and the normal that `GenerateVertexData` adds for `voxelID`.
`qef_solve_from_points_4d` is the solver of `qef_simd.h`, given the positions,
the normals and their count.  For `idx = 0` the factor `1.f / idx` is 0 here
(the source divides by zero). -/
def voxelVertex (qef_solve_from_points_4d : List FVector4 → List FVector4 → Nat → FVector4)
    (edges : EdgeInfoMap) (voxelID : Nat) : FVector × FVector :=
  let pn := gatherEdges edges voxelID
  let idx := pn.1.length
  let nodePos := qef_solve_from_points_4d pn.1 pn.2 idx
  let nodeNormal := pn.2.foldl (fun acc ni => acc + ni) FVector4.init
  let nodeNormal := nodeNormal * (1 / (idx : ℚ))
  (⟨nodePos.X, nodePos.Y, nodePos.Z⟩, ⟨nodeNormal.X, nodeNormal.Y, nodeNormal.Z⟩)

/-- The state of the loop of `GenerateVertexData`: `idxCounter`, the index
table and the two output arrays. -/
structure VertexData where
  idxCounter : Int
  vertexIndices : VoxelIndexMap
  varray : List FVector
  narray : List FVector

/-- Function `GenerateVertexData`. -/
def GenerateVertexData (qef_solve_from_points_4d : List FVector4 → List FVector4 → Nat → FVector4)
    (voxels : VoxelIDSet) (edges : EdgeInfoMap) (vertexIndices : VoxelIndexMap)
    (varray narray : List FVector) : VertexData :=
  voxels.foldl (fun st voxelID =>
    let vn := voxelVertex qef_solve_from_points_4d edges voxelID
    { idxCounter := st.idxCounter + 1,
      vertexIndices := st.vertexIndices.assign voxelID st.idxCounter,
      varray := st.varray ++ [vn.1],
      narray := st.narray ++ [vn.2] })
    { idxCounter := 0, vertexIndices := vertexIndices, varray := varray, narray := narray }

/-! ## Triangles -/

/-- The array `voxelIDs` of `GenerateTriangles`: the keys of the four cells
around `edge`, `nodeID - ENCODED_EDGE_NODE_OFFSETS[axis * 4 + i]` in unsigned
32-bit arithmetic with `nodeID = edge & ~0xc0000000`.  Axis bits 3, which the
scan never produces, index past the table; the model reads 0 there. -/
def edgeVoxelIDs (edge : Nat) : List Nat :=
  let axis := edgeAxis edge
  let nodeID := edge &&& 0x3fffffff
  (List.range 4).map (fun i =>
    (nodeID + 2 ^ 32 - ENCODED_EDGE_NODE_OFFSETS.getD (axis * 4 + i) 0) % 2 ^ 32)

/-- The array `edgeVoxels` of `GenerateTriangles`: the indices of those of the
four cells that the table knows; `numFoundVoxels` is its length. -/
def edgeVoxels (vertexIndices : VoxelIndexMap) (edge : Nat) : List Int :=
  (edgeVoxelIDs edge).filterMap (fun id => vertexIndices.find id)

/-- The indices one iteration of `GenerateTriangles` appends to `triarray`. -/
def edgeTriangles (vertexIndices : VoxelIndexMap) (edge : Nat) (info : EdgeInfo) : List Int :=
  let ev := edgeVoxels vertexIndices edge
  if ev.length < 4 then []
  else if info.winding then
    [ev.getD 0 0, ev.getD 1 0, ev.getD 3 0, ev.getD 0 0, ev.getD 3 0, ev.getD 2 0]
  else
    [ev.getD 0 0, ev.getD 3 0, ev.getD 1 0, ev.getD 0 0, ev.getD 2 0, ev.getD 3 0]

/-- Function `GenerateTriangles`. -/
def GenerateTriangles (edges : EdgeInfoMap) (vertexIndices : VoxelIndexMap)
    (triarray : List Int) : List Int :=
  edges.foldl (fun tri pair => tri ++ edgeTriangles vertexIndices pair.1 pair.2) triarray

/-! ## Auxiliary notions used in the statements -/

/-- The cells `(x, y, z)` of an `n × n × n` lattice in the order `forXYZ`
visits them. -/
def cells (n : Nat) : List (Nat × Nat × Nat) :=
  (List.range n).flatMap (fun x =>
    (List.range n).flatMap (fun y => (List.range n).map (fun z => (x, y, z))))

/-- The invariant of the density storage: the dense buffer is allocated
exactly when the fill state is `MIX`. -/
def DensityInvariant (vd : TVoxelData) : Prop :=
  vd.density_data.isSome = true ↔ vd.density_state = .MIX

/-- All four cells around `edge` are keys of the table. -/
def resolved (vertexIndices : VoxelIndexMap) (edge : Nat) : Bool :=
  (edgeVoxelIDs edge).all (fun id => (vertexIndices.find id).isSome)

/-- The (cell, axis) pairs in the order `FindActiveVoxels` visits them. -/
def scanOrder (n : Nat) : List ((Nat × Nat × Nat) × Nat) :=
  (cells n).flatMap (fun c => (List.range 3).map (fun axis => (c, axis)))

/-- The positive neighbour of the cell `(x, y, z)` along `axis`. -/
def positiveNeighbour (axis x y z : Nat) : Int × Int × Int :=
  if axis = 0 then (x + 1, y, z) else if axis = 1 then (x, y + 1, z) else (x, y, z + 1)

/-- The crossing condition in words: of the densities read at the cell and at
its positive neighbour along `axis`, exactly one is at least `1 / 2`. -/
def isCrossing (vd : TVoxelData) (axis x y z : Nat) : Prop :=
  let d1 := vd.getDensity x y z
  let d2 := vd.getDensity (positiveNeighbour axis x y z).1 (positiveNeighbour axis x y z).2.1
    (positiveNeighbour axis x y z).2.2
  (d1 ≥ 1 / 2 ∧ d2 < 1 / 2) ∨ (d1 < 1 / 2 ∧ d2 ≥ 1 / 2)

/-- The midpoint of two points. -/
def midpoint3 (a b : FVector) : FVector :=
  ⟨(a.X + b.X) / 2, (a.Y + b.Y) / 2, (a.Z + b.Z) / 2⟩

/-! ## Sample inputs -/

/-- A stand-in for the engine's normalisation in the examples: the vector
itself. -/
def sampleNormal : FVector4 → ℚ → FVector4 := fun v _ => v

/-- A stand-in for the solver in the examples: the first point. -/
def sampleSolver : List FVector4 → List FVector4 → Nat → FVector4 :=
  fun p _ _ => p.getD 0 FVector4.init

/-- The `4 × 4 × 4` field of side 300 with `setDensity(1, 0, 0, 1)` applied to
the fresh field: every density is 0 except the one at `(1, 0, 0)`. -/
def sampleSingleCell : TVoxelData :=
  (TVoxelData.construct 4 300).setDensity (fun _ => 0) 1 0 0 1

/-- A `2 × 2 × 2` field declared full (`deinitializeDensity(ALL)`) and then
made dense by `setVoxelPointDensity(0, 0, 0, 255)`: a `MIX` field all of whose
cells hold the byte 255. -/
def sampleFullDense : TVoxelData :=
  ((TVoxelData.construct 2 500).deinitializeDensity .ALL).setVoxelPointDensity
    (fun _ => 0) 0 0 0 255

/-- The index at which `getDensity(x, y, z)` reads `density_data`, when it
reads it: `none` on a `NULL` buffer and when the coordinate test fails. -/
def TVoxelData.getDensityIndex (vd : TVoxelData) (x y z : Int) : Option Int :=
  match vd.density_data with
  | none => none
  | some _ =>
    if x < vd.voxel_num ∧ y < vd.voxel_num ∧ z < vd.voxel_num then
      some (x * vd.voxel_num * vd.voxel_num + y * vd.voxel_num + z)
    else none

/-- The rules of `vertexInterpolation` as the specification words them, in
priority order, with `ε = 0.00001`. -/
def vertexInterpolationRules (p1 p2 : FVector) (v1 v2 : ℚ) : FVector :=
  if |1 / 2 - v1| < 1 / 100000 then p1
  else if |1 / 2 - v2| < 1 / 100000 then p2
  else if |v1 - v2| < 1 / 100000 then p1
  else p1 + (p2 - p1) * ((1 / 2 - v1) / (v2 - v1))

/-- The `4 × 4 × 4` field of side 300 with `setDensity(1, 0, 2, 1)` applied to
the fresh field: every density is 0 except the one at `(1, 0, 2)`, a cell of
the face `y = 0`. -/
def sampleBoundaryCell : TVoxelData :=
  (TVoxelData.construct 4 300).setDensity (fun _ => 0) 1 0 2 1

/-- The twelve candidate edge keys of a voxel: `voxelID + ENCODED_EDGE_OFFSETS[i]`
in unsigned 32-bit arithmetic, `i < 12`. -/
def candidateEdgeKeys (voxelID : Nat) : List Nat :=
  ENCODED_EDGE_OFFSETS.map (fun o => (voxelID + o) % 2 ^ 32)

/-- The records of the candidate edges of a voxel that are present in the edge
map. -/
def presentEdges (edges : EdgeInfoMap) (voxelID : Nat) : List EdgeInfo :=
  (candidateEdgeKeys voxelID).filterMap (fun k => edges.find k)

/-- The unweighted arithmetic mean of the normals of a list of edge records,
as a three-component vector. -/
def meanNormal (l : List EdgeInfo) : FVector :=
  ⟨(l.map (fun e => e.normal.X)).sum / (l.length : ℚ),
   (l.map (fun e => e.normal.Y)).sum / (l.length : ℚ),
   (l.map (fun e => e.normal.Z)).sum / (l.length : ℚ)⟩

/-- The list of cached cell indices at level `l`: `substanceCacheLOD[l].cellList`. -/
def cacheList (vd : TVoxelData) (l : Nat) : List Int :=
  (vd.substanceCacheLOD.getD l ⟨[]⟩).cellList

/-- The raw densities at the eight corners of the coarse cell with origin
`(rx, ry, rz)` and step `s`. -/
def cellCorners (vd : TVoxelData) (rx ry rz s : Int) : List Nat :=
  [ vd.getRawDensity (rx + s) ry (rz + s),
    vd.getRawDensity (rx + s) (ry + s) (rz + s),
    vd.getRawDensity rx ry (rz + s),
    vd.getRawDensity rx (ry + s) (rz + s),
    vd.getRawDensity (rx + s) ry rz,
    vd.getRawDensity (rx + s) (ry + s) rz,
    vd.getRawDensity rx ry rz,
    vd.getRawDensity rx (ry + s) rz ]

/-- The coarse cell straddles the isolevel: its eight corner densities are
neither all above 127 nor all at most 127. -/
def nonUniformCell (vd : TVoxelData) (rx ry rz s : Int) : Prop :=
  ¬ (∀ d ∈ cellCorners vd rx ry rz s, d > 127) ∧ ¬ (∀ d ∈ cellCorners vd rx ry rz s, d ≤ 127)

instance (vd : TVoxelData) (rx ry rz s : Int) : Decidable (nonUniformCell vd rx ry rz s) := by
  unfold nonUniformCell
  infer_instance

/-- A state of the cached traversal of `vd`: the density buffer and the
resolution are those of `vd` and there are `LOD_ARRAY_SIZE` cache lists. -/
def sameField (vd v : TVoxelData) : Prop :=
  v.density_data = vd.density_data ∧ v.voxel_num = vd.voxel_num ∧
    v.substanceCacheLOD.length = LOD_ARRAY_SIZE

/-- What visiting the lattice point `(x, y, z)` adds to the cache list of
level `l` (step `s = 1 << l`): the linear index of the coarse cell ending at
the point, when the point is a multiple of `s` at distance at least `s` from
the lower faces and the cell straddles the isolevel. -/
def levelContribution (vd : TVoxelData) (l : Nat) (x y z : Int) : List Int :=
  if ((1 <<< l : Nat) : Int) ≤ x ∧ ((1 <<< l : Nat) : Int) ≤ y ∧ ((1 <<< l : Nat) : Int) ≤ z ∧
      x % ((1 <<< l : Nat) : Int) = 0 ∧ y % ((1 <<< l : Nat) : Int) = 0 ∧
      z % ((1 <<< l : Nat) : Int) = 0 ∧
      nonUniformCell vd (x - ((1 <<< l : Nat) : Int)) (y - ((1 <<< l : Nat) : Int))
        (z - ((1 <<< l : Nat) : Int)) ((1 <<< l : Nat) : Int) then
    [vd.clcLinearIndex (x - ((1 <<< l : Nat) : Int)) (y - ((1 <<< l : Nat) : Int))
      (z - ((1 <<< l : Nat) : Int))]
  else []

/-- The body of the loop of `performSubstanceCacheLOD` at level `lod`. -/
def cacheLevelStep (x y z : Int) (v : TVoxelData) (lod : Nat) : TVoxelData :=
  let s : Int := ((1 <<< lod : Nat) : Int)
  if x ≥ s ∧ y ≥ s ∧ z ≥ s then
    if x % s = 0 ∧ y % s = 0 ∧ z % s = 0 then
      (v.performCellSubstanceCaching x y z lod s).1
    else v
  else v

/-- The twelve lattice edges of the finest-level cell with origin
`(rx, ry, rz)`, each as `(axis, x, y, z)`: the edge leaving the lattice point
`(x, y, z)` along `axis`. -/
def cellEdges (rx ry rz : Nat) : List (Nat × Nat × Nat × Nat) :=
  [ (0, rx, ry, rz), (0, rx, ry, rz + 1), (0, rx, ry + 1, rz), (0, rx, ry + 1, rz + 1),
    (1, rx, ry, rz), (1, rx, ry, rz + 1), (1, rx + 1, ry, rz), (1, rx + 1, ry, rz + 1),
    (2, rx, ry, rz), (2, rx, ry + 1, rz), (2, rx + 1, ry, rz), (2, rx + 1, ry + 1, rz) ]

/-! # Properties -/

/-! ## Packed keys -/

theorem toU32_natCast (n : Nat) (h : n < 2 ^ 32) : toU32 (n : Int) = n := by
  unfold toU32
  omega

theorem lor_shift_eq_add (b a i : Nat) (h : b < 2 ^ i) : b ||| (a <<< i) = b + a * 2 ^ i := by
  rw [Nat.shiftLeft_eq, Nat.lor_comm, Nat.mul_comm a, ← Nat.mul_add_lt_is_or h a, Nat.add_comm]

theorem pack_eq_add (x y z a : Nat) (hx : x < 1024) (hy : y < 1024) (hz : z < 1024) :
    x ||| (y <<< 10) ||| (z <<< 20) ||| (a <<< 30) = x + y * 1024 + z * 1048576 + a * 1073741824 := by
  have h1 : x ||| (y <<< 10) = x + y * 2 ^ 10 := lor_shift_eq_add x y 10 (by omega)
  have h2 : (x + y * 2 ^ 10) ||| (z <<< 20) = (x + y * 2 ^ 10) + z * 2 ^ 20 :=
    lor_shift_eq_add _ z 20 (by omega)
  have h3 : (x + y * 2 ^ 10 + z * 2 ^ 20) ||| (a <<< 30) = (x + y * 2 ^ 10 + z * 2 ^ 20) + a * 2 ^ 30 :=
    lor_shift_eq_add _ a 30 (by omega)
  rw [h1, h2, h3]
  norm_num

theorem EncodeAxisUniqueID_eq (axis x y z : Nat) (ha : axis < 4) (hx : x < 1024) (hy : y < 1024)
    (hz : z < 1024) :
    EncodeAxisUniqueID axis x y z = x + y * 1024 + z * 1048576 + axis * 1073741824 := by
  unfold EncodeAxisUniqueID
  rw [toU32_natCast x (by omega), toU32_natCast y (by omega), toU32_natCast z (by omega),
    toU32_natCast axis (by omega), Nat.shiftLeft_zero, pack_eq_add x y z axis hx hy hz]
  omega

theorem EncodeVoxelUniqueID_eq (x y z : Nat) (w : Int) (hx : x < 1024) (hy : y < 1024)
    (hz : z < 1024) :
    EncodeVoxelUniqueID ⟨x, y, z, w⟩ = x + y * 1024 + z * 1048576 := by
  unfold EncodeVoxelUniqueID
  simp only
  rw [toU32_natCast x (by omega), toU32_natCast y (by omega), toU32_natCast z (by omega)]
  have h := pack_eq_add x y z 0 hx hy hz
  simp only [Nat.zero_shiftLeft, Nat.or_zero, Nat.zero_mul, Nat.add_zero] at h
  rw [h]
  omega

theorem DecodeVoxelUniqueID_eq (id : Nat) :
    DecodeVoxelUniqueID id = ⟨(id % 1024 : Nat), (id / 1024 % 1024 : Nat), (id / 1048576 % 1024 : Nat), 0⟩ := by
  unfold DecodeVoxelUniqueID
  have e : (0x3ff : Nat) = 2 ^ 10 - 1 := by norm_num
  rw [e, Nat.and_pow_two_sub_one_eq_mod, Nat.and_pow_two_sub_one_eq_mod,
    Nat.and_pow_two_sub_one_eq_mod, Nat.shiftRight_eq_div_pow, Nat.shiftRight_eq_div_pow]

theorem edgeAxis_eq (id : Nat) : edgeAxis id = id / 1073741824 % 256 := by
  unfold edgeAxis
  have e : (0xff : Nat) = 2 ^ 8 - 1 := by norm_num
  rw [e, Nat.and_pow_two_sub_one_eq_mod, Nat.shiftRight_eq_div_pow]

/-- C1: for coordinates below 1024 and an axis among 0, 1, 2, decoding the cell
key gives the coordinates back, decoding the edge key the way
`GenerateTriangles` does gives the axis and the coordinates back, and both
encodings are injective on that domain. -/
theorem C1_encode_decode_roundtrip (x y z axis : Nat) (hx : x < 1024) (hy : y < 1024)
    (hz : z < 1024) (ha : axis < 3) :
    DecodeVoxelUniqueID (EncodeVoxelUniqueID ⟨x, y, z, 0⟩) = ⟨x, y, z, 0⟩ ∧
    DecodeVoxelUniqueID (EncodeAxisUniqueID axis x y z) = ⟨x, y, z, 0⟩ ∧
    edgeAxis (EncodeAxisUniqueID axis x y z) = axis ∧
    (∀ x2 y2 z2 : Nat, x2 < 1024 → y2 < 1024 → z2 < 1024 →
      EncodeVoxelUniqueID ⟨x, y, z, 0⟩ = EncodeVoxelUniqueID ⟨x2, y2, z2, 0⟩ →
      x = x2 ∧ y = y2 ∧ z = z2) ∧
    (∀ axis2 x2 y2 z2 : Nat, axis2 < 3 → x2 < 1024 → y2 < 1024 → z2 < 1024 →
      EncodeAxisUniqueID axis x y z = EncodeAxisUniqueID axis2 x2 y2 z2 →
      axis = axis2 ∧ x = x2 ∧ y = y2 ∧ z = z2) := by
  refine ⟨?_, ?_, ?_, ?_, ?_⟩
  · rw [EncodeVoxelUniqueID_eq x y z 0 hx hy hz, DecodeVoxelUniqueID_eq]
    congr 1 <;> congr 1 <;> omega
  · rw [EncodeAxisUniqueID_eq axis x y z (by omega) hx hy hz, DecodeVoxelUniqueID_eq]
    congr 1 <;> congr 1 <;> omega
  · rw [EncodeAxisUniqueID_eq axis x y z (by omega) hx hy hz, edgeAxis_eq]
    omega
  · intro x2 y2 z2 hx2 hy2 hz2 h
    rw [EncodeVoxelUniqueID_eq x y z 0 hx hy hz, EncodeVoxelUniqueID_eq x2 y2 z2 0 hx2 hy2 hz2] at h
    omega
  · intro axis2 x2 y2 z2 ha2 hx2 hy2 hz2 h
    rw [EncodeAxisUniqueID_eq axis x y z (by omega) hx hy hz,
      EncodeAxisUniqueID_eq axis2 x2 y2 z2 (by omega) hx2 hy2 hz2] at h
    omega

/-- C1 at the cell `(5, 1023, 7)` and the axis 2. -/
theorem C1_encode_decode_roundtrip_witness :
    DecodeVoxelUniqueID (EncodeVoxelUniqueID ⟨(5 : Nat), (1023 : Nat), (7 : Nat), 0⟩)
        = ⟨(5 : Nat), (1023 : Nat), (7 : Nat), 0⟩ ∧
    DecodeVoxelUniqueID (EncodeAxisUniqueID (2 : Nat) (5 : Nat) (1023 : Nat) (7 : Nat))
        = ⟨(5 : Nat), (1023 : Nat), (7 : Nat), 0⟩ ∧
    edgeAxis (EncodeAxisUniqueID (2 : Nat) (5 : Nat) (1023 : Nat) (7 : Nat)) = 2 ∧
    (∀ x2 y2 z2 : Nat, x2 < 1024 → y2 < 1024 → z2 < 1024 →
      EncodeVoxelUniqueID ⟨(5 : Nat), (1023 : Nat), (7 : Nat), 0⟩
        = EncodeVoxelUniqueID ⟨x2, y2, z2, 0⟩ →
      5 = x2 ∧ 1023 = y2 ∧ 7 = z2) ∧
    (∀ axis2 x2 y2 z2 : Nat, axis2 < 3 → x2 < 1024 → y2 < 1024 → z2 < 1024 →
      EncodeAxisUniqueID (2 : Nat) (5 : Nat) (1023 : Nat) (7 : Nat)
        = EncodeAxisUniqueID axis2 x2 y2 z2 →
      2 = axis2 ∧ 5 = x2 ∧ 1023 = y2 ∧ 7 = z2) :=
  C1_encode_decode_roundtrip 5 1023 7 2 (by decide) (by decide) (by decide) (by decide)

/-! ## Traversals -/

theorem foldl_flatMap_eq {α β σ : Type} (f : σ → β → σ) (g : α → List β) (l : List α) (s : σ) :
    (l.flatMap g).foldl f s = l.foldl (fun s a => (g a).foldl f s) s := by
  induction l generalizing s with
  | nil => rfl
  | cons a l ih => simp [List.flatMap_cons, List.foldl_append, ih]

theorem forXYZ_eq_foldl {σ : Type} (n : Nat) (body : Nat → Nat → Nat → σ → σ) (s : σ) :
    forXYZ n body s = (cells n).foldl (fun s c => body c.1 c.2.1 c.2.2 s) s := by
  unfold forXYZ cells
  rw [foldl_flatMap_eq]
  congr 1
  funext s x
  rw [foldl_flatMap_eq]
  congr 1
  funext s y
  rw [List.foldl_map]

theorem mem_cells (n x y z : Nat) : (x, y, z) ∈ cells n ↔ x < n ∧ y < n ∧ z < n := by
  simp only [cells, List.mem_flatMap, List.mem_map, List.mem_range, Prod.mk.injEq]
  constructor
  · rintro ⟨a, ha, b, hb, c, hc, rfl, rfl, rfl⟩
    exact ⟨ha, hb, hc⟩
  · rintro ⟨hx, hy, hz⟩
    exact ⟨x, hx, y, hy, z, hz, rfl, rfl, rfl⟩

theorem foldl_invariant {α σ : Type} (P : σ → Prop) (f : σ → α → σ) (l : List α) (s : σ)
    (h0 : P s) (hstep : ∀ s a, a ∈ l → P s → P (f s a)) : P (l.foldl f s) := by
  induction l generalizing s with
  | nil => exact h0
  | cons a l ih =>
    simp only [List.foldl_cons]
    exact ih _ (hstep s a (List.mem_cons_self _ _) h0)
      (fun s b hb hs => hstep s b (List.mem_cons_of_mem _ hb) hs)

theorem forXYZ_invariant {σ : Type} (P : σ → Prop) (n : Nat) (body : Nat → Nat → Nat → σ → σ)
    (s : σ) (h0 : P s) (hstep : ∀ x y z s, x < n → y < n → z < n → P s → P (body x y z s)) :
    P (forXYZ n body s) := by
  rw [forXYZ_eq_foldl]
  apply foldl_invariant P _ _ _ h0
  rintro s ⟨x, y, z⟩ hc hs
  rw [mem_cells] at hc
  exact hstep x y z s hc.1 hc.2.1 hc.2.2 hs

/-! ## Density storage -/

theorem linear_index_inj (n a z a2 z2 : Int) (hz : 0 ≤ z) (hzn : z < n) (hz2 : 0 ≤ z2)
    (hzn2 : z2 < n) (h : a * n + z = a2 * n + z2) : a = a2 ∧ z = z2 := by
  have ha : a = a2 := by
    rcases lt_trichotomy a a2 with hlt | heq | hgt
    · exfalso
      have : (a2 - a) * n ≥ 1 * n := by
        apply mul_le_mul_of_nonneg_right <;> omega
      nlinarith
    · exact heq
    · exfalso
      have : (a - a2) * n ≥ 1 * n := by
        apply mul_le_mul_of_nonneg_right <;> omega
      nlinarith
  subst ha
  exact ⟨rfl, by omega⟩

theorem clcLinearIndex_inj (n x y z x2 y2 z2 : Int) (hy : 0 ≤ y) (hyn : y < n) (hz : 0 ≤ z)
    (hzn : z < n) (hy2 : 0 ≤ y2) (hyn2 : y2 < n) (hz2 : 0 ≤ z2) (hzn2 : z2 < n)
    (h : x * n * n + y * n + z = x2 * n * n + y2 * n + z2) : x = x2 ∧ y = y2 ∧ z = z2 := by
  have h1 : (x * n + y) * n + z = (x2 * n + y2) * n + z2 := by linarith
  obtain ⟨h2, h3⟩ := linear_index_inj n _ z _ z2 hz hzn hz2 hzn2 h1
  obtain ⟨h4, h5⟩ := linear_index_inj n x y x2 y2 hy hyn hy2 hyn2 h2
  exact ⟨h4, h5, h3⟩

theorem quantize_zero : quantize 0 = 0 := by
  unfold quantize; norm_num

theorem quantize_one : quantize 1 = 255 := by
  unfold quantize; norm_num; rfl

/-- The byte `initializeDensity` stores in every cell. -/
theorem initializeDensity_step (st : TVoxelDataFillState) (bm n : Nat) (sz : ℚ)
    (md : Option (Int → Nat)) (sc : List TSubstanceCache) (b0 : Int → Nat) (x y z : Nat)
    (hx : x < n) (hy : y < n) (hz : z < n) :
    (let s : TVoxelData := ⟨st, bm, n, sz, some b0, md, sc⟩
     let v := if s.density_state = .ALL then s.storeDensity x y z 1 else s
     if v.density_state = .ZERO then v.storeDensity x y z 0 else v)
    = ⟨st, bm, n, sz,
        some (match st with
          | .ALL => store b0 ((x : Int) * n * n + (y : Int) * n + z) 255
          | .ZERO => store b0 ((x : Int) * n * n + (y : Int) * n + z) 0
          | .MIX => b0), md, sc⟩ := by
  have hx1 : ((x : Nat) : Int) < n := by exact_mod_cast hx
  have hy1 : ((y : Nat) : Int) < n := by exact_mod_cast hy
  have hz1 : ((z : Nat) : Int) < n := by exact_mod_cast hz
  cases st <;> simp [TVoxelData.storeDensity, hx1, hy1, hz1] <;>
    norm_num [quantize_zero, quantize_one]

/-- The buffer `initializeDensity` leaves behind: `heap` with the bulk byte of
the fill state stored at the index of every cell. -/
theorem initializeDensity_eq (heap : Int → Nat) (vd : TVoxelData) :
    ∃ buf : Int → Nat, vd.initializeDensity heap = { vd with density_data := some buf } ∧
      (∀ x y z : Nat, x < vd.voxel_num → y < vd.voxel_num → z < vd.voxel_num →
        (vd.density_state = .ALL →
          buf ((x : Int) * vd.voxel_num * vd.voxel_num + (y : Int) * vd.voxel_num + z) = 255) ∧
        (vd.density_state = .ZERO →
          buf ((x : Int) * vd.voxel_num * vd.voxel_num + (y : Int) * vd.voxel_num + z) = 0)) := by
  obtain ⟨st, bm, n, sz, dd, md, sc⟩ := vd
  unfold TVoxelData.initializeDensity
  rw [forXYZ_eq_foldl]
  simp only
  have key : ∀ (l : List (Nat × Nat × Nat)) (b0 : Int → Nat),
      (∀ c ∈ l, c.1 < n ∧ c.2.1 < n ∧ c.2.2 < n) →
      ∃ buf : Int → Nat,
        l.foldl (fun (s : TVoxelData) c =>
          let v := if s.density_state = .ALL then s.storeDensity c.1 c.2.1 c.2.2 1 else s
          if v.density_state = .ZERO then v.storeDensity c.1 c.2.1 c.2.2 0 else v)
          ⟨st, bm, n, sz, some b0, md, sc⟩ = ⟨st, bm, n, sz, some buf, md, sc⟩ ∧
        (∀ i, (∃ c ∈ l, (c.1 : Int) * n * n + (c.2.1 : Int) * n + (c.2.2 : Int) = i) →
          (st = .ALL → buf i = 255) ∧ (st = .ZERO → buf i = 0)) ∧
        (∀ i, (st = .ALL → b0 i = 255) → (st = .ALL → buf i = 255)) ∧
        (∀ i, (st = .ZERO → b0 i = 0) → (st = .ZERO → buf i = 0)) := by
    intro l
    induction l with
    | nil =>
      intro b0 _
      exact ⟨b0, rfl, by simp, fun i h => h, fun i h => h⟩
    | cons c l ih =>
      intro b0 hl
      have hc := hl c (List.mem_cons_self _ _)
      have hl2 : ∀ c ∈ l, c.1 < n ∧ c.2.1 < n ∧ c.2.2 < n :=
        fun c2 h2 => hl c2 (List.mem_cons_of_mem _ h2)
      simp only [List.foldl_cons]
      have hstep := initializeDensity_step st bm n sz md sc b0 c.1 c.2.1 c.2.2 hc.1 hc.2.1 hc.2.2
      simp only at hstep
      rw [hstep]
      obtain ⟨buf, hb, hv, hA, hZ⟩ := ih _ hl2
      refine ⟨buf, hb, ?_, ?_, ?_⟩
      · intro i hi
        simp only [List.mem_cons, exists_eq_or_imp] at hi
        rcases hi with hi | hi
        · constructor
          · intro hs
            apply hA i _ hs
            intro _
            subst hs
            simp [store, hi]
          · intro hs
            apply hZ i _ hs
            intro _
            subst hs
            simp [store, hi]
        · exact hv i hi
      · intro i h0 hs
        apply hA i _ hs
        intro _
        subst hs
        simp only [store]
        split
        · rfl
        · exact h0 rfl
      · intro i h0 hs
        apply hZ i _ hs
        intro _
        subst hs
        simp only [store]
        split
        · rfl
        · exact h0 rfl
  obtain ⟨buf, hb, hv, _, _⟩ := key (cells n) heap (by
    rintro ⟨x, y, z⟩ hc
    exact (mem_cells _ x y z).1 hc)
  refine ⟨buf, hb, ?_⟩
  intro x y z hx hy hz
  exact hv _ ⟨(x, y, z), (mem_cells _ x y z).2 ⟨hx, hy, hz⟩, rfl⟩

theorem clamp_eq (d : ℚ) :
    (if (if d < 0 then 0 else d) > 1 then 1 else (if d < 0 then 0 else d)) = max 0 (min d 1) := by
  by_cases h0 : d < 0
  · have h1 : ¬ (0 : ℚ) > 1 := by norm_num
    rw [if_pos h0, if_neg h1, min_eq_left (by linarith), max_eq_left (by linarith)]
  · rw [if_neg h0]
    by_cases h1 : d > 1
    · rw [if_pos h1, min_eq_right (by linarith), max_eq_right (by norm_num)]
    · rw [if_neg h1, min_eq_left (by linarith), max_eq_right (by linarith)]

theorem quantize_clamped (c : ℚ) (h0 : 0 ≤ c) (h1 : c ≤ 1) :
    ((quantize c : Nat) : ℚ) = ((⌊255 * c⌋ : Int) : ℚ) := by
  unfold quantize
  have hf0 : 0 ≤ ⌊255 * c⌋ := Int.floor_nonneg.2 (by linarith)
  have hf1 : ⌊255 * c⌋ ≤ 255 := by
    have : ⌊255 * c⌋ ≤ ⌊(255 : ℚ)⌋ := Int.floor_mono (by linarith)
    simpa using this
  have e : ((⌊255 * c⌋.toNat % 256 : Nat) : Int) = ⌊255 * c⌋ := by omega
  have e2 : (((⌊255 * c⌋.toNat % 256 : Nat) : Int) : ℚ) = ((⌊255 * c⌋ : Int) : ℚ) := by rw [e]
  rw [← e2, Int.cast_natCast]

theorem getDensity_storeDensity_same (vd : TVoxelData) (buf : Int → Nat)
    (hb : vd.density_data = some buf) (x y z : Int) (d : ℚ) (hx : x < vd.voxel_num)
    (hy : y < vd.voxel_num) (hz : z < vd.voxel_num) :
    (vd.storeDensity x y z d).getDensity x y z = ((⌊255 * max 0 (min d 1)⌋ : Int) : ℚ) / 255 := by
  have hc0 : (0 : ℚ) ≤ max 0 (min d 1) := le_max_left _ _
  have hc1 : max 0 (min d 1) ≤ (1 : ℚ) := max_le (by norm_num) (min_le_right _ _)
  simp only [TVoxelData.storeDensity, hb, hx, hy, hz, and_self, if_true, TVoxelData.getDensity,
    store, clamp_eq]
  rw [quantize_clamped _ hc0 hc1]

theorem getDensity_storeDensity_other (vd : TVoxelData) (buf : Int → Nat)
    (hb : vd.density_data = some buf) (x y z x2 y2 z2 : Int) (d : ℚ)
    (hy0 : 0 ≤ y) (hy : y < vd.voxel_num) (hz0 : 0 ≤ z) (hz : z < vd.voxel_num)
    (hy20 : 0 ≤ y2) (hy2 : y2 < vd.voxel_num) (hz20 : 0 ≤ z2) (hz2 : z2 < vd.voxel_num)
    (hne : ¬ (x2 = x ∧ y2 = y ∧ z2 = z)) :
    (vd.storeDensity x y z d).getDensity x2 y2 z2 = vd.getDensity x2 y2 z2 := by
  unfold TVoxelData.storeDensity
  rw [hb]
  simp only
  split
  · simp only [TVoxelData.getDensity, hb]
    split
    · have hi : ¬ (x2 * vd.voxel_num * vd.voxel_num + y2 * vd.voxel_num + z2
          = x * vd.voxel_num * vd.voxel_num + y * vd.voxel_num + z) := by
        intro h
        exact hne (clcLinearIndex_inj _ _ _ _ _ _ _ hy20 hy2 hz20 hz2 hy0 hy hz0 hz h)
      simp [store, hi]
    · rfl
  · rfl

/-- C7: on an in-range cell, `getDensity` after `setDensity(x, y, z, d)` is
`floor(255 * clamp(d, 0, 1)) / 255`, which for `d` in `[0, 1]` is within less
than `1 / 255` of `d`. -/
theorem C7_getDensity_after_setDensity (heap : Int → Nat) (vd : TVoxelData) (x y z : Int) (d : ℚ)
    (_hx0 : 0 ≤ x) (hx : x < vd.voxel_num) (_hy0 : 0 ≤ y) (hy : y < vd.voxel_num)
    (_hz0 : 0 ≤ z) (hz : z < vd.voxel_num) :
    (vd.setDensity heap x y z d).getDensity x y z
        = ((⌊255 * max 0 (min d 1)⌋ : Int) : ℚ) / 255 ∧
    (0 ≤ d → d ≤ 1 → |(vd.setDensity heap x y z d).getDensity x y z - d| < 1 / 255) := by
  have main : (vd.setDensity heap x y z d).getDensity x y z
      = ((⌊255 * max 0 (min d 1)⌋ : Int) : ℚ) / 255 := by
    unfold TVoxelData.setDensity
    cases hd : vd.density_data with
    | none =>
      simp only
      by_cases hZ : vd.density_state = .ZERO ∧ d = 0
      · rw [if_pos hZ]
        simp [TVoxelData.getDensity, hd, hZ.1, hZ.2]
      · rw [if_neg hZ]
        by_cases hA : vd.density_state = .ALL ∧ d = 1
        · rw [if_pos hA]
          simp [TVoxelData.getDensity, hd, hA.1, hA.2]
        · rw [if_neg hA]
          obtain ⟨buf, hb, _⟩ := initializeDensity_eq heap vd
          rw [hb]
          exact getDensity_storeDensity_same _ buf rfl x y z d hx hy hz
    | some buf =>
      simp only
      exact getDensity_storeDensity_same vd buf hd x y z d hx hy hz
  refine ⟨main, ?_⟩
  intro h0 h1
  rw [main, min_eq_left h1, max_eq_right (by linarith)]
  have hle : ((⌊255 * d⌋ : Int) : ℚ) ≤ 255 * d := Int.floor_le _
  have hlt : 255 * d < ((⌊255 * d⌋ : Int) : ℚ) + 1 := Int.lt_floor_add_one _
  rw [abs_lt]
  constructor <;> linarith

/-- C7 on the fresh `4 × 4 × 4` field, at the cell `(1, 2, 3)` with the
density `7 / 10`. -/
theorem C7_getDensity_after_setDensity_witness :
    (((TVoxelData.construct 4 500).setDensity (fun _ => 0) 1 2 3 (7 / 10)).getDensity 1 2 3
        = ((⌊255 * max 0 (min (7 / 10 : ℚ) 1)⌋ : Int) : ℚ) / 255) ∧
    ((0 : ℚ) ≤ 7 / 10 → (7 / 10 : ℚ) ≤ 1 →
      |((TVoxelData.construct 4 500).setDensity (fun _ => 0) 1 2 3 (7 / 10)).getDensity 1 2 3
        - 7 / 10| < 1 / 255) :=
  C7_getDensity_after_setDensity (fun _ => 0) (TVoxelData.construct 4 500) 1 2 3 (7 / 10)
    (by decide) (by decide) (by decide) (by decide) (by decide) (by decide)

/-- C8: on a field satisfying the storage invariant, `setDensity` on an
in-range cell leaves `getDensity` of every other in-range cell as it was; this
covers the call that allocates the buffer, after which the other cells read the
former bulk value. -/
theorem C8_setDensity_frame (heap : Int → Nat) (vd : TVoxelData) (hinv : DensityInvariant vd)
    (x y z x2 y2 z2 : Int) (d : ℚ)
    (_hx0 : 0 ≤ x) (_hx : x < vd.voxel_num) (hy0 : 0 ≤ y) (hy : y < vd.voxel_num)
    (hz0 : 0 ≤ z) (hz : z < vd.voxel_num)
    (hx20 : 0 ≤ x2) (hx2 : x2 < vd.voxel_num) (hy20 : 0 ≤ y2) (hy2 : y2 < vd.voxel_num)
    (hz20 : 0 ≤ z2) (hz2 : z2 < vd.voxel_num)
    (hne : ¬ (x2 = x ∧ y2 = y ∧ z2 = z)) :
    (vd.setDensity heap x y z d).getDensity x2 y2 z2 = vd.getDensity x2 y2 z2 := by
  unfold TVoxelData.setDensity
  cases hd : vd.density_data with
  | none =>
    simp only
    by_cases hZ : vd.density_state = .ZERO ∧ d = 0
    · rw [if_pos hZ]
    · rw [if_neg hZ]
      by_cases hA : vd.density_state = .ALL ∧ d = 1
      · rw [if_pos hA]
      · rw [if_neg hA]
        obtain ⟨buf, hb, hfill⟩ := initializeDensity_eq heap vd
        rw [hb]
        refine (getDensity_storeDensity_other
          { ({ vd with density_data := some buf } : TVoxelData) with density_state := .MIX }
          buf rfl x y z x2 y2 z2 d hy0 hy hz0 hz hy20 hy2 hz20 hz2 hne).trans ?_
        have hmix : vd.density_state ≠ .MIX := by
          intro hm
          have := hinv.2 hm
          rw [hd] at this
          exact absurd this (by simp)
        have hx2n : x2.toNat < vd.voxel_num := by omega
        have hy2n : y2.toNat < vd.voxel_num := by omega
        have hz2n : z2.toNat < vd.voxel_num := by omega
        have hf := hfill x2.toNat y2.toNat z2.toNat hx2n hy2n hz2n
        have ex : ((x2.toNat : Nat) : Int) = x2 := Int.toNat_of_nonneg hx20
        have ey : ((y2.toNat : Nat) : Int) = y2 := Int.toNat_of_nonneg hy20
        have ez : ((z2.toNat : Nat) : Int) = z2 := Int.toNat_of_nonneg hz20
        rw [ex, ey, ez] at hf
        simp only [TVoxelData.getDensity, hd, hx2, hy2, hz2, and_self, if_true]
        cases hs : vd.density_state with
        | ZERO => rw [hf.2 hs]; simp
        | ALL => rw [hf.1 hs]; simp
        | MIX => exact absurd hs hmix
  | some buf =>
    simp only
    exact getDensity_storeDensity_other vd buf hd x y z x2 y2 z2 d hy0 hy hz0 hz hy20 hy2 hz20
      hz2 hne


/-- C8 on the fresh `4 × 4 × 4` field: the write at `(1, 2, 3)` allocates the
buffer and the cell `(0, 0, 0)` reads as before. -/
theorem C8_setDensity_frame_witness :
    DensityInvariant (TVoxelData.construct 4 500) ∧
    ((TVoxelData.construct 4 500).setDensity (fun _ => 7) 1 2 3 (7 / 10)).getDensity 0 0 0
      = (TVoxelData.construct 4 500).getDensity 0 0 0 :=
  ⟨by simp [DensityInvariant, TVoxelData.construct],
   C8_setDensity_frame (fun _ => 7) (TVoxelData.construct 4 500)
    (by simp [DensityInvariant, TVoxelData.construct]) 1 2 3 0 0 0 (7 / 10)
    (by decide) (by decide) (by decide) (by decide) (by decide) (by decide)
    (by decide) (by decide) (by decide) (by decide) (by decide) (by decide) (by decide)⟩

/-! ## The storage invariant -/

theorem storeDensity_density (vd : TVoxelData) (x y z : Int) (d : ℚ) :
    (vd.storeDensity x y z d).density_state = vd.density_state ∧
    (vd.storeDensity x y z d).density_data.isSome = vd.density_data.isSome := by
  unfold TVoxelData.storeDensity
  cases hd : vd.density_data with
  | none => simp [hd]
  | some buf =>
    simp only
    split <;> simp [hd]

theorem storeMaterial_density (vd : TVoxelData) (x y z : Int) (m : Nat) :
    (vd.storeMaterial x y z m).density_state = vd.density_state ∧
    (vd.storeMaterial x y z m).density_data = vd.density_data := by
  unfold TVoxelData.storeMaterial
  cases hd : vd.material_data with
  | none => simp
  | some buf =>
    simp only
    split <;> simp

theorem initializeMaterial_density (heap : Int → Nat) (vd : TVoxelData) :
    (vd.initializeMaterial heap).density_state = vd.density_state ∧
    (vd.initializeMaterial heap).density_data = vd.density_data := by
  unfold TVoxelData.initializeMaterial
  apply forXYZ_invariant
    (fun v : TVoxelData => v.density_state = vd.density_state ∧ v.density_data = vd.density_data)
  · exact ⟨rfl, rfl⟩
  · intro x y z s _ _ _ hs
    obtain ⟨h1, h2⟩ := storeMaterial_density s x y z s.base_fill_mat
    exact ⟨h1.trans hs.1, h2.trans hs.2⟩

theorem performCellSubstanceCaching_density (vd : TVoxelData) (x y z : Int) (lod : Nat)
    (step : Int) :
    (vd.performCellSubstanceCaching x y z lod step).1.density_state = vd.density_state ∧
    (vd.performCellSubstanceCaching x y z lod step).1.density_data = vd.density_data := by
  unfold TVoxelData.performCellSubstanceCaching
  simp only
  split
  · exact ⟨rfl, rfl⟩
  · split
    · exact ⟨rfl, rfl⟩
    · split
      · exact ⟨rfl, rfl⟩
      · split <;> exact ⟨rfl, rfl⟩

theorem performSubstanceCacheNoLOD_density (vd : TVoxelData) (x y z : Int) :
    (vd.performSubstanceCacheNoLOD x y z).density_state = vd.density_state ∧
    (vd.performSubstanceCacheNoLOD x y z).density_data = vd.density_data := by
  unfold TVoxelData.performSubstanceCacheNoLOD
  split
  · exact ⟨rfl, rfl⟩
  · exact performCellSubstanceCaching_density vd x y z 0 1

theorem performSubstanceCacheLOD_density (vd : TVoxelData) (x y z : Int) :
    (vd.performSubstanceCacheLOD x y z).density_state = vd.density_state ∧
    (vd.performSubstanceCacheLOD x y z).density_data = vd.density_data := by
  unfold TVoxelData.performSubstanceCacheLOD
  split
  · exact ⟨rfl, rfl⟩
  · apply foldl_invariant
      (fun v : TVoxelData => v.density_state = vd.density_state ∧ v.density_data = vd.density_data)
    · exact ⟨rfl, rfl⟩
    · intro s lod _ hs
      simp only
      split
      · split
        · obtain ⟨h1, h2⟩ := performCellSubstanceCaching_density s x y z lod ((1 <<< lod : Nat) : Int)
          exact ⟨h1.trans hs.1, h2.trans hs.2⟩
        · exact hs
      · exact hs

theorem DensityInvariant_of_eq (vd v : TVoxelData) (hs : v.density_state = vd.density_state)
    (hd : v.density_data = vd.density_data) (h : DensityInvariant vd) : DensityInvariant v := by
  unfold DensityInvariant at *
  rw [hs, hd]
  exact h

theorem DensityInvariant_construct (num : Nat) (size : ℚ) :
    DensityInvariant (TVoxelData.construct num size) := by
  simp [DensityInvariant, TVoxelData.construct]

theorem DensityInvariant_allocate (heap : Int → Nat) (vd : TVoxelData) :
    DensityInvariant { vd.initializeDensity heap with density_state := .MIX } := by
  obtain ⟨buf, hb, _⟩ := initializeDensity_eq heap vd
  rw [hb]
  simp [DensityInvariant]

theorem DensityInvariant_storeDensity (vd : TVoxelData) (x y z : Int) (d : ℚ)
    (h : DensityInvariant vd) : DensityInvariant (vd.storeDensity x y z d) := by
  obtain ⟨h1, h2⟩ := storeDensity_density vd x y z d
  unfold DensityInvariant at *
  rw [h1, h2]
  exact h

theorem DensityInvariant_setDensity (heap : Int → Nat) (vd : TVoxelData) (x y z : Int) (d : ℚ)
    (h : DensityInvariant vd) : DensityInvariant (vd.setDensity heap x y z d) := by
  unfold TVoxelData.setDensity
  cases hd : vd.density_data with
  | none =>
    simp only
    split
    · exact h
    · split
      · exact h
      · exact DensityInvariant_storeDensity _ x y z d (DensityInvariant_allocate heap vd)
  | some buf =>
    simp only
    exact DensityInvariant_storeDensity vd x y z d h

theorem DensityInvariant_setVoxelPointDensity (heap : Int → Nat) (vd : TVoxelData) (x y z : Int)
    (density : Nat) (h : DensityInvariant vd) :
    DensityInvariant (vd.setVoxelPointDensity heap x y z density) := by
  unfold TVoxelData.setVoxelPointDensity
  cases hd : vd.density_data with
  | none =>
    simp only
    obtain ⟨buf, hb, _⟩ := initializeDensity_eq heap vd
    rw [hb]
    simp [DensityInvariant]
  | some buf =>
    simp only [hd]
    have hm : vd.density_state = .MIX := h.1 (by simp [hd])
    simp [DensityInvariant, hm]

theorem DensityInvariant_setVoxelPoint (dheap mheap : Int → Nat) (vd : TVoxelData) (x y z : Int)
    (density material : Nat) (h : DensityInvariant vd) :
    DensityInvariant (vd.setVoxelPoint dheap mheap x y z density material) := by
  have h1 : ∃ v1 : TVoxelData, DensityInvariant v1 ∧
      (match vd.density_data with
        | none => { vd.initializeDensity dheap with density_state := .MIX }
        | some _ => vd) = v1 := by
    cases hd : vd.density_data with
    | none => exact ⟨_, DensityInvariant_allocate dheap vd, rfl⟩
    | some _ => exact ⟨vd, h, rfl⟩
  obtain ⟨v1, hv1, e1⟩ := h1
  have h2 : ∃ v2 : TVoxelData, DensityInvariant v2 ∧
      (match v1.material_data with
        | none => v1.initializeMaterial mheap
        | some _ => v1) = v2 := by
    cases hm : v1.material_data with
    | none =>
      obtain ⟨a, b⟩ := initializeMaterial_density mheap v1
      exact ⟨_, DensityInvariant_of_eq v1 _ a b hv1, rfl⟩
    | some _ => exact ⟨v1, hv1, rfl⟩
  obtain ⟨v2, hv2, e2⟩ := h2
  unfold TVoxelData.setVoxelPoint
  simp only
  rw [e1, e2]
  have h3 : ∃ v3 : TVoxelData, DensityInvariant v3 ∧
      (match v2.material_data with
        | none => v2
        | some buf => { v2 with material_data := some (store buf
            (x * v2.voxel_num * v2.voxel_num + y * v2.voxel_num + z) (material % 2 ^ 16)) })
        = v3 := by
    cases hm : v2.material_data with
    | none => exact ⟨v2, hv2, rfl⟩
    | some buf =>
      exact ⟨{ v2 with material_data := some (store buf
        (x * v2.voxel_num * v2.voxel_num + y * v2.voxel_num + z) (material % 2 ^ 16)) },
        DensityInvariant_of_eq v2 _ rfl rfl hv2, rfl⟩
  obtain ⟨v3, hv3, e3⟩ := h3
  rw [e3]
  cases hd : v3.density_data with
  | none => exact hv3
  | some buf =>
    simp only
    have hm : v3.density_state = .MIX := hv3.1 (by simp [hd])
    simp [DensityInvariant, hm]

theorem DensityInvariant_setMaterial (heap : Int → Nat) (vd : TVoxelData) (x y z : Int)
    (material : Nat) (h : DensityInvariant vd) :
    DensityInvariant (vd.setMaterial heap x y z material) := by
  unfold TVoxelData.setMaterial
  cases hm : vd.material_data with
  | none =>
    simp only
    obtain ⟨a, b⟩ := initializeMaterial_density heap vd
    obtain ⟨c, d⟩ := storeMaterial_density (vd.initializeMaterial heap) x y z material
    exact DensityInvariant_of_eq vd _ (c.trans a) (d.trans b) h
  | some _ =>
    simp only
    obtain ⟨c, d⟩ := storeMaterial_density vd x y z material
    exact DensityInvariant_of_eq vd _ c d h

theorem DensityInvariant_deinitializeDensity (vd : TVoxelData) (State : TVoxelDataFillState)
    (h : DensityInvariant vd) : DensityInvariant (vd.deinitializeDensity State) := by
  unfold TVoxelData.deinitializeDensity
  split
  · exact h
  · rename_i hs
    simp [DensityInvariant, hs]

theorem DensityInvariant_forEachWithCache (vd : TVoxelData)
    (func : Int → Int → Int → TVoxelData → TVoxelData) (LOD : Bool)
    (hf : ∀ x y z v, DensityInvariant v → DensityInvariant (func x y z v))
    (h : DensityInvariant vd) : DensityInvariant (vd.forEachWithCache func LOD) := by
  unfold TVoxelData.forEachWithCache
  apply forXYZ_invariant DensityInvariant
  · exact DensityInvariant_of_eq vd _ rfl rfl h
  · intro x y z s _ _ _ hs
    simp only
    have hfs := hf x y z s hs
    split
    · obtain ⟨a, b⟩ := performSubstanceCacheLOD_density (func x y z s) x y z
      exact DensityInvariant_of_eq _ _ a b hfs
    · obtain ⟨a, b⟩ := performSubstanceCacheNoLOD_density (func x y z s) x y z
      exact DensityInvariant_of_eq _ _ a b hfs

/-- C10: "the dense density buffer is allocated if and only if the fill state
is `MIX`" holds after construction and is kept by `setDensity`,
`setVoxelPoint`, `setVoxelPointDensity`, `deinitializeDensity` with any
argument, `setMaterial`, `deinitializeMaterial` and by both traversals whenever
the per-cell action keeps it; under it, a field in state `ZERO` (`ALL`) has no
buffer and `getDensity` returns 0 (1) at every coordinate. -/
theorem C10_density_buffer_iff_mix :
    (∀ (num : Nat) (size : ℚ), DensityInvariant (TVoxelData.construct num size)) ∧
    (∀ (heap : Int → Nat) (vd : TVoxelData) (x y z : Int) (d : ℚ),
      DensityInvariant vd → DensityInvariant (vd.setDensity heap x y z d)) ∧
    (∀ (dheap mheap : Int → Nat) (vd : TVoxelData) (x y z : Int) (density material : Nat),
      DensityInvariant vd →
        DensityInvariant (vd.setVoxelPoint dheap mheap x y z density material)) ∧
    (∀ (heap : Int → Nat) (vd : TVoxelData) (x y z : Int) (density : Nat),
      DensityInvariant vd → DensityInvariant (vd.setVoxelPointDensity heap x y z density)) ∧
    (∀ (vd : TVoxelData) (State : TVoxelDataFillState),
      DensityInvariant vd → DensityInvariant (vd.deinitializeDensity State)) ∧
    (∀ (heap : Int → Nat) (vd : TVoxelData) (x y z : Int) (material : Nat),
      DensityInvariant vd → DensityInvariant (vd.setMaterial heap x y z material)) ∧
    (∀ (vd : TVoxelData) (base_mat : Nat),
      DensityInvariant vd → DensityInvariant (vd.deinitializeMaterial base_mat)) ∧
    (∀ (vd : TVoxelData) (func : Int → Int → Int → TVoxelData → TVoxelData),
      (∀ x y z v, DensityInvariant v → DensityInvariant (func x y z v)) →
      DensityInvariant vd → DensityInvariant (vd.forEach func)) ∧
    (∀ (vd : TVoxelData) (func : Int → Int → Int → TVoxelData → TVoxelData) (LOD : Bool),
      (∀ x y z v, DensityInvariant v → DensityInvariant (func x y z v)) →
      DensityInvariant vd → DensityInvariant (vd.forEachWithCache func LOD)) ∧
    (∀ vd : TVoxelData, DensityInvariant vd → vd.density_state = .ZERO →
      vd.density_data.isSome = false ∧ ∀ x y z : Int, vd.getDensity x y z = 0) ∧
    (∀ vd : TVoxelData, DensityInvariant vd → vd.density_state = .ALL →
      vd.density_data.isSome = false ∧ ∀ x y z : Int, vd.getDensity x y z = 1) := by
  refine ⟨DensityInvariant_construct, DensityInvariant_setDensity, DensityInvariant_setVoxelPoint,
    DensityInvariant_setVoxelPointDensity, DensityInvariant_deinitializeDensity,
    DensityInvariant_setMaterial, ?_, ?_, DensityInvariant_forEachWithCache, ?_, ?_⟩
  · intro vd base_mat h
    exact DensityInvariant_of_eq vd _ rfl rfl h
  · intro vd func hf h
    unfold TVoxelData.forEach
    exact forXYZ_invariant DensityInvariant _ _ _ h (fun x y z s _ _ _ hs => hf x y z s hs)
  · intro vd h hs
    have hn : vd.density_data = none := by
      cases hd : vd.density_data with
      | none => rfl
      | some buf =>
        have := h.1 (by simp [hd])
        rw [hs] at this
        exact absurd this (by decide)
    refine ⟨by simp [hn], fun x y z => ?_⟩
    simp [TVoxelData.getDensity, hn, hs]
  · intro vd h hs
    have hn : vd.density_data = none := by
      cases hd : vd.density_data with
      | none => rfl
      | some buf =>
        have := h.1 (by simp [hd])
        rw [hs] at this
        exact absurd this (by decide)
    refine ⟨by simp [hn], fun x y z => ?_⟩
    simp [TVoxelData.getDensity, hn, hs]


/-! ## Containers -/

theorem UMap.find_assign_same {β : Type} (m : UMap β) (k : Nat) (v : β) :
    (m.assign k v).find k = some v := by
  induction m with
  | nil => simp [UMap.assign, UMap.find]
  | cons p m ih =>
    obtain ⟨k1, v1⟩ := p
    by_cases h : k1 = k
    · simp [UMap.assign, UMap.find, h]
    · simp [UMap.assign, UMap.find, h, ih]

theorem UMap.find_assign_ne {β : Type} (m : UMap β) (k k2 : Nat) (v : β) (hne : k2 ≠ k) :
    (m.assign k v).find k2 = m.find k2 := by
  induction m with
  | nil =>
    have : ¬ k = k2 := fun h => hne h.symm
    simp [UMap.assign, UMap.find, this]
  | cons p m ih =>
    obtain ⟨k1, v1⟩ := p
    by_cases h : k1 = k
    · have : ¬ k = k2 := fun h => hne h.symm
      simp [UMap.assign, UMap.find, h, this]
    · by_cases h2 : k1 = k2
      · subst h2
        simp [UMap.assign, UMap.find, hne]
      · simp [UMap.assign, UMap.find, h, h2, ih]

theorem UMap.mem_keys_iff_find {β : Type} (m : UMap β) (k : Nat) :
    k ∈ m.keys ↔ (m.find k).isSome = true := by
  induction m with
  | nil => simp [UMap.keys, UMap.find]
  | cons p m ih =>
    obtain ⟨k1, v1⟩ := p
    by_cases h : k1 = k
    · simp [UMap.keys, UMap.find, h]
    · have h2 : ¬ k = k1 := fun e => h e.symm
      have ih2 : k ∈ List.map Prod.fst m ↔ (UMap.find m k).isSome = true := ih
      simp [UMap.keys, UMap.find, h, h2, ih2]

theorem UMap.mem_keys_assign {β : Type} (m : UMap β) (k k2 : Nat) (v : β) :
    k2 ∈ (m.assign k v).keys ↔ k2 = k ∨ k2 ∈ m.keys := by
  rw [UMap.mem_keys_iff_find, UMap.mem_keys_iff_find]
  by_cases h : k2 = k
  · subst h
    simp [UMap.find_assign_same]
  · rw [UMap.find_assign_ne m k k2 v h]
    simp [h]

/-! ## Vertices -/

/-- One iteration of the loop of `GenerateVertexData`. -/
theorem GenerateVertexData_fold
    (qef : List FVector4 → List FVector4 → Nat → FVector4) (edges : EdgeInfoMap)
    (l : List Nat) (st : VertexData) :
    let r := l.foldl (fun (st : VertexData) voxelID =>
      let vn := voxelVertex qef edges voxelID
      ({ idxCounter := st.idxCounter + 1,
         vertexIndices := st.vertexIndices.assign voxelID st.idxCounter,
         varray := st.varray ++ [vn.1],
         narray := st.narray ++ [vn.2] } : VertexData)) st
    r.idxCounter = st.idxCounter + l.length ∧
    r.varray = st.varray ++ l.map (fun k => (voxelVertex qef edges k).1) ∧
    r.narray = st.narray ++ l.map (fun k => (voxelVertex qef edges k).2) ∧
    (∀ k, k ∉ l → r.vertexIndices.find k = st.vertexIndices.find k) ∧
    (∀ k i, r.vertexIndices.find k = some i →
      st.vertexIndices.find k = some i ∨ (st.idxCounter ≤ i ∧ i < st.idxCounter + l.length)) ∧
    (l.Nodup → ∀ (i : Nat) (k : Nat), l[i]? = some k →
      r.vertexIndices.find k = some (st.idxCounter + i)) := by
  induction l generalizing st with
  | nil =>
    refine ⟨by simp, by simp, by simp, fun _ _ => rfl, fun k i h => Or.inl h, ?_⟩
    intro _ i k h
    simp at h
  | cons a l ih =>
    simp only [List.foldl_cons]
    obtain ⟨h1, h2, h3, h4, h5, h6⟩ := ih
      ({ idxCounter := st.idxCounter + 1,
         vertexIndices := st.vertexIndices.assign a st.idxCounter,
         varray := st.varray ++ [(voxelVertex qef edges a).1],
         narray := st.narray ++ [(voxelVertex qef edges a).2] } : VertexData)
    simp only at h1 h2 h3 h4 h5 h6
    refine ⟨?_, ?_, ?_, ?_, ?_, ?_⟩
    · rw [h1]; simp only [List.length_cons]; push_cast; ring
    · rw [h2]; simp
    · rw [h3]; simp
    · intro k hk
      rw [List.mem_cons, not_or] at hk
      rw [h4 k hk.2, UMap.find_assign_ne _ _ _ _ hk.1]
    · intro k i hf
      rcases h5 k i hf with h | h
      · by_cases hka : k = a
        · subst hka
          rw [UMap.find_assign_same] at h
          right
          simp only [Option.some.injEq] at h
          simp only [List.length_cons]
          push_cast
          omega
        · rw [UMap.find_assign_ne _ _ _ _ hka] at h
          exact Or.inl h
      · right
        simp only [List.length_cons]
        push_cast
        omega
    · intro hnd i k hi
      rw [List.nodup_cons] at hnd
      cases i with
      | zero =>
        simp only [List.getElem?_cons_zero, Option.some.injEq] at hi
        subst hi
        rw [h4 a hnd.1, UMap.find_assign_same]
        simp
      | succ j =>
        simp only [List.getElem?_cons_succ] at hi
        rw [h6 hnd.2 j k hi]
        congr 1
        push_cast
        ring

/-- C4: for a set of voxel keys (a list without repetition) and any edge map,
`GenerateVertexData` started from empty arrays and an empty table gives a
vertex array and a normal array of length `|V|` and a table defined exactly on
`V`, injective on `V` and onto `0, ..., |V| - 1`, with the vertex and the normal
of each voxel at the position the table gives. -/
theorem C4_vertex_index_bijection
    (qef : List FVector4 → List FVector4 → Nat → FVector4) (voxels : VoxelIDSet)
    (edges : EdgeInfoMap) (hV : voxels.Nodup) :
    (GenerateVertexData qef voxels edges [] [] []).varray.length = voxels.length ∧
    (GenerateVertexData qef voxels edges [] [] []).narray.length = voxels.length ∧
    (∀ k, ((GenerateVertexData qef voxels edges [] [] []).vertexIndices.find k).isSome = true
      ↔ k ∈ voxels) ∧
    (∀ k ∈ voxels, ∃ i : Nat, i < voxels.length ∧
      (GenerateVertexData qef voxels edges [] [] []).vertexIndices.find k = some (i : Int) ∧
      (GenerateVertexData qef voxels edges [] [] []).varray[i]?
        = some (voxelVertex qef edges k).1 ∧
      (GenerateVertexData qef voxels edges [] [] []).narray[i]?
        = some (voxelVertex qef edges k).2) ∧
    (∀ k1 ∈ voxels, ∀ k2 ∈ voxels,
      (GenerateVertexData qef voxels edges [] [] []).vertexIndices.find k1
        = (GenerateVertexData qef voxels edges [] [] []).vertexIndices.find k2 → k1 = k2) ∧
    (∀ i : Nat, i < voxels.length → ∃ k ∈ voxels,
      (GenerateVertexData qef voxels edges [] [] []).vertexIndices.find k = some (i : Int)) := by
  obtain ⟨_, h2, h3, h4, _, h6⟩ := GenerateVertexData_fold qef edges voxels
    ({ idxCounter := 0, vertexIndices := [], varray := [], narray := [] } : VertexData)
  simp only [List.nil_append, zero_add] at h2 h3 h4 h6
  have hfind : ∀ (i : Nat) (k : Nat), voxels[i]? = some k →
      (GenerateVertexData qef voxels edges [] [] []).vertexIndices.find k = some (i : Int) :=
    h6 hV
  have hmem : ∀ k ∈ voxels, ∃ i : Nat, i < voxels.length ∧ voxels[i]? = some k := by
    intro k hk
    obtain ⟨i, hi, e⟩ := List.getElem_of_mem hk
    exact ⟨i, hi, by rw [List.getElem?_eq_getElem hi, e]⟩
  refine ⟨?_, ?_, ?_, ?_, ?_, ?_⟩
  · unfold GenerateVertexData; rw [h2]; simp
  · unfold GenerateVertexData; rw [h3]; simp
  · intro k
    constructor
    · intro hs
      by_contra hk
      have := h4 k hk
      unfold GenerateVertexData at hs
      rw [this] at hs
      simp [UMap.find] at hs
    · intro hk
      obtain ⟨i, _, e⟩ := hmem k hk
      rw [hfind i k e]
      rfl
  · intro k hk
    obtain ⟨i, hi, e⟩ := hmem k hk
    refine ⟨i, hi, hfind i k e, ?_, ?_⟩
    · unfold GenerateVertexData; rw [h2, List.getElem?_map, e]; rfl
    · unfold GenerateVertexData; rw [h3, List.getElem?_map, e]; rfl
  · intro k1 hk1 k2 hk2 he
    obtain ⟨i1, hi1, e1⟩ := hmem k1 hk1
    obtain ⟨i2, _, e2⟩ := hmem k2 hk2
    rw [hfind i1 k1 e1, hfind i2 k2 e2] at he
    simp only [Option.some.injEq, Nat.cast_inj] at he
    subst he
    rw [e1] at e2
    exact Option.some.inj e2
  · intro i hi
    refine ⟨voxels[i], List.getElem_mem hi, hfind i _ (List.getElem?_eq_getElem hi)⟩

/-- C4 on the three-voxel set `1, 1025, 7` with an empty edge map. -/
theorem C4_vertex_index_bijection_witness :
    ([1, 1025, 7] : List Nat).Nodup ∧
    (GenerateVertexData (fun p _ _ => p.getD 0 ⟨0, 0, 0, 0⟩) [1, 1025, 7] [] [] [] []).varray.length
      = 3 :=
  ⟨by decide,
   (C4_vertex_index_bijection (fun p _ _ => p.getD 0 ⟨0, 0, 0, 0⟩) [1, 1025, 7] []
    (by decide)).1⟩


/-! ## Triangles -/

theorem GenerateTriangles_eq (edges : EdgeInfoMap) (vertexIndices : VoxelIndexMap)
    (triarray : List Int) :
    GenerateTriangles edges vertexIndices triarray
      = triarray ++ edges.flatMap (fun e => edgeTriangles vertexIndices e.1 e.2) := by
  unfold GenerateTriangles
  induction edges generalizing triarray with
  | nil => simp
  | cons e es ih => simp [List.foldl_cons, ih, List.flatMap_cons, List.append_assoc]

theorem edgeVoxelIDs_length (edge : Nat) : (edgeVoxelIDs edge).length = 4 := by
  simp [edgeVoxelIDs]

theorem edgeVoxels_length_le (vertexIndices : VoxelIndexMap) (edge : Nat) :
    (edgeVoxels vertexIndices edge).length ≤ 4 := by
  unfold edgeVoxels
  calc ((edgeVoxelIDs edge).filterMap (fun id => vertexIndices.find id)).length
      ≤ (edgeVoxelIDs edge).length := List.length_filterMap_le _ _
    _ = 4 := edgeVoxelIDs_length edge

theorem filterMap_length_eq_iff {α β : Type} (f : α → Option β) (l : List α) :
    (l.filterMap f).length = l.length ↔ ∀ a ∈ l, (f a).isSome = true := by
  induction l with
  | nil => simp
  | cons a l ih =>
    cases h : f a with
    | none =>
      have := List.length_filterMap_le f l
      simp only [List.filterMap_cons, h, List.length_cons, List.mem_cons, forall_eq_or_imp,
        Option.isSome_none]
      constructor
      · intro e; omega
      · intro e; exact absurd e.1 (by simp)
    | some b =>
      simp only [List.filterMap_cons, h, List.length_cons, List.mem_cons, forall_eq_or_imp,
        Option.isSome_some, true_and, add_left_inj]
      exact ih

theorem edgeVoxels_length_eq_iff (vertexIndices : VoxelIndexMap) (edge : Nat) :
    (edgeVoxels vertexIndices edge).length = 4 ↔ resolved vertexIndices edge = true := by
  unfold edgeVoxels resolved
  rw [← edgeVoxelIDs_length edge, filterMap_length_eq_iff, List.all_eq_true]

theorem edgeTriangles_length (vertexIndices : VoxelIndexMap) (edge : Nat) (info : EdgeInfo) :
    (edgeTriangles vertexIndices edge info).length
      = if resolved vertexIndices edge then 6 else 0 := by
  have hle := edgeVoxels_length_le vertexIndices edge
  have hiff := edgeVoxels_length_eq_iff vertexIndices edge
  unfold edgeTriangles
  simp only
  by_cases hr : resolved vertexIndices edge = true
  · have h4 : ¬ (edgeVoxels vertexIndices edge).length < 4 := by
      have := hiff.2 hr; omega
    rw [if_neg h4, if_pos hr]
    split <;> rfl
  · have h4 : (edgeVoxels vertexIndices edge).length < 4 := by
      have : (edgeVoxels vertexIndices edge).length ≠ 4 := fun e => hr (hiff.1 e)
      omega
    rw [if_pos h4, if_neg hr]
    rfl

theorem flatMap_length_eq {α β : Type} (f : α → List β) (p : α → Bool) (l : List α)
    (h : ∀ a ∈ l, (f a).length = if p a then 6 else 0) :
    (l.flatMap f).length = 6 * (l.filter p).length := by
  induction l with
  | nil => simp
  | cons a l ih =>
    have ha := h a (List.mem_cons_self _ _)
    have ih2 := ih (fun b hb => h b (List.mem_cons_of_mem _ hb))
    rw [List.flatMap_cons, List.length_append, ha, ih2]
    by_cases hp : p a = true
    · simp [List.filter_cons, hp]; ring
    · simp [List.filter_cons, hp]

/-- The four cell keys around an edge whose axis bits are 0, 1 or 2 are
pairwise distinct. -/
theorem edgeVoxelIDs_nodup (edge : Nat) (ha : edgeAxis edge < 3) : (edgeVoxelIDs edge).Nodup := by
  have hn : edge &&& 0x3fffffff = edge % 1073741824 := by
    have e : (0x3fffffff : Nat) = 2 ^ 30 - 1 := by norm_num
    rw [e, Nat.and_pow_two_sub_one_eq_mod]
  unfold edgeVoxelIDs
  simp only [hn]
  have hlt : edge % 1073741824 < 1073741824 := Nat.mod_lt _ (by norm_num)
  generalize edge % 1073741824 = n at hlt
  generalize edgeAxis edge = a at ha
  have h3 : a = 0 ∨ a = 1 ∨ a = 2 := by omega
  have hr : List.range 4 = [0, 1, 2, 3] := by decide
  rw [hr]
  rcases h3 with rfl | rfl | rfl <;>
    simp [ENCODED_EDGE_NODE_OFFSETS] <;> omega

theorem filterMap_eq_four {α β : Type} (f : α → Option β) (a b c d : α)
    (h : ([a, b, c, d].filterMap f).length = 4) :
    ∃ w x y z, f a = some w ∧ f b = some x ∧ f c = some y ∧ f d = some z ∧
      [a, b, c, d].filterMap f = [w, x, y, z] := by
  have hall := (filterMap_length_eq_iff f [a, b, c, d]).1 h
  obtain ⟨w, hw⟩ := Option.isSome_iff_exists.1 (hall a (by simp))
  obtain ⟨x, hx⟩ := Option.isSome_iff_exists.1 (hall b (by simp))
  obtain ⟨y, hy⟩ := Option.isSome_iff_exists.1 (hall c (by simp))
  obtain ⟨z, hz⟩ := Option.isSome_iff_exists.1 (hall d (by simp))
  exact ⟨w, x, y, z, hw, hx, hy, hz, by simp [List.filterMap_cons, hw, hx, hy, hz]⟩

theorem edgeVoxelIDs_eq_four (edge : Nat) :
    ∃ a b c d, edgeVoxelIDs edge = [a, b, c, d] := by
  have hr : List.range 4 = [0, 1, 2, 3] := by decide
  unfold edgeVoxelIDs
  rw [hr]
  exact ⟨_, _, _, _, rfl⟩

/-- C6: per edge `GenerateTriangles` appends nothing when not all four of the
cells around the edge are keys of the table and exactly six indices when all
four are; for an edge key with axis bits 0, 1 or 2 and an injective table the
six indices take exactly four distinct values; and from an empty array the
output has six entries per edge with all four cells resolved. -/
theorem C6_two_triangles_per_resolved_edge (edges : EdgeInfoMap)
    (vertexIndices : VoxelIndexMap) (triarray : List Int) :
    GenerateTriangles edges vertexIndices triarray
      = triarray ++ edges.flatMap (fun e => edgeTriangles vertexIndices e.1 e.2) ∧
    (∀ edge info,
      ((edgeVoxelIDs edge).filter (fun id => (vertexIndices.find id).isSome)).length < 4 →
      edgeTriangles vertexIndices edge info = []) ∧
    (∀ edge info, (∀ id ∈ edgeVoxelIDs edge, (vertexIndices.find id).isSome = true) →
      (edgeTriangles vertexIndices edge info).length = 6) ∧
    (∀ edge info, edgeAxis edge < 3 →
      (∀ k1 k2 i, vertexIndices.find k1 = some i → vertexIndices.find k2 = some i → k1 = k2) →
      (∀ id ∈ edgeVoxelIDs edge, (vertexIndices.find id).isSome = true) →
      (edgeTriangles vertexIndices edge info).toFinset.card = 4) ∧
    (GenerateTriangles edges vertexIndices []).length
      = 6 * (edges.filter (fun e => resolved vertexIndices e.1)).length := by
  refine ⟨GenerateTriangles_eq edges vertexIndices triarray, ?_, ?_, ?_, ?_⟩
  · intro edge info hlt
    have hnr : ¬ resolved vertexIndices edge = true := by
      intro hr
      unfold resolved at hr
      rw [List.all_eq_true] at hr
      have : (edgeVoxelIDs edge).filter (fun id => (vertexIndices.find id).isSome)
          = edgeVoxelIDs edge := List.filter_eq_self.2 hr
      rw [this, edgeVoxelIDs_length] at hlt
      omega
    have hl := edgeTriangles_length vertexIndices edge info
    rw [if_neg hnr] at hl
    exact List.length_eq_zero.1 hl
  · intro edge info hall
    have hr : resolved vertexIndices edge = true := by
      unfold resolved
      rw [List.all_eq_true]
      exact hall
    rw [edgeTriangles_length, if_pos hr]
  · intro edge info hax hinj hall
    have hnd := edgeVoxelIDs_nodup edge hax
    obtain ⟨a, b, c, d, hids⟩ := edgeVoxelIDs_eq_four edge
    have hlen : ([a, b, c, d].filterMap (fun id => vertexIndices.find id)).length = 4 := by
      rw [hids] at hall
      exact (filterMap_length_eq_iff (fun id => vertexIndices.find id) [a, b, c, d]).2 hall
    obtain ⟨w, x, y, z, hw, hx, hy, hz, hev⟩ := filterMap_eq_four _ a b c d hlen
    rw [hids] at hnd
    simp only [List.nodup_cons, List.mem_cons, List.mem_singleton, not_or, List.not_mem_nil,
      not_false_eq_true, List.nodup_nil, and_true] at hnd
    obtain ⟨⟨hab, hac, had⟩, ⟨hbc, hbd⟩, hcd⟩ := hnd
    have nwx : w ≠ x := fun e => hab (hinj a b w hw (e ▸ hx))
    have nwy : w ≠ y := fun e => hac (hinj a c w hw (e ▸ hy))
    have nwz : w ≠ z := fun e => had (hinj a d w hw (e ▸ hz))
    have nxy : x ≠ y := fun e => hbc (hinj b c x hx (e ▸ hy))
    have nxz : x ≠ z := fun e => hbd (hinj b d x hx (e ▸ hz))
    have nyz : y ≠ z := fun e => hcd (hinj c d y hy (e ▸ hz))
    have hset : (edgeTriangles vertexIndices edge info).toFinset = ([w, x, y, z] : List Int).toFinset := by
      unfold edgeTriangles edgeVoxels
      rw [hids, hev]
      simp only [List.length_cons, List.length_nil]
      cases info.winding <;>
        · ext i
          simp
          tauto
    rw [hset, List.toFinset_card_of_nodup]
    · rfl
    · simp [nwx, nwy, nwz, nxy, nxz, nyz]
  · rw [GenerateTriangles_eq, List.nil_append]
    have h := flatMap_length_eq (fun e : Nat × EdgeInfo => edgeTriangles vertexIndices e.1 e.2)
      (fun e : Nat × EdgeInfo => resolved vertexIndices e.1) edges
      (fun e _ => edgeTriangles_length vertexIndices e.1 e.2)
    exact h

/-- C6 on one X edge at the cell `(1, 1, 1)` whose four cells are in the table. -/
theorem C6_two_triangles_per_resolved_edge_witness :
    GenerateTriangles [(0x100401, ⟨⟨0, 0, 0, 1⟩, ⟨0, 0, 0, 0⟩, true⟩)]
        [(0x100401, 0), (0x401, 1), (0x100001, 2), (1, 3)] []
      = [0, 1, 3, 0, 3, 2] ∧
    (edgeTriangles [(0x100401, 0), (0x401, 1), (0x100001, 2), (1, 3)] 0x100401
      ⟨⟨0, 0, 0, 1⟩, ⟨0, 0, 0, 0⟩, true⟩).toFinset.card = 4 :=
  ⟨by decide,
   (C6_two_triangles_per_resolved_edge [] [(0x100401, 0), (0x401, 1), (0x100001, 2), (1, 3)]
      []).2.2.2.1 0x100401 ⟨⟨0, 0, 0, 1⟩, ⟨0, 0, 0, 0⟩, true⟩ (by decide)
      (by
        intro k1 k2 i h1 h2
        simp only [UMap.find] at h1 h2
        split_ifs at h1 h2 <;> simp only [Option.some.injEq, reduceCtorEq] at h1 h2 <;> omega)
      (by decide)⟩

theorem edgeTriangles_mem (vertexIndices : VoxelIndexMap) (edge : Nat) (info : EdgeInfo)
    (i : Int) (hi : i ∈ edgeTriangles vertexIndices edge info) :
    ∃ id, vertexIndices.find id = some i := by
  obtain ⟨a, b, c, d, hids⟩ := edgeVoxelIDs_eq_four edge
  have hle := edgeVoxels_length_le vertexIndices edge
  unfold edgeTriangles at hi
  simp only at hi
  by_cases h4 : (edgeVoxels vertexIndices edge).length < 4
  · rw [if_pos h4] at hi
    simp at hi
  · rw [if_neg h4] at hi
    have hlen : ([a, b, c, d].filterMap (fun id => vertexIndices.find id)).length = 4 := by
      have : (edgeVoxels vertexIndices edge).length = 4 := by omega
      unfold edgeVoxels at this
      rw [hids] at this
      exact this
    obtain ⟨w, x, y, z, hw, hx, hy, hz, hev⟩ := filterMap_eq_four _ a b c d hlen
    unfold edgeVoxels at hi
    rw [hids, hev] at hi
    have hmem : i = w ∨ i = x ∨ i = y ∨ i = z := by
      split at hi <;> simp at hi <;> tauto
    rcases hmem with rfl | rfl | rfl | rfl
    · exact ⟨a, hw⟩
    · exact ⟨b, hx⟩
    · exact ⟨c, hy⟩
    · exact ⟨d, hz⟩

theorem GenerateTriangles_length_mod (edges : EdgeInfoMap) (vertexIndices : VoxelIndexMap) :
    (GenerateTriangles edges vertexIndices []).length % 3 = 0 := by
  have h := flatMap_length_eq (fun e : Nat × EdgeInfo => edgeTriangles vertexIndices e.1 e.2)
    (fun e : Nat × EdgeInfo => resolved vertexIndices e.1) edges
    (fun e _ => edgeTriangles_length vertexIndices e.1 e.2)
  rw [GenerateTriangles_eq, List.nil_append, h]
  omega

/-- Every index the triangle pass emits from the table of the vertex pass
addresses an entry of the vertex array, whatever the voxel list and the edges
iterated over. -/
theorem triangle_indices_valid (qef : List FVector4 → List FVector4 → Nat → FVector4)
    (voxels : VoxelIDSet) (edges es : EdgeInfoMap) (i : Int)
    (hi : i ∈ GenerateTriangles es (GenerateVertexData qef voxels edges [] [] []).vertexIndices []) :
    0 ≤ i ∧ i < ((GenerateVertexData qef voxels edges [] [] []).varray.length : Int) := by
  obtain ⟨_, h2, _, _, h5, _⟩ := GenerateVertexData_fold qef edges voxels
    ({ idxCounter := 0, vertexIndices := [], varray := [], narray := [] } : VertexData)
  simp only [List.nil_append, zero_add] at h2 h5
  rw [GenerateTriangles_eq, List.nil_append, List.mem_flatMap] at hi
  obtain ⟨e, _, hie⟩ := hi
  obtain ⟨id, hid⟩ := edgeTriangles_mem _ e.1 e.2 i hie
  have hlen : (GenerateVertexData qef voxels edges [] [] []).varray.length = voxels.length := by
    unfold GenerateVertexData; rw [h2]; simp
  rw [hlen]
  rcases h5 id i hid with h | h
  · simp [UMap.find] at h
  · exact h

/-- C5: for every field, and for every order in which the two container
iterations visit the scan's voxel set and edge map, the triangle array of the
pipeline `FindActiveVoxels`, `GenerateVertexData`, `GenerateTriangles` (all from
empty containers) has a length divisible by 3, the vertex and normal arrays
have the same length, and every triangle entry `i` satisfies
`0 ≤ i < length of the vertex array`. -/
theorem C5_pipeline_indices_valid (GetSafeNormal : FVector4 → ℚ → FVector4)
    (qef : List FVector4 → List FVector4 → Nat → FVector4) (voxelData : TVoxelData)
    (voxelOrder : VoxelIDSet) (edgeOrder : EdgeInfoMap)
    (_hv : voxelOrder.Perm (FindActiveVoxels GetSafeNormal voxelData [] []).1)
    (_he : edgeOrder.Perm (FindActiveVoxels GetSafeNormal voxelData [] []).2) :
    (GenerateTriangles edgeOrder
      (GenerateVertexData qef voxelOrder (FindActiveVoxels GetSafeNormal voxelData [] []).2
        [] [] []).vertexIndices []).length % 3 = 0 ∧
    (GenerateVertexData qef voxelOrder (FindActiveVoxels GetSafeNormal voxelData [] []).2
        [] [] []).varray.length
      = (GenerateVertexData qef voxelOrder (FindActiveVoxels GetSafeNormal voxelData [] []).2
        [] [] []).narray.length ∧
    (∀ i ∈ GenerateTriangles edgeOrder
        (GenerateVertexData qef voxelOrder (FindActiveVoxels GetSafeNormal voxelData [] []).2
          [] [] []).vertexIndices [],
      0 ≤ i ∧ i < ((GenerateVertexData qef voxelOrder
        (FindActiveVoxels GetSafeNormal voxelData [] []).2 [] [] []).varray.length : Int)) := by
  refine ⟨GenerateTriangles_length_mod _ _, ?_, fun i hi => triangle_indices_valid qef _ _ _ i hi⟩
  obtain ⟨_, h2, h3, _, _, _⟩ := GenerateVertexData_fold qef
    (FindActiveVoxels GetSafeNormal voxelData [] []).2 voxelOrder
    ({ idxCounter := 0, vertexIndices := [], varray := [], narray := [] } : VertexData)
  unfold GenerateVertexData
  rw [h2, h3]
  simp


/-! ## The scan -/

theorem mem_scanOrder (n x y z axis : Nat) :
    ((x, y, z), axis) ∈ scanOrder n ↔ x < n ∧ y < n ∧ z < n ∧ axis < 3 := by
  unfold scanOrder
  simp only [List.mem_flatMap, List.mem_map, List.mem_range, Prod.mk.injEq]
  constructor
  · rintro ⟨c, hc, a, ha, rfl, rfl⟩
    have := (mem_cells n x y z).1 hc
    exact ⟨this.1, this.2.1, this.2.2, ha⟩
  · rintro ⟨hx, hy, hz, ha⟩
    exact ⟨(x, y, z), (mem_cells n x y z).2 ⟨hx, hy, hz⟩, axis, ha, rfl, rfl⟩

theorem FindActiveVoxels_eq_foldl (gsn : FVector4 → ℚ → FVector4) (vd : TVoxelData)
    (av : VoxelIDSet) (ae : EdgeInfoMap) :
    FindActiveVoxels gsn vd av ae
      = (scanOrder vd.voxel_num).foldl
          (fun st t => scanEdge gsn vd t.1.1 t.1.2.1 t.1.2.2 t.2 st) (av, ae) := by
  unfold FindActiveVoxels scanOrder
  rw [forXYZ_eq_foldl, foldl_flatMap_eq]
  simp only [List.foldl_map]

theorem TVoxelIndex4_add_def (a b : TVoxelIndex4) :
    a + b = ⟨a.X + b.X, a.Y + b.Y, a.Z + b.Z, a.W + b.W⟩ := rfl

theorem TVoxelIndex4_sub_def (a b : TVoxelIndex4) :
    a - b = ⟨a.X - b.X, a.Y - b.Y, a.Z - b.Z, a.W - b.W⟩ := rfl

theorem zeroCrossing_iff (vd : TVoxelData) (x y z axis : Nat) (ha : axis < 3) :
    zeroCrossing vd x y z axis = true ↔ isCrossing vd axis x y z := by
  have h3 : axis = 0 ∨ axis = 1 ∨ axis = 2 := by omega
  rcases h3 with rfl | rfl | rfl <;>
    simp [zeroCrossing, isCrossing, positiveNeighbour, Density, AXIS_OFFSET,
      TVoxelIndex4_add_def]

theorem scanEdge_edges (gsn : FVector4 → ℚ → FVector4) (vd : TVoxelData) (x y z axis : Nat)
    (st : VoxelIDSet × EdgeInfoMap) :
    (scanEdge gsn vd x y z axis st).2
      = if zeroCrossing vd x y z axis then
          st.2.assign (EncodeAxisUniqueID axis x y z) (edgeInfo gsn vd x y z axis)
        else st.2 := by
  unfold scanEdge
  split <;> rfl

/-- Without any crossing the scan leaves its containers as they were. -/
theorem scan_no_crossing (gsn : FVector4 → ℚ → FVector4) (vd : TVoxelData)
    (l : List ((Nat × Nat × Nat) × Nat)) (st : VoxelIDSet × EdgeInfoMap)
    (h : ∀ t ∈ l, zeroCrossing vd t.1.1 t.1.2.1 t.1.2.2 t.2 = false) :
    l.foldl (fun st t => scanEdge gsn vd t.1.1 t.1.2.1 t.1.2.2 t.2 st) st = st := by
  apply foldl_invariant (fun s => s = st)
  · rfl
  · intro s t ht hs
    subst hs
    unfold scanEdge
    rw [h t ht]
    rfl

/-- The keys of the edge map after scanning the pairs of `l`. -/
theorem scan_keys (gsn : FVector4 → ℚ → FVector4) (vd : TVoxelData)
    (l : List ((Nat × Nat × Nat) × Nat)) (st : VoxelIDSet × EdgeInfoMap) (k : Nat) :
    k ∈ (l.foldl (fun st t => scanEdge gsn vd t.1.1 t.1.2.1 t.1.2.2 t.2 st) st).2.keys ↔
      k ∈ st.2.keys ∨ ∃ t ∈ l, zeroCrossing vd t.1.1 t.1.2.1 t.1.2.2 t.2 = true ∧
        k = EncodeAxisUniqueID t.2 t.1.1 t.1.2.1 t.1.2.2 := by
  induction l generalizing st with
  | nil => simp
  | cons a l ih =>
    rw [List.foldl_cons, ih, scanEdge_edges]
    by_cases hc : zeroCrossing vd a.1.1 a.1.2.1 a.1.2.2 a.2 = true
    · rw [if_pos hc, UMap.mem_keys_assign]
      simp only [List.mem_cons, exists_eq_or_imp, hc, true_and]
      tauto
    · rw [if_neg hc]
      simp [hc]

/-- A value stored under `k` survives the rest of the scan when every later
crossing with the same key stores the same record. -/
theorem scan_find_stable (gsn : FVector4 → ℚ → FVector4) (vd : TVoxelData)
    (l : List ((Nat × Nat × Nat) × Nat)) (st : VoxelIDSet × EdgeInfoMap) (k : Nat)
    (v : EdgeInfo) (h0 : st.2.find k = some v)
    (h : ∀ t ∈ l, zeroCrossing vd t.1.1 t.1.2.1 t.1.2.2 t.2 = true →
      EncodeAxisUniqueID t.2 t.1.1 t.1.2.1 t.1.2.2 = k → edgeInfo gsn vd t.1.1 t.1.2.1 t.1.2.2 t.2 = v) :
    (l.foldl (fun st t => scanEdge gsn vd t.1.1 t.1.2.1 t.1.2.2 t.2 st) st).2.find k = some v := by
  induction l generalizing st with
  | nil => exact h0
  | cons a l ih =>
    rw [List.foldl_cons]
    apply ih
    · rw [scanEdge_edges]
      by_cases hc : zeroCrossing vd a.1.1 a.1.2.1 a.1.2.2 a.2 = true
      · rw [if_pos hc]
        by_cases hk : EncodeAxisUniqueID a.2 a.1.1 a.1.2.1 a.1.2.2 = k
        · rw [← h a (List.mem_cons_self _ _) hc hk, ← hk, UMap.find_assign_same]
        · rw [UMap.find_assign_ne _ _ _ _ (fun e => hk e.symm)]
          exact h0
      · rw [if_neg hc]
        exact h0
    · intro t ht
      exact h t (List.mem_cons_of_mem _ ht)

/-- The record found under the key of a crossing edge after the scan, when the
keys of the scanned pairs determine the records. -/
theorem scan_find (gsn : FVector4 → ℚ → FVector4) (vd : TVoxelData)
    (l : List ((Nat × Nat × Nat) × Nat)) (st : VoxelIDSet × EdgeInfoMap)
    (hinj : ∀ t1 ∈ l, ∀ t2 ∈ l,
      EncodeAxisUniqueID t1.2 t1.1.1 t1.1.2.1 t1.1.2.2
        = EncodeAxisUniqueID t2.2 t2.1.1 t2.1.2.1 t2.1.2.2 → t1 = t2)
    (t : (Nat × Nat × Nat) × Nat) (ht : t ∈ l)
    (hc : zeroCrossing vd t.1.1 t.1.2.1 t.1.2.2 t.2 = true) :
    (l.foldl (fun st t => scanEdge gsn vd t.1.1 t.1.2.1 t.1.2.2 t.2 st) st).2.find
        (EncodeAxisUniqueID t.2 t.1.1 t.1.2.1 t.1.2.2)
      = some (edgeInfo gsn vd t.1.1 t.1.2.1 t.1.2.2 t.2) := by
  obtain ⟨l1, l2, rfl⟩ := List.append_of_mem ht
  rw [List.foldl_append, List.foldl_cons]
  apply scan_find_stable
  · rw [scanEdge_edges, if_pos hc, UMap.find_assign_same]
  · intro t2 ht2 _ he
    have := hinj t2 (by simp [ht2]) t (by simp) he
    rw [this]

theorem scanOrder_key_inj (n : Nat) (hn : n ≤ 1024) :
    ∀ t1 ∈ scanOrder n, ∀ t2 ∈ scanOrder n,
      EncodeAxisUniqueID t1.2 t1.1.1 t1.1.2.1 t1.1.2.2
        = EncodeAxisUniqueID t2.2 t2.1.1 t2.1.2.1 t2.1.2.2 → t1 = t2 := by
  rintro ⟨⟨x1, y1, z1⟩, a1⟩ h1 ⟨⟨x2, y2, z2⟩, a2⟩ h2 he
  rw [mem_scanOrder] at h1 h2
  simp only at he
  rw [EncodeAxisUniqueID_eq a1 x1 y1 z1 (by omega) (by omega) (by omega) (by omega),
    EncodeAxisUniqueID_eq a2 x2 y2 z2 (by omega) (by omega) (by omega) (by omega)] at he
  have : x1 = x2 ∧ y1 = y2 ∧ z1 = z2 ∧ a1 = a2 := by omega
  obtain ⟨rfl, rfl, rfl, rfl⟩ := this
  rfl

/-- The edge map of a scan from empty containers: its keys are the keys of the
crossing edges, and for `N ≤ 1024` each holds the record of its edge. -/
theorem FindActiveVoxels_edges (gsn : FVector4 → ℚ → FVector4) (vd : TVoxelData) :
    (∀ k, k ∈ (FindActiveVoxels gsn vd [] []).2.keys ↔
      ∃ axis x y z : Nat, axis < 3 ∧ x < vd.voxel_num ∧ y < vd.voxel_num ∧ z < vd.voxel_num ∧
        isCrossing vd axis x y z ∧ k = EncodeAxisUniqueID axis x y z) ∧
    (vd.voxel_num ≤ 1024 → ∀ axis x y z : Nat, axis < 3 → x < vd.voxel_num →
      y < vd.voxel_num → z < vd.voxel_num → isCrossing vd axis x y z →
      (FindActiveVoxels gsn vd [] []).2.find (EncodeAxisUniqueID axis x y z)
        = some (edgeInfo gsn vd x y z axis)) := by
  rw [FindActiveVoxels_eq_foldl]
  constructor
  · intro k
    rw [scan_keys]
    simp only [UMap.keys, List.map_nil, List.not_mem_nil, false_or]
    constructor
    · rintro ⟨⟨⟨x, y, z⟩, a⟩, ht, hc, hk⟩
      rw [mem_scanOrder] at ht
      exact ⟨a, x, y, z, ht.2.2.2, ht.1, ht.2.1, ht.2.2.1,
        (zeroCrossing_iff vd x y z a ht.2.2.2).1 hc, hk⟩
    · rintro ⟨a, x, y, z, ha, hx, hy, hz, hc, hk⟩
      exact ⟨((x, y, z), a), (mem_scanOrder _ x y z a).2 ⟨hx, hy, hz, ha⟩,
        (zeroCrossing_iff vd x y z a ha).2 hc, hk⟩
  · intro hn a x y z ha hx hy hz hc
    exact scan_find gsn vd _ _ (scanOrder_key_inj _ hn) ((x, y, z), a)
      ((mem_scanOrder _ x y z a).2 ⟨hx, hy, hz, ha⟩) ((zeroCrossing_iff vd x y z a ha).2 hc)

/-- C2: for a field with `N ≤ 1024`, after `FindActiveVoxels` on empty
containers a key is in the active-edge map exactly when it is the key of some
axis and cell of the lattice for which exactly one of the densities read at the
cell and at its positive neighbour is at least `1 / 2`; the record under that
key is the one built for that edge, whose winding is `getDensity(x, y, z) ≥ 1 / 2`. -/
theorem C2_active_edges_are_crossings (GetSafeNormal : FVector4 → ℚ → FVector4)
    (voxelData : TVoxelData) (hN : voxelData.voxel_num ≤ 1024) :
    (∀ k, k ∈ (FindActiveVoxels GetSafeNormal voxelData [] []).2.keys ↔
      ∃ axis x y z : Nat, axis < 3 ∧ x < voxelData.voxel_num ∧ y < voxelData.voxel_num ∧
        z < voxelData.voxel_num ∧ isCrossing voxelData axis x y z ∧
        k = EncodeAxisUniqueID axis x y z) ∧
    (∀ axis x y z : Nat, axis < 3 → x < voxelData.voxel_num → y < voxelData.voxel_num →
      z < voxelData.voxel_num → isCrossing voxelData axis x y z →
      ∃ info, (FindActiveVoxels GetSafeNormal voxelData [] []).2.find
          (EncodeAxisUniqueID axis x y z) = some info ∧
        info = edgeInfo GetSafeNormal voxelData x y z axis ∧
        info.winding = decide (voxelData.getDensity x y z ≥ 1 / 2)) := by
  obtain ⟨h1, h2⟩ := FindActiveVoxels_edges GetSafeNormal voxelData
  refine ⟨h1, ?_⟩
  intro a x y z ha hx hy hz hc
  exact ⟨_, h2 hN a x y z ha hx hy hz hc, rfl, rfl⟩

/-- C2 on the sample field with the single filled cell `(1, 0, 0)`: the edge
leaving `(0, 0, 0)` along X is a key of the map. -/
theorem C2_active_edges_are_crossings_witness :
    sampleSingleCell.voxel_num ≤ 1024 ∧
    (EncodeAxisUniqueID 0 0 0 0 ∈ (FindActiveVoxels sampleNormal sampleSingleCell [] []).2.keys ↔
      ∃ axis x y z : Nat, axis < 3 ∧ x < sampleSingleCell.voxel_num ∧
        y < sampleSingleCell.voxel_num ∧ z < sampleSingleCell.voxel_num ∧
        isCrossing sampleSingleCell axis x y z ∧
        EncodeAxisUniqueID 0 0 0 0 = EncodeAxisUniqueID axis x y z) :=
  ⟨by decide!,
   (C2_active_edges_are_crossings sampleNormal sampleSingleCell (by decide!)).1
    (EncodeAxisUniqueID 0 0 0 0)⟩

/-- C5 on the sample field with the single filled cell. -/
theorem C5_pipeline_indices_valid_witness :
    (GenerateTriangles (FindActiveVoxels sampleNormal sampleSingleCell [] []).2
      (GenerateVertexData sampleSolver (FindActiveVoxels sampleNormal sampleSingleCell [] []).1
        (FindActiveVoxels sampleNormal sampleSingleCell [] []).2 [] [] []).vertexIndices [])
      = [3, 0, 1, 3, 1, 4, 3, 5, 2, 3, 2, 0] ∧
    (∀ i ∈ GenerateTriangles (FindActiveVoxels sampleNormal sampleSingleCell [] []).2
        (GenerateVertexData sampleSolver (FindActiveVoxels sampleNormal sampleSingleCell [] []).1
          (FindActiveVoxels sampleNormal sampleSingleCell [] []).2 [] [] []).vertexIndices [],
      0 ≤ i ∧ i < ((GenerateVertexData sampleSolver
        (FindActiveVoxels sampleNormal sampleSingleCell [] []).1
        (FindActiveVoxels sampleNormal sampleSingleCell [] []).2 [] [] []).varray.length : Int)) :=
  ⟨by decide!,
   (C5_pipeline_indices_valid sampleNormal sampleSolver sampleSingleCell _ _
    (List.Perm.refl _) (List.Perm.refl _)).2.2⟩

/-! ## Fields on one side of the isolevel -/

/-- C3, the failing case: the dense `2 × 2 × 2` field whose every cell holds
the density 1 is entirely at or above the isolevel, yet the scan from empty
containers leaves 12 active edges and 13 active voxel keys: the reads past the
upper faces return 0. -/
theorem C3_dense_full_field_has_active_edges :
    (∀ x : Nat, x < 2 → ∀ y : Nat, y < 2 → ∀ z : Nat, z < 2 →
      sampleFullDense.getDensity x y z ≥ 1 / 2) ∧
    sampleFullDense.density_data.isSome = true ∧
    sampleFullDense.density_state = .MIX ∧
    (FindActiveVoxels sampleNormal sampleFullDense [] []).2.length = 12 ∧
    (FindActiveVoxels sampleNormal sampleFullDense [] []).1.length = 13 := by
  refine ⟨by decide!, by decide!, by decide!, by decide!, by decide!⟩

theorem getDensity_none (vd : TVoxelData) (h : vd.density_data = none) (x y z x2 y2 z2 : Int) :
    vd.getDensity x y z = vd.getDensity x2 y2 z2 := by
  simp [TVoxelData.getDensity, h]

/-- When every cell is below the isolevel, so is every read at non-negative
coordinates. -/
theorem getDensity_lt_half (vd : TVoxelData)
    (h : ∀ x y z : Nat, x < vd.voxel_num → y < vd.voxel_num → z < vd.voxel_num →
      vd.getDensity x y z < 1 / 2)
    (x0 y0 z0 : Nat) (h0 : x0 < vd.voxel_num ∧ y0 < vd.voxel_num ∧ z0 < vd.voxel_num)
    (x y z : Nat) : vd.getDensity x y z < 1 / 2 := by
  by_cases hin : x < vd.voxel_num ∧ y < vd.voxel_num ∧ z < vd.voxel_num
  · exact h x y z hin.1 hin.2.1 hin.2.2
  · cases hd : vd.density_data with
    | none =>
      rw [getDensity_none vd hd x y z x0 y0 z0]
      exact h x0 y0 z0 h0.1 h0.2.1 h0.2.2
    | some buf =>
      have hin2 : ¬ ((x : Int) < vd.voxel_num ∧ (y : Int) < vd.voxel_num ∧ (z : Int) < vd.voxel_num) := by
        intro hh
        exact hin ⟨by exact_mod_cast hh.1, by exact_mod_cast hh.2.1, by exact_mod_cast hh.2.2⟩
      simp only [TVoxelData.getDensity, hd, hin2, if_false]
      norm_num

theorem positiveNeighbour_natCast (axis x y z : Nat) :
    ∃ x2 y2 z2 : Nat, positiveNeighbour axis x y z = ((x2 : Int), (y2 : Int), (z2 : Int)) := by
  unfold positiveNeighbour
  split
  · exact ⟨x + 1, y, z, by push_cast; rfl⟩
  · split
    · exact ⟨x, y + 1, z, by push_cast; rfl⟩
    · exact ⟨x, y, z + 1, by push_cast; rfl⟩

/-- C3, amended: for every field in which every lattice cell has a density
below `1 / 2` (stored either way), and for every field without a dense buffer
in which every lattice cell has a density of at least `1 / 2`,
`FindActiveVoxels` run on empty containers leaves both the active-voxel set and
the active-edge map empty. -/
theorem C3_one_sided_field_no_active (GetSafeNormal : FVector4 → ℚ → FVector4)
    (voxelData : TVoxelData)
    (h : (∀ x y z : Nat, x < voxelData.voxel_num → y < voxelData.voxel_num →
            z < voxelData.voxel_num → voxelData.getDensity x y z < 1 / 2) ∨
         (voxelData.density_data = none ∧
          ∀ x y z : Nat, x < voxelData.voxel_num → y < voxelData.voxel_num →
            z < voxelData.voxel_num → voxelData.getDensity x y z ≥ 1 / 2)) :
    FindActiveVoxels GetSafeNormal voxelData [] [] = ([], []) := by
  rw [FindActiveVoxels_eq_foldl]
  apply scan_no_crossing
  rintro ⟨⟨x, y, z⟩, a⟩ ht
  rw [mem_scanOrder] at ht
  obtain ⟨hx, hy, hz, ha⟩ := ht
  have hnot : ¬ isCrossing voxelData a x y z := by
    obtain ⟨x2, y2, z2, hq⟩ := positiveNeighbour_natCast a x y z
    unfold isCrossing
    rw [hq]
    simp only
    rcases h with h | ⟨hd, h⟩
    · have h1 := getDensity_lt_half voxelData h x y z ⟨hx, hy, hz⟩ x y z
      have h2 := getDensity_lt_half voxelData h x y z ⟨hx, hy, hz⟩ x2 y2 z2
      rintro (⟨a1, _⟩ | ⟨_, a2⟩) <;> linarith
    · have h1 := h x y z hx hy hz
      have h2 : voxelData.getDensity x2 y2 z2 ≥ 1 / 2 := by
        rw [getDensity_none voxelData hd x2 y2 z2 x y z]
        exact h1
      rintro (⟨_, a2⟩ | ⟨a1, _⟩) <;> linarith
  have := (zeroCrossing_iff voxelData x y z a ha).not.2 hnot
  simpa using this

/-- C3, amended, on the fresh `4 × 4 × 4` field, whose densities are all 0. -/
theorem C3_one_sided_field_no_active_witness :
    (∀ x y z : Nat, x < 4 → y < 4 → z < 4 →
      (TVoxelData.construct 4 500).getDensity x y z < 1 / 2) ∧
    FindActiveVoxels sampleNormal (TVoxelData.construct 4 500) [] [] = ([], []) :=
  ⟨fun x y z _ _ _ => by simp [TVoxelData.getDensity, TVoxelData.construct],
   C3_one_sided_field_no_active sampleNormal (TVoxelData.construct 4 500)
    (Or.inl (fun x y z _ _ _ => by simp [TVoxelData.getDensity, TVoxelData.construct]))⟩


/-! ## The single-cell scenario -/

/-- C9, the failing part: on the `4 × 4 × 4` field whose densities are all 0
except the cell `(1, 0, 0)` set to 1, the scan finds two keys with axis 0, not
one: the edges leaving `(0, 0, 0)` and `(1, 0, 0)` along X. -/
theorem C9_two_x_edges_on_sample :
    (∀ x : Nat, x < 4 → ∀ y : Nat, y < 4 → ∀ z : Nat, z < 4 →
      sampleSingleCell.getDensity x y z = if x = 1 ∧ y = 0 ∧ z = 0 then 1 else 0) ∧
    sampleSingleCell.voxel_num = 4 ∧
    (FindActiveVoxels sampleNormal sampleSingleCell [] []).2.keys.filter
      (fun k => decide (edgeAxis k = 0))
      = [EncodeAxisUniqueID 0 0 0 0, EncodeAxisUniqueID 0 1 0 0] ∧
    EncodeAxisUniqueID 0 0 0 0 ≠ EncodeAxisUniqueID 0 1 0 0 := by
  refine ⟨by decide!, by decide!, by decide!, by decide!⟩

theorem edgeAxis_encode (axis x y z : Nat) (ha : axis < 3) (hx : x < 1024) (hy : y < 1024)
    (hz : z < 1024) : edgeAxis (EncodeAxisUniqueID axis x y z) = axis := by
  rw [EncodeAxisUniqueID_eq axis x y z (by omega) hx hy hz, edgeAxis_eq]
  omega

theorem FVector_add_def (a b : FVector) : a + b = ⟨a.X + b.X, a.Y + b.Y, a.Z + b.Z⟩ := rfl

theorem FVector_sub_def (a b : FVector) : a - b = ⟨a.X - b.X, a.Y - b.Y, a.Z - b.Z⟩ := rfl

theorem FVector_mul_def (a : FVector) (s : ℚ) : a * s = ⟨a.X * s, a.Y * s, a.Z * s⟩ := rfl

theorem vertexInterpolation_zero_one (p1 p2 : FVector) :
    vertexInterpolation p1 p2 0 1 = midpoint3 p1 p2 := by
  unfold vertexInterpolation midpoint3
  norm_num [abs_of_pos, abs_of_neg]
  rw [FVector_sub_def, FVector_mul_def, FVector_add_def]
  congr 1 <;> simp only <;> ring

/-- The densities of the single-cell field at every non-negative coordinate. -/
theorem single_cell_density (vd : TVoxelData) (hN : vd.voxel_num = 4)
    (hd : ∀ x y z : Nat, x < 4 → y < 4 → z < 4 →
      vd.getDensity x y z = if x = 1 ∧ y = 0 ∧ z = 0 then 1 else 0)
    (x y z : Nat) : vd.getDensity x y z = if x = 1 ∧ y = 0 ∧ z = 0 then 1 else 0 := by
  by_cases hin : x < 4 ∧ y < 4 ∧ z < 4
  · exact hd x y z hin.1 hin.2.1 hin.2.2
  · have hne : ¬ (x = 1 ∧ y = 0 ∧ z = 0) := by omega
    rw [if_neg hne]
    cases hb : vd.density_data with
    | none =>
      have h0 := hd 0 0 0 (by decide) (by decide) (by decide)
      have h1 := hd 1 0 0 (by decide) (by decide) (by decide)
      rw [getDensity_none vd hb _ _ _ (0 : Nat) (0 : Nat) (0 : Nat)] at h1
      rw [h0] at h1
      norm_num at h1
    | some buf =>
      have hin2 : ¬ ((x : Int) < vd.voxel_num ∧ (y : Int) < vd.voxel_num ∧ (z : Int) < vd.voxel_num) := by
        rw [hN]
        omega
      simp only [TVoxelData.getDensity, hb, hin2, if_false]

/-- The crossing edges of the single-cell field. -/
theorem single_cell_crossing (vd : TVoxelData) (hN : vd.voxel_num = 4)
    (hd : ∀ x y z : Nat, x < 4 → y < 4 → z < 4 →
      vd.getDensity x y z = if x = 1 ∧ y = 0 ∧ z = 0 then 1 else 0)
    (axis x y z : Nat) (ha : axis < 3) :
    isCrossing vd axis x y z ↔
      (x = 1 ∧ y = 0 ∧ z = 0) ∨ (axis = 0 ∧ x = 0 ∧ y = 0 ∧ z = 0) := by
  have H := single_cell_density vd hN hd
  have hp := H x y z
  have h3 : axis = 0 ∨ axis = 1 ∨ axis = 2 := by omega
  unfold isCrossing positiveNeighbour
  rcases h3 with rfl | rfl | rfl
  · have hq := H (x + 1) y z
    push_cast at hq
    simp only [if_true, hp, hq]
    split_ifs <;> norm_num <;> omega
  · have hq := H x (y + 1) z
    push_cast at hq
    simp only [if_true, if_false, one_ne_zero, hp, hq, false_and, and_false, or_false]
    split_ifs with h <;> norm_num [h]
  · have hq := H x y (z + 1)
    push_cast at hq
    simp only [if_true, if_false, OfNat.ofNat_ne_zero, OfNat.ofNat_ne_one, hp, hq, false_and,
      and_false, or_false]
    split_ifs with h <;> norm_num [h]

/-- C9, amended: on every `4 × 4 × 4` field whose densities are all 0 except
the cell `(1, 0, 0)` at 1, the keys with axis 0 in the active-edge map of
`FindActiveVoxels` are exactly two, those of the X edges leaving `(0, 0, 0)` and
`(1, 0, 0)`; the position stored for the first is exactly the midpoint of
`voxelIndexToVector(0, 0, 0)` and `voxelIndexToVector(1, 0, 0)`. -/
theorem C9_single_cell_x_edges (GetSafeNormal : FVector4 → ℚ → FVector4)
    (voxelData : TVoxelData) (hN : voxelData.voxel_num = 4)
    (hd : ∀ x y z : Nat, x < 4 → y < 4 → z < 4 →
      voxelData.getDensity x y z = if x = 1 ∧ y = 0 ∧ z = 0 then 1 else 0) :
    (∀ k, (k ∈ (FindActiveVoxels GetSafeNormal voxelData [] []).2.keys ∧ edgeAxis k = 0) ↔
      (k = EncodeAxisUniqueID 0 0 0 0 ∨ k = EncodeAxisUniqueID 0 1 0 0)) ∧
    EncodeAxisUniqueID 0 0 0 0 ≠ EncodeAxisUniqueID 0 1 0 0 ∧
    (∃ info, (FindActiveVoxels GetSafeNormal voxelData [] []).2.find
        (EncodeAxisUniqueID 0 0 0 0) = some info ∧
      info.pos = (midpoint3 (voxelData.voxelIndexToVector 0 0 0)
        (voxelData.voxelIndexToVector 1 0 0)).toFVector4) := by
  obtain ⟨hkeys, hfind⟩ := FindActiveVoxels_edges GetSafeNormal voxelData
  have hcross := single_cell_crossing voxelData hN hd
  refine ⟨?_, by decide, ?_⟩
  · intro k
    rw [hkeys]
    constructor
    · rintro ⟨⟨a, x, y, z, ha, hx, hy, hz, hc, rfl⟩, hax⟩
      rw [hN] at hx hy hz
      rw [edgeAxis_encode a x y z ha (by omega) (by omega) (by omega)] at hax
      subst hax
      rcases (hcross 0 x y z ha).1 hc with ⟨rfl, rfl, rfl⟩ | ⟨_, rfl, rfl, rfl⟩
      · right; rfl
      · left; rfl
    · rintro (rfl | rfl)
      · refine ⟨⟨0, 0, 0, 0, by decide, by omega, by omega, by omega,
          (hcross 0 0 0 0 (by decide)).2 (Or.inr ⟨rfl, rfl, rfl, rfl⟩), rfl⟩, by decide⟩
      · refine ⟨⟨0, 1, 0, 0, by decide, by omega, by omega, by omega,
          (hcross 0 1 0 0 (by decide)).2 (Or.inl ⟨rfl, rfl, rfl⟩), rfl⟩, by decide⟩
  · have hc : isCrossing voxelData 0 0 0 0 :=
      (hcross 0 0 0 0 (by decide)).2 (Or.inr ⟨rfl, rfl, rfl, rfl⟩)
    have hf := hfind (by omega) 0 0 0 0 (by decide) (by omega) (by omega) (by omega) hc
    refine ⟨_, hf, ?_⟩
    have H := single_cell_density voxelData hN hd
    have h0 := H 0 0 0
    have h1 := H 1 0 0
    simp only [Nat.cast_zero, Nat.cast_one] at h0 h1
    norm_num at h0 h1
    simp only [edgeInfo, Density, AXIS_OFFSET, TVoxelIndex4_add_def, List.getD_cons_zero,
      Nat.cast_zero, add_zero, zero_add, h0, h1, vertexInterpolation_zero_one]

/-- C9, amended, on the sample field. -/
theorem C9_single_cell_x_edges_witness :
    sampleSingleCell.voxel_num = 4 ∧
    (∃ info, (FindActiveVoxels sampleNormal sampleSingleCell [] []).2.find
        (EncodeAxisUniqueID 0 0 0 0) = some info ∧
      info.pos = (midpoint3 (sampleSingleCell.voxelIndexToVector 0 0 0)
        (sampleSingleCell.voxelIndexToVector 1 0 0)).toFVector4) :=
  ⟨by decide!,
   (C9_single_cell_x_edges sampleNormal sampleSingleCell (by decide!)
    (fun x y z hx hy hz => by
      have h : ∀ x : Nat, x < 4 → ∀ y : Nat, y < 4 → ∀ z : Nat, z < 4 →
          sampleSingleCell.getDensity x y z = if x = 1 ∧ y = 0 ∧ z = 0 then 1 else 0 := by
        decide!
      exact h x hx y hy z hz)).2.2⟩


/-! ## Reclaiming the buffer -/

/-- C14: after `deinitializeDensity(ALL)` the dense buffer is unallocated, the
fill state is `ALL` and `getDensity` returns 1 at every coordinate, whatever
the field held before (a `MIX` field in particular); `deinitializeDensity(MIX)`
changes nothing. -/
theorem C14_deinitializeDensity_all (vd : TVoxelData) :
    (vd.deinitializeDensity .ALL).density_data.isSome = false ∧
    (vd.deinitializeDensity .ALL).density_state = .ALL ∧
    (∀ x y z : Int, (vd.deinitializeDensity .ALL).getDensity x y z = 1) ∧
    vd.deinitializeDensity .MIX = vd := by
  refine ⟨rfl, rfl, fun x y z => ?_, rfl⟩
  simp [TVoxelData.deinitializeDensity, TVoxelData.getDensity]

/-! ## Interpolation along an edge -/

/-- C20: `vertexInterpolation` is the rule list of the specification, applied
in its priority order, and whenever the division is reached the denominator
satisfies `|v2 - v1| ≥ ε`, so it is neither zero nor nearly zero. -/
theorem C20_vertexInterpolation_rules (p1 p2 : FVector) (v1 v2 : ℚ) :
    vertexInterpolation p1 p2 v1 v2 = vertexInterpolationRules p1 p2 v1 v2 ∧
    (¬ |1 / 2 - v1| < 1 / 100000 → ¬ |1 / 2 - v2| < 1 / 100000 → ¬ |v1 - v2| < 1 / 100000 →
      vertexInterpolation p1 p2 v1 v2 = p1 + (p2 - p1) * ((1 / 2 - v1) / (v2 - v1)) ∧
      1 / 100000 ≤ |v2 - v1| ∧ v2 - v1 ≠ 0) := by
  have hne : ¬ |v1 - v2| < 1 / 100000 → v1 ≠ v2 := by
    intro h e
    apply h
    rw [e, sub_self, abs_zero]
    norm_num
  constructor
  · unfold vertexInterpolation vertexInterpolationRules
    simp only
    split
    · rfl
    · split
      · rfl
      · split
        · rfl
        · rename_i h3
          rw [if_neg (hne h3)]
  · intro h1 h2 h3
    refine ⟨?_, ?_, ?_⟩
    · unfold vertexInterpolation
      simp only
      rw [if_neg h1, if_neg h2, if_neg h3, if_neg (hne h3)]
    · rw [abs_sub_comm]
      exact not_lt.1 h3
    · intro e
      exact hne h3 (by linarith)

/-- C17, the failing case: with `v1 = 0.1` and `v2 = 0.2` no snap rule applies
and the densities differ, yet the result is `p1 + 4 (p2 - p1)`, beyond `p2`,
and not `p1 + t (p2 - p1)` for any `0 < t < 1`. -/
theorem C17_interpolation_outside_segment :
    ¬ |(1 / 2 : ℚ) - 1 / 10| < 1 / 100000 ∧ ¬ |(1 / 2 : ℚ) - 2 / 10| < 1 / 100000 ∧
    ¬ |(1 / 10 : ℚ) - 2 / 10| < 1 / 100000 ∧
    vertexInterpolation ⟨0, 0, 0⟩ ⟨1, 0, 0⟩ (1 / 10) (2 / 10) = ⟨4, 0, 0⟩ ∧
    ¬ ∃ t : ℚ, 0 < t ∧ t < 1 ∧
      vertexInterpolation ⟨0, 0, 0⟩ ⟨1, 0, 0⟩ (1 / 10) (2 / 10)
        = (⟨0, 0, 0⟩ : FVector) + ((⟨1, 0, 0⟩ : FVector) - ⟨0, 0, 0⟩) * t := by
  have hv : vertexInterpolation ⟨0, 0, 0⟩ ⟨1, 0, 0⟩ (1 / 10) (2 / 10) = ⟨4, 0, 0⟩ := by decide!
  refine ⟨by decide!, by decide!, by decide!, hv, ?_⟩
  rintro ⟨t, _, ht1, h⟩
  rw [hv, FVector_sub_def, FVector_mul_def, FVector_add_def] at h
  have hx := congrArg FVector.X h
  simp only at hx
  linarith

/-- C17, amended: `vertexInterpolation` returns `p1` when `v1 = v2`; and when
no snap rule applies and `0.5` lies strictly between `v1` and `v2`, it returns
`p1 + t (p2 - p1)` with `t = (0.5 - v1) / (v2 - v1)` and `0 < t < 1`. -/
theorem C17_interpolation_between (p1 p2 : FVector) (v1 v2 : ℚ) :
    (v1 = v2 → vertexInterpolation p1 p2 v1 v2 = p1) ∧
    (¬ |1 / 2 - v1| < 1 / 100000 → ¬ |1 / 2 - v2| < 1 / 100000 → ¬ |v1 - v2| < 1 / 100000 →
      ((v1 < 1 / 2 ∧ 1 / 2 < v2) ∨ (v2 < 1 / 2 ∧ 1 / 2 < v1)) →
      ∃ t : ℚ, 0 < t ∧ t < 1 ∧ t = (1 / 2 - v1) / (v2 - v1) ∧
        vertexInterpolation p1 p2 v1 v2 = p1 + (p2 - p1) * t) := by
  constructor
  · intro e
    subst e
    have h3 : |v1 - v1| < (1 : ℚ) / 100000 := by
      rw [sub_self, abs_zero]
      norm_num
    unfold vertexInterpolation
    by_cases h1 : |(1 : ℚ) / 2 - v1| < 1 / 100000
    · simp only [h1, if_true]
    · simp only [h1, if_false, h3, if_true]
  · intro h1 h2 h3 hb
    have hne : v1 ≠ v2 := by
      rcases hb with ⟨a, b⟩ | ⟨a, b⟩ <;> intro e <;> linarith
    refine ⟨(1 / 2 - v1) / (v2 - v1), ?_, ?_, rfl, ?_⟩
    · rcases hb with ⟨a, b⟩ | ⟨a, b⟩
      · exact div_pos (by linarith) (by linarith)
      · exact div_pos_of_neg_of_neg (by linarith) (by linarith)
    · rcases hb with ⟨a, b⟩ | ⟨a, b⟩
      · rw [div_lt_one (by linarith)]
        linarith
      · rw [div_lt_one_of_neg (by linarith)]
        linarith
    · unfold vertexInterpolation
      simp only
      rw [if_neg h1, if_neg h2, if_neg h3, if_neg hne]

/-- C17, amended, at `v1 = 0.2`, `v2 = 0.9` between `(0, 0, 0)` and `(1, 0, 0)`. -/
theorem C17_interpolation_between_witness :
    ∃ t : ℚ, 0 < t ∧ t < 1 ∧ t = (1 / 2 - 2 / 10) / (9 / 10 - 2 / 10) ∧
      vertexInterpolation ⟨0, 0, 0⟩ ⟨1, 0, 0⟩ (2 / 10) (9 / 10)
        = (⟨0, 0, 0⟩ : FVector) + ((⟨1, 0, 0⟩ : FVector) - ⟨0, 0, 0⟩) * t :=
  (C17_interpolation_between ⟨0, 0, 0⟩ ⟨1, 0, 0⟩ (2 / 10) (9 / 10)).2
    (by decide!) (by decide!) (by decide!) (Or.inl ⟨by decide!, by decide!⟩)

/-! ## Writes on a uniform field and out-of-range coordinates -/

theorem getDensity_setDensity_same (heap : Int → Nat) (vd : TVoxelData) (x y z : Int) (d : ℚ)
    (hx : x < vd.voxel_num) (hy : y < vd.voxel_num) (hz : z < vd.voxel_num) :
    (vd.setDensity heap x y z d).getDensity x y z
      = ((⌊255 * max 0 (min d 1)⌋ : Int) : ℚ) / 255 := by
  unfold TVoxelData.setDensity
  cases hd : vd.density_data with
  | none =>
    simp only
    by_cases hZ : vd.density_state = .ZERO ∧ d = 0
    · rw [if_pos hZ]
      simp [TVoxelData.getDensity, hd, hZ.1, hZ.2]
    · rw [if_neg hZ]
      by_cases hA : vd.density_state = .ALL ∧ d = 1
      · rw [if_pos hA]
        simp [TVoxelData.getDensity, hd, hA.1, hA.2]
      · rw [if_neg hA]
        obtain ⟨buf, hb, _⟩ := initializeDensity_eq heap vd
        rw [hb]
        exact getDensity_storeDensity_same _ buf rfl x y z d hx hy hz
  | some buf =>
    simp only
    exact getDensity_storeDensity_same vd buf hd x y z d hx hy hz

/-- C13, the failing case: on the fresh (uniform-empty) field the density `-1`
clamps to the bulk value 0, yet `setDensity` allocates the buffer and the state
becomes `MIX`; likewise `2` on a uniform-full field. -/
theorem C13_clamped_bulk_write_allocates :
    (TVoxelData.construct 4 300).density_data.isSome = false ∧
    (TVoxelData.construct 4 300).density_state = .ZERO ∧
    max 0 (min (-1 : ℚ) 1) = 0 ∧
    ((TVoxelData.construct 4 300).setDensity (fun _ => 0) 0 0 0 (-1)).density_data.isSome = true ∧
    ((TVoxelData.construct 4 300).setDensity (fun _ => 0) 0 0 0 (-1)).density_state = .MIX ∧
    max 0 (min (2 : ℚ) 1) = 1 ∧
    (((TVoxelData.construct 4 300).deinitializeDensity .ALL).setDensity (fun _ => 0) 0 0 0
      2).density_state = .MIX := by
  refine ⟨by decide, by decide, by decide!, by decide!, by decide!, by decide!, by decide!⟩

/-- C13, amended: on a uniform field (no buffer, state `ZERO` or `ALL`)
`setDensity` is a no-op exactly when `d` itself is the bulk value (`d = 0` on
`ZERO`, `d = 1` on `ALL`); for every other `d`, those below 0 on `ZERO` and
above 1 on `ALL` included, it allocates the buffer and the state becomes `MIX`;
and on an in-range cell the value then read is the clamped, quantised `d`. -/
theorem C13_setDensity_on_uniform (heap : Int → Nat) (vd : TVoxelData) (x y z : Int) (d : ℚ)
    (hU : vd.density_data = none)
    (_hS : vd.density_state = .ZERO ∨ vd.density_state = .ALL) :
    ((vd.density_state = .ZERO ∧ d = 0) ∨ (vd.density_state = .ALL ∧ d = 1) →
      vd.setDensity heap x y z d = vd) ∧
    (¬ ((vd.density_state = .ZERO ∧ d = 0) ∨ (vd.density_state = .ALL ∧ d = 1)) →
      (vd.setDensity heap x y z d).density_data.isSome = true ∧
      (vd.setDensity heap x y z d).density_state = .MIX) ∧
    (x < vd.voxel_num → y < vd.voxel_num → z < vd.voxel_num →
      (vd.setDensity heap x y z d).getDensity x y z
        = ((⌊255 * max 0 (min d 1)⌋ : Int) : ℚ) / 255) := by
  refine ⟨?_, ?_, getDensity_setDensity_same heap vd x y z d⟩
  · intro h
    unfold TVoxelData.setDensity
    rw [hU]
    simp only
    rcases h with h | h
    · rw [if_pos h]
    · have hn : ¬ (vd.density_state = .ZERO ∧ d = 0) := by
        intro hz
        rw [h.1] at hz
        exact absurd hz.1 (by decide)
      rw [if_neg hn, if_pos h]
  · intro h
    rw [not_or] at h
    have hinv := DensityInvariant_storeDensity _ x y z d (DensityInvariant_allocate heap vd)
    have hst := (storeDensity_density
      { vd.initializeDensity heap with density_state := .MIX } x y z d).1
    have e : vd.setDensity heap x y z d
        = TVoxelData.storeDensity { vd.initializeDensity heap with density_state := .MIX }
            x y z d := by
      unfold TVoxelData.setDensity
      rw [hU]
      simp only
      rw [if_neg h.1, if_neg h.2]
    rw [e]
    exact ⟨hinv.2 hst, hst⟩

/-- C13, amended, on the fresh field with `d = -1`. -/
theorem C13_setDensity_on_uniform_witness :
    (TVoxelData.construct 4 300).density_data = none ∧
    ((TVoxelData.construct 4 300).setDensity (fun _ => 0) 1 2 3 (-1)).getDensity 1 2 3
      = ((⌊255 * max 0 (min (-1 : ℚ) 1)⌋ : Int) : ℚ) / 255 :=
  ⟨rfl,
   (C13_setDensity_on_uniform (fun _ => 0) (TVoxelData.construct 4 300) 1 2 3 (-1) rfl
    (Or.inl rfl)).2.2 (by decide) (by decide) (by decide)⟩

/-- C11, the failing input: on the dense sample field `getDensity(2, -4, 0)`
passes the coordinate test and returns the density 1 of the cell `(1, 0, 0)`
instead of 0, and `getDensity(-1, 0, 0)`, which `FindActiveVoxels` calls for
the crossing at `(0, 0, 0)`, reads `density_data[-16]`, before the block of 64
bytes.  With a component at or above `N` the claim holds on every field: no
read, and the bulk value or 0. -/
theorem C11_getDensity_negative_coordinate :
    sampleSingleCell.density_state = .MIX ∧
    sampleSingleCell.voxel_num = 4 ∧
    sampleSingleCell.getDensityIndex 2 (-4) 0 = some 16 ∧
    sampleSingleCell.getDensity 2 (-4) 0 = 1 ∧
    zeroCrossing sampleSingleCell 0 0 0 0 = true ∧
    sampleSingleCell.getDensityIndex (-1) 0 0 = some (-16) ∧
    (∀ (vd : TVoxelData) (x y z : Int),
      (vd.voxel_num : Int) ≤ x ∨ (vd.voxel_num : Int) ≤ y ∨ (vd.voxel_num : Int) ≤ z →
      vd.getDensityIndex x y z = none ∧
      vd.getDensity x y z
        = if vd.density_data.isSome = true then 0
          else if vd.density_state = .ALL then 1 else 0) := by
  refine ⟨by decide!, by decide!, by decide!, by decide!, by decide!, by decide!, ?_⟩
  intro vd x y z h
  have hn : ¬ (x < vd.voxel_num ∧ y < vd.voxel_num ∧ z < vd.voxel_num) := by omega
  unfold TVoxelData.getDensityIndex TVoxelData.getDensity
  cases vd.density_data with
  | none => simp
  | some buf => simp [hn]

theorem storeDensity_upper_out_of_range (v : TVoxelData) (x y z : Int) (d : ℚ)
    (h : (v.voxel_num : Int) ≤ x ∨ (v.voxel_num : Int) ≤ y ∨ (v.voxel_num : Int) ≤ z) :
    v.storeDensity x y z d = v := by
  have hn : ¬ (x < v.voxel_num ∧ y < v.voxel_num ∧ z < v.voxel_num) := by omega
  unfold TVoxelData.storeDensity
  cases hd : v.density_data with
  | none => rfl
  | some buf => simp only [hn, if_false]

/-- A write with a component at or above `N` leaves every in-range read as it
was (it may still allocate the buffer). -/
theorem setDensity_upper_out_of_range (heap : Int → Nat) (vd : TVoxelData)
    (hinv : DensityInvariant vd) (x y z x2 y2 z2 : Int) (d : ℚ)
    (h : (vd.voxel_num : Int) ≤ x ∨ (vd.voxel_num : Int) ≤ y ∨ (vd.voxel_num : Int) ≤ z)
    (hx20 : 0 ≤ x2) (hx2 : x2 < vd.voxel_num) (hy20 : 0 ≤ y2) (hy2 : y2 < vd.voxel_num)
    (hz20 : 0 ≤ z2) (hz2 : z2 < vd.voxel_num) :
    (vd.setDensity heap x y z d).getDensity x2 y2 z2 = vd.getDensity x2 y2 z2 := by
  unfold TVoxelData.setDensity
  cases hd : vd.density_data with
  | none =>
    simp only
    by_cases hZ : vd.density_state = .ZERO ∧ d = 0
    · rw [if_pos hZ]
    · rw [if_neg hZ]
      by_cases hA : vd.density_state = .ALL ∧ d = 1
      · rw [if_pos hA]
      · rw [if_neg hA]
        obtain ⟨buf, hb, hfill⟩ := initializeDensity_eq heap vd
        rw [hb]
        rw [storeDensity_upper_out_of_range
          { ({ vd with density_data := some buf } : TVoxelData) with density_state := .MIX }
          x y z d h]
        have hmix : vd.density_state ≠ .MIX := by
          intro hm
          have := hinv.2 hm
          rw [hd] at this
          exact absurd this (by simp)
        have hf := hfill x2.toNat y2.toNat z2.toNat (by omega) (by omega) (by omega)
        have ex : ((x2.toNat : Nat) : Int) = x2 := Int.toNat_of_nonneg hx20
        have ey : ((y2.toNat : Nat) : Int) = y2 := Int.toNat_of_nonneg hy20
        have ez : ((z2.toNat : Nat) : Int) = z2 := Int.toNat_of_nonneg hz20
        rw [ex, ey, ez] at hf
        simp only [TVoxelData.getDensity, hd, hx2, hy2, hz2, and_self, if_true]
        cases hs : vd.density_state with
        | ZERO => rw [hf.2 hs]; simp
        | ALL => rw [hf.1 hs]; simp
        | MIX => exact absurd hs hmix
  | some buf =>
    simp only
    rw [storeDensity_upper_out_of_range vd x y z d h]

/-- C12, the failing inputs: `setDensity(4, 0, 0, 0.7)` on the fresh
`4 × 4 × 4` field is out of range, yet the buffer is allocated and the state
goes from `ZERO` to `MIX`; and `setDensity(1, -1, 0, 1)` on the dense sample
field passes the coordinate test and overwrites the in-range cell `(0, 3, 0)`,
whose density goes from 0 to 1.  What holds on every field satisfying the
storage invariant: a write with a component at or above `N` leaves every
in-range read as it was. -/
theorem C12_setDensity_out_of_range_not_ignored :
    (TVoxelData.construct 4 300).density_state = .ZERO ∧
    ((TVoxelData.construct 4 300).setDensity (fun _ => 0) 4 0 0 (7 / 10)).density_state = .MIX ∧
    ((TVoxelData.construct 4 300).setDensity (fun _ => 0) 4 0 0 (7 / 10)).density_data.isSome
      = true ∧
    sampleSingleCell.getDensity 0 3 0 = 0 ∧
    (sampleSingleCell.setDensity (fun _ => 0) 1 (-1) 0 1).getDensity 0 3 0 = 1 ∧
    (∀ (heap : Int → Nat) (vd : TVoxelData) (x y z x2 y2 z2 : Int) (d : ℚ),
      DensityInvariant vd →
      (vd.voxel_num : Int) ≤ x ∨ (vd.voxel_num : Int) ≤ y ∨ (vd.voxel_num : Int) ≤ z →
      0 ≤ x2 → x2 < vd.voxel_num → 0 ≤ y2 → y2 < vd.voxel_num → 0 ≤ z2 → z2 < vd.voxel_num →
      (vd.setDensity heap x y z d).getDensity x2 y2 z2 = vd.getDensity x2 y2 z2) := by
  refine ⟨by decide, by decide!, by decide!, by decide!, by decide!, ?_⟩
  intro heap vd x y z x2 y2 z2 d hinv h hx20 hx2 hy20 hy2 hz20 hz2
  exact setDensity_upper_out_of_range heap vd hinv x y z x2 y2 z2 d h hx20 hx2 hy20 hy2 hz20 hz2

/-- C15, the failing input: on the field whose only filled cell is
`(1, 0, 2)`, the scan registers the key `0xFFFFFC00` (computed for the cell
`(0, -1, 2)` of the X edge leaving `(0, 0, 2)`), none of whose twelve candidate
edge keys is in the active-edge map: `GenerateVertexData` gathers 0 edges for
it. -/
theorem C15_active_voxel_without_edge :
    0xFFFFFC00 ∈ (FindActiveVoxels sampleNormal sampleBoundaryCell [] []).1 ∧
    EncodeVoxelUniqueID (⟨0, 0, 2, 0⟩ - ⟨0, 1, 0, 0⟩) = 0xFFFFFC00 ∧
    (∀ i : Nat, i < 12 →
      (FindActiveVoxels sampleNormal sampleBoundaryCell [] []).2.find
        ((0xFFFFFC00 + ENCODED_EDGE_OFFSETS.getD i 0) % 2 ^ 32) = none) ∧
    (gatherEdges (FindActiveVoxels sampleNormal sampleBoundaryCell [] []).2
      0xFFFFFC00).1.length = 0 := by
  refine ⟨by decide!, by decide!, by decide!, by decide!⟩

/-! ## The normal of a vertex -/

theorem gather_fold (edges : EdgeInfoMap) (ks : List Nat) (a b : List FVector4) :
    ks.foldl (fun (pn : List FVector4 × List FVector4) k =>
      match edges.find k with
      | some info => (pn.1 ++ [info.pos], pn.2 ++ [info.normal])
      | none => pn) (a, b)
    = (a ++ (ks.filterMap (fun k => edges.find k)).map (fun e => e.pos),
       b ++ (ks.filterMap (fun k => edges.find k)).map (fun e => e.normal)) := by
  induction ks generalizing a b with
  | nil => simp
  | cons k ks ih =>
    rw [List.foldl_cons]
    cases h : edges.find k with
    | none => simp only [h, List.filterMap_cons]; exact ih a b
    | some info =>
      simp only [h, List.filterMap_cons, List.map_cons]
      rw [ih]
      simp

theorem range12_keys (voxelID : Nat) :
    (List.range 12).map (fun i => (voxelID + ENCODED_EDGE_OFFSETS.getD i 0) % 2 ^ 32)
      = candidateEdgeKeys voxelID := by
  have hr : List.range 12 = [0, 1, 2, 3, 4, 5, 6, 7, 8, 9, 10, 11] := by decide
  rw [hr]
  rfl

theorem gatherEdges_eq (edges : EdgeInfoMap) (voxelID : Nat) :
    gatherEdges edges voxelID
      = ((presentEdges edges voxelID).map (fun e => e.pos),
         (presentEdges edges voxelID).map (fun e => e.normal)) := by
  have h := gather_fold edges (candidateEdgeKeys voxelID) [] []
  rw [← range12_keys, List.foldl_map] at h
  unfold gatherEdges presentEdges
  rw [← range12_keys]
  simpa using h

theorem sum_fold_FVector4 (l : List FVector4) (a : FVector4) :
    l.foldl (fun acc ni => acc + ni) a
      = ⟨a.X + (l.map (fun n => n.X)).sum, a.Y + (l.map (fun n => n.Y)).sum,
         a.Z + (l.map (fun n => n.Z)).sum, a.W + (l.map (fun n => n.W)).sum⟩ := by
  induction l generalizing a with
  | nil => simp
  | cons n l ih =>
    rw [List.foldl_cons, ih]
    show (⟨a.X + n.X + _, a.Y + n.Y + _, a.Z + n.Z + _, a.W + n.W + _⟩ : FVector4) = _
    simp only [List.map_cons, List.sum_cons, add_assoc]

theorem voxelVertex_normal (qef : List FVector4 → List FVector4 → Nat → FVector4)
    (edges : EdgeInfoMap) (voxelID : Nat) :
    (voxelVertex qef edges voxelID).2 = meanNormal (presentEdges edges voxelID) := by
  unfold voxelVertex meanNormal
  simp only [gatherEdges_eq, sum_fold_FVector4, FVector4.init, List.length_map, List.map_map,
    zero_add]
  show (⟨_ * (1 / _), _ * (1 / _), _ * (1 / _)⟩ : FVector) = _
  congr 1 <;> simp only [Function.comp_def, div_eq_mul_inv, one_mul]

theorem candidateEdgeKeys_nodup (voxelID : Nat) : (candidateEdgeKeys voxelID).Nodup := by
  unfold candidateEdgeKeys
  apply List.Nodup.map_on
  · intro a ha b hb h
    have hlt : ∀ o ∈ ENCODED_EDGE_OFFSETS, o < 2 ^ 32 := by decide
    have h1 := hlt a ha
    have h2 := hlt b hb
    omega
  · decide

/-- C19: for a voxel with at least one candidate edge present in the edge map,
the normal `GenerateVertexData` emits for it (at the voxel's position in the
normal array) is the sum of the normals of its present candidate edges divided
by their number; the twelve candidate keys are pairwise distinct, so each
present edge is counted exactly once. -/
theorem C19_normal_is_mean (qef : List FVector4 → List FVector4 → Nat → FVector4)
    (voxels : VoxelIDSet) (edges : EdgeInfoMap) (i : Nat) (voxelID : Nat)
    (hi : voxels[i]? = some voxelID) (_hp : presentEdges edges voxelID ≠ []) :
    (GenerateVertexData qef voxels edges [] [] []).narray[i]?
      = some (meanNormal (presentEdges edges voxelID)) ∧
    (voxelVertex qef edges voxelID).2 = meanNormal (presentEdges edges voxelID) ∧
    (candidateEdgeKeys voxelID).length = 12 ∧ (candidateEdgeKeys voxelID).Nodup ∧
    (∀ e, e ∈ presentEdges edges voxelID ↔
      ∃ k ∈ candidateEdgeKeys voxelID, edges.find k = some e) := by
  obtain ⟨_, _, h3, _, _, _⟩ := GenerateVertexData_fold qef edges voxels
    ({ idxCounter := 0, vertexIndices := [], varray := [], narray := [] } : VertexData)
  simp only [List.nil_append] at h3
  refine ⟨?_, voxelVertex_normal qef edges voxelID, rfl, candidateEdgeKeys_nodup voxelID, ?_⟩
  · unfold GenerateVertexData
    rw [h3, List.getElem?_map, hi]
    simp only [Option.map_some']
    rw [voxelVertex_normal]
  · intro e
    unfold presentEdges
    rw [List.mem_filterMap]

/-- C19 on a voxel with two present edges, along X and along Y. -/
theorem C19_normal_is_mean_witness :
    presentEdges [(0x401, ⟨⟨0, 0, 0, 1⟩, ⟨1, 0, 0, 0⟩, true⟩),
        (0x40000401, ⟨⟨0, 0, 0, 1⟩, ⟨0, 1, 0, 0⟩, false⟩)] 0x401 ≠ [] ∧
    (GenerateVertexData sampleSolver [7, 0x401]
        [(0x401, ⟨⟨0, 0, 0, 1⟩, ⟨1, 0, 0, 0⟩, true⟩),
          (0x40000401, ⟨⟨0, 0, 0, 1⟩, ⟨0, 1, 0, 0⟩, false⟩)] [] [] []).narray[1]?
      = some (meanNormal (presentEdges [(0x401, ⟨⟨0, 0, 0, 1⟩, ⟨1, 0, 0, 0⟩, true⟩),
          (0x40000401, ⟨⟨0, 0, 0, 1⟩, ⟨0, 1, 0, 0⟩, false⟩)] 0x401)) ∧
    meanNormal (presentEdges [(0x401, ⟨⟨0, 0, 0, 1⟩, ⟨1, 0, 0, 0⟩, true⟩),
        (0x40000401, ⟨⟨0, 0, 0, 1⟩, ⟨0, 1, 0, 0⟩, false⟩)] 0x401) = ⟨1 / 2, 1 / 2, 0⟩ :=
  ⟨by decide,
   (C19_normal_is_mean sampleSolver [7, 0x401]
      [(0x401, ⟨⟨0, 0, 0, 1⟩, ⟨1, 0, 0, 0⟩, true⟩),
        (0x40000401, ⟨⟨0, 0, 0, 1⟩, ⟨0, 1, 0, 0⟩, false⟩)] 1 0x401 rfl (by decide)).1,
   by decide!⟩

/-! ## The substance cache -/

theorem performCellSubstanceCaching_eq (v : TVoxelData) (x y z : Int) (lod : Nat) (step : Int) :
    (v.performCellSubstanceCaching x y z lod step).1
      = if 0 < x ∧ 0 < y ∧ 0 < z ∧ step ≤ x ∧ step ≤ y ∧ step ≤ z ∧
            nonUniformCell v (x - step) (y - step) (z - step) step then
          { v with substanceCacheLOD := v.substanceCacheLOD.set lod (TSubstanceCache.mk
              (cacheList v lod ++ [v.clcLinearIndex (x - step) (y - step) (z - step)])) }
        else v := by
  unfold TVoxelData.performCellSubstanceCaching
  by_cases h1 : x ≤ 0 ∨ y ≤ 0 ∨ z ≤ 0
  · rw [if_pos h1, if_neg]
    rintro ⟨a, b, c, _⟩
    omega
  · rw [if_neg h1]
    by_cases h2 : x < step ∨ y < step ∨ z < step
    · rw [if_pos h2, if_neg]
      rintro ⟨_, _, _, a, b, c, _⟩
      omega
    · rw [if_neg h2]
      have hpos : 0 < x ∧ 0 < y ∧ 0 < z ∧ step ≤ x ∧ step ≤ y ∧ step ≤ z := by omega
      simp only [List.all_eq_true, decide_eq_true_eq]
      have hc : cellCorners v (x - step) (y - step) (z - step) step
          = [ v.getRawDensity x (y - step) z, v.getRawDensity x y z,
              v.getRawDensity (x - step) (y - step) z, v.getRawDensity (x - step) y z,
              v.getRawDensity x (y - step) (z - step), v.getRawDensity x y (z - step),
              v.getRawDensity (x - step) (y - step) (z - step),
              v.getRawDensity (x - step) y (z - step) ] := by
        simp only [cellCorners, sub_add_cancel]
      rw [← hc]
      by_cases h3 : ∀ d ∈ cellCorners v (x - step) (y - step) (z - step) step, d > 127
      · rw [if_pos h3, if_neg]
        rintro ⟨_, _, _, _, _, _, hn⟩
        exact hn.1 h3
      · rw [if_neg h3]
        by_cases h4 : ∀ d ∈ cellCorners v (x - step) (y - step) (z - step) step, d ≤ 127
        · rw [if_pos h4, if_neg]
          rintro ⟨_, _, _, _, _, _, hn⟩
          exact hn.2 h4
        · rw [if_neg h4, if_pos]
          · rfl
          · exact ⟨hpos.1, hpos.2.1, hpos.2.2.1, hpos.2.2.2.1, hpos.2.2.2.2.1, hpos.2.2.2.2.2,
              h3, h4⟩

theorem cacheList_set (v : TVoxelData) (lod l : Nat) (L : List Int)
    (hlod : lod < v.substanceCacheLOD.length) :
    cacheList { v with substanceCacheLOD := v.substanceCacheLOD.set lod ⟨L⟩ } l
      = if l = lod then L else cacheList v l := by
  unfold cacheList
  simp only [List.getD_eq_getElem?_getD, List.getElem?_set]
  by_cases h : lod = l
  · subst h
    simp [hlod]
  · have h2 : ¬ l = lod := fun e => h e.symm
    simp [h, h2]

theorem cacheList_clear (vd : TVoxelData) (l : Nat) :
    cacheList vd.clearSubstanceCache l = [] := by
  unfold cacheList TVoxelData.clearSubstanceCache
  simp only [List.getD_eq_getElem?_getD, List.getElem?_map]
  cases vd.substanceCacheLOD[l]? <;> rfl

theorem sameField_nonUniformCell (vd v : TVoxelData) (hv : sameField vd v) (rx ry rz s : Int) :
    nonUniformCell v rx ry rz s ↔ nonUniformCell vd rx ry rz s := by
  have hc : cellCorners v rx ry rz s = cellCorners vd rx ry rz s := by
    simp only [cellCorners, TVoxelData.getRawDensity, hv.1, hv.2.1]
  unfold nonUniformCell
  rw [hc]

theorem sameField_clcLinearIndex (vd v : TVoxelData) (hv : sameField vd v) (x y z : Int) :
    v.clcLinearIndex x y z = vd.clcLinearIndex x y z := by
  simp only [TVoxelData.clcLinearIndex, hv.2.1]

theorem one_shiftLeft_pos (l : Nat) : (0 : Int) < ((1 <<< l : Nat) : Int) := by
  rw [Nat.one_shiftLeft]
  exact_mod_cast Nat.pow_pos (by norm_num : 0 < 2)

theorem performSubstanceCacheLOD_eq (v : TVoxelData) (x y z : Int) :
    v.performSubstanceCacheLOD x y z
      = match v.density_data with
        | none => v
        | some _ => (List.range LOD_ARRAY_SIZE).foldl (cacheLevelStep x y z) v := rfl

/-- The effect of one guarded call of `performCellSubstanceCaching` at level
`lod`, as in the loop of `performSubstanceCacheLOD`. -/
theorem cache_level_step (vd v : TVoxelData) (hv : sameField vd v) (x y z : Int) (lod : Nat)
    (hlod : lod < LOD_ARRAY_SIZE) :
    sameField vd (cacheLevelStep x y z v lod) ∧
    ∀ l, cacheList (cacheLevelStep x y z v lod) l
      = cacheList v l ++ (if l = lod then levelContribution vd lod x y z else []) := by
  have hs := one_shiftLeft_pos lod
  have key : cacheLevelStep x y z v lod
      = if ((1 <<< lod : Nat) : Int) ≤ x ∧ ((1 <<< lod : Nat) : Int) ≤ y ∧
            ((1 <<< lod : Nat) : Int) ≤ z ∧
            x % ((1 <<< lod : Nat) : Int) = 0 ∧ y % ((1 <<< lod : Nat) : Int) = 0 ∧
            z % ((1 <<< lod : Nat) : Int) = 0 ∧
            nonUniformCell vd (x - ((1 <<< lod : Nat) : Int)) (y - ((1 <<< lod : Nat) : Int))
              (z - ((1 <<< lod : Nat) : Int)) ((1 <<< lod : Nat) : Int) then
          { v with substanceCacheLOD := v.substanceCacheLOD.set lod (TSubstanceCache.mk
              (cacheList v lod ++ [vd.clcLinearIndex (x - ((1 <<< lod : Nat) : Int))
                (y - ((1 <<< lod : Nat) : Int)) (z - ((1 <<< lod : Nat) : Int))])) }
        else v := by
    unfold cacheLevelStep
    simp only
    rw [performCellSubstanceCaching_eq, sameField_clcLinearIndex vd v hv]
    simp only [sameField_nonUniformCell vd v hv]
    generalize ((1 <<< lod : Nat) : Int) = s at hs
    by_cases hge : x ≥ s ∧ y ≥ s ∧ z ≥ s
    · by_cases hmod : x % s = 0 ∧ y % s = 0 ∧ z % s = 0
      · have hp : 0 < x ∧ 0 < y ∧ 0 < z := by omega
        simp only [hge, hmod, hp, and_self, true_and, if_true, ge_iff_le]
      · rw [if_pos hge, if_neg hmod, if_neg]
        rintro ⟨_, _, _, a, b, c, _⟩
        exact hmod ⟨a, b, c⟩
    · rw [if_neg hge, if_neg]
      rintro ⟨a, b, c, _⟩
      exact hge ⟨a, b, c⟩
  rw [key]
  unfold levelContribution
  split
  · refine ⟨⟨hv.1, hv.2.1, ?_⟩, ?_⟩
    · simp only [List.length_set]
      exact hv.2.2
    · intro l
      rw [cacheList_set v lod l _ (by rw [hv.2.2]; exact hlod)]
      by_cases h : l = lod
      · subst h
        simp
      · simp [h]
  · exact ⟨hv, fun l => by simp⟩

/-- The effect of the loop of `performSubstanceCacheLOD` over the levels of
`lods`. -/
theorem cache_levels_fold (vd : TVoxelData) (x y z : Int) (lods : List Nat) (hnd : lods.Nodup)
    (hlt : ∀ l ∈ lods, l < LOD_ARRAY_SIZE) (v : TVoxelData) (hv : sameField vd v) :
    sameField vd (lods.foldl (cacheLevelStep x y z) v) ∧
    ∀ l, cacheList (lods.foldl (cacheLevelStep x y z) v) l
      = cacheList v l ++ (if l ∈ lods then levelContribution vd l x y z else []) := by
  induction lods generalizing v with
  | nil => exact ⟨hv, fun l => by simp⟩
  | cons a rest ih =>
    rw [List.nodup_cons] at hnd
    obtain ⟨h1, h2⟩ := cache_level_step vd v hv x y z a (hlt a (List.mem_cons_self _ _))
    obtain ⟨h3, h4⟩ := ih hnd.2 (fun l hl => hlt l (List.mem_cons_of_mem _ hl)) _ h1
    rw [List.foldl_cons]
    refine ⟨h3, fun l => ?_⟩
    rw [h4 l, h2 l]
    by_cases hla : l = a
    · subst hla
      simp [hnd.1]
    · simp [hla]

/-- What visiting the lattice point `(x, y, z)` adds to the cache list of level
`l` in `forEachWithCache`. -/
theorem cache_point_step (vd v : TVoxelData) (hv : sameField vd v) (LOD : Bool) (x y z : Int) :
    sameField vd
      (if LOD then v.performSubstanceCacheLOD x y z else v.performSubstanceCacheNoLOD x y z) ∧
    ∀ l, cacheList
        (if LOD then v.performSubstanceCacheLOD x y z else v.performSubstanceCacheNoLOD x y z) l
      = cacheList v l ++
        (if vd.density_data.isSome = true ∧ l < LOD_ARRAY_SIZE ∧ (LOD = true ∨ l = 0) then
          levelContribution vd l x y z else []) := by
  cases hd : vd.density_data with
  | none =>
    have hvd : v.density_data = none := hv.1.trans hd
    have e1 : v.performSubstanceCacheLOD x y z = v := by
      rw [performSubstanceCacheLOD_eq, hvd]
    have e2 : v.performSubstanceCacheNoLOD x y z = v := by
      unfold TVoxelData.performSubstanceCacheNoLOD
      rw [hvd]
    rw [e1, e2]
    simp [hv]
  | some buf =>
    have hvd : v.density_data = some buf := hv.1.trans hd
    cases LOD with
    | true =>
      have e1 : v.performSubstanceCacheLOD x y z
          = (List.range LOD_ARRAY_SIZE).foldl (cacheLevelStep x y z) v := by
        rw [performSubstanceCacheLOD_eq, hvd]
      obtain ⟨h1, h2⟩ := cache_levels_fold vd x y z (List.range LOD_ARRAY_SIZE)
        (List.nodup_range _) (fun l hl => List.mem_range.1 hl) v hv
      simp only [if_true]
      rw [e1]
      refine ⟨h1, fun l => ?_⟩
      rw [h2 l]
      simp [List.mem_range]
    | false =>
      have e2 : v.performSubstanceCacheNoLOD x y z = cacheLevelStep x y z v 0 := by
        have h1 : ((1 <<< 0 : Nat) : Int) = 1 := by decide
        unfold TVoxelData.performSubstanceCacheNoLOD cacheLevelStep
        rw [hvd]
        simp only [h1]
        by_cases hge : x ≥ 1 ∧ y ≥ 1 ∧ z ≥ 1
        · rw [if_pos hge, if_pos (by omega)]
        · rw [if_neg hge, performCellSubstanceCaching_eq, if_neg]
          rintro ⟨a, b, c, _⟩
          omega
      obtain ⟨h1, h2⟩ := cache_level_step vd v hv x y z 0 (by decide)
      simp only [Bool.false_eq_true, if_false, false_or]
      rw [e2]
      refine ⟨h1, fun l => ?_⟩
      rw [h2 l]
      by_cases hl : l = 0
      · subst hl
        simp [LOD_ARRAY_SIZE]
      · simp [hl]

theorem cells_nodup (n : Nat) : (cells n).Nodup := by
  unfold cells
  rw [List.nodup_flatMap]
  constructor
  · intro x _
    rw [List.nodup_flatMap]
    constructor
    · intro y _
      apply List.Nodup.map _ (List.nodup_range n)
      intro a b h
      simp only [Prod.mk.injEq, true_and] at h
      exact h
    · apply List.Pairwise.imp _ (List.nodup_range n)
      intro a b hab
      simp only [Function.onFun, List.disjoint_left, List.mem_map, List.mem_range, not_exists,
        not_and]
      rintro c ⟨z1, _, rfl⟩ z2 _ h
      simp only [Prod.mk.injEq, true_and] at h
      exact hab h.1.symm
  · apply List.Pairwise.imp _ (List.nodup_range n)
    intro a b hab
    simp only [Function.onFun, List.disjoint_left, List.mem_flatMap, List.mem_map,
      List.mem_range, not_exists, not_and]
    rintro c ⟨y1, _, z1, _, rfl⟩ y2 _ z2 _ h
    simp only [Prod.mk.injEq] at h
    exact hab h.1.symm

/-- The cache lists after the cached traversal with an action that leaves the
field alone: per level, what the lattice points contribute, in scan order. -/
theorem forEachWithCache_cacheList (vd : TVoxelData)
    (func : Int → Int → Int → TVoxelData → TVoxelData) (LOD : Bool)
    (hfunc : ∀ x y z v, func x y z v = v)
    (hlen : vd.substanceCacheLOD.length = LOD_ARRAY_SIZE) (l : Nat) :
    cacheList (vd.forEachWithCache func LOD) l
      = (cells vd.voxel_num).flatMap (fun c =>
          if vd.density_data.isSome = true ∧ l < LOD_ARRAY_SIZE ∧ (LOD = true ∨ l = 0) then
            levelContribution vd l c.1 c.2.1 c.2.2 else []) := by
  unfold TVoxelData.forEachWithCache
  rw [forXYZ_eq_foldl]
  simp only [hfunc]
  have key : ∀ (cs : List (Nat × Nat × Nat)) (v : TVoxelData), sameField vd v →
      sameField vd (cs.foldl (fun s c =>
        if LOD = true then s.performSubstanceCacheLOD c.1 c.2.1 c.2.2
        else s.performSubstanceCacheNoLOD c.1 c.2.1 c.2.2) v) ∧
      ∀ l, cacheList (cs.foldl (fun s c =>
        if LOD = true then s.performSubstanceCacheLOD c.1 c.2.1 c.2.2
        else s.performSubstanceCacheNoLOD c.1 c.2.1 c.2.2) v) l
        = cacheList v l ++ cs.flatMap (fun c =>
          if vd.density_data.isSome = true ∧ l < LOD_ARRAY_SIZE ∧ (LOD = true ∨ l = 0) then
            levelContribution vd l c.1 c.2.1 c.2.2 else []) := by
    intro cs
    induction cs with
    | nil => intro v hv; exact ⟨hv, fun l => by simp⟩
    | cons c cs ih =>
      intro v hv
      obtain ⟨h1, h2⟩ := cache_point_step vd v hv LOD c.1 c.2.1 c.2.2
      obtain ⟨h3, h4⟩ := ih _ h1
      rw [List.foldl_cons]
      refine ⟨h3, fun l => ?_⟩
      rw [h4 l, h2 l, List.flatMap_cons, List.append_assoc]
  have h0 : sameField vd vd.clearSubstanceCache := by
    refine ⟨rfl, rfl, ?_⟩
    simp only [TVoxelData.clearSubstanceCache, List.length_map]
    exact hlen
  rw [(key _ _ h0).2 l, cacheList_clear, List.nil_append]

/-- The members of a level's list: the indices of the straddling coarse cells
of that level. -/
theorem mem_level_list (vd : TVoxelData) (l : Nat) (i : Int) :
    i ∈ (cells vd.voxel_num).flatMap (fun c => levelContribution vd l c.1 c.2.1 c.2.2) ↔
      ∃ rx ry rz : Nat, 2 ^ l ∣ rx ∧ 2 ^ l ∣ ry ∧ 2 ^ l ∣ rz ∧
        rx + 2 ^ l < vd.voxel_num ∧ ry + 2 ^ l < vd.voxel_num ∧ rz + 2 ^ l < vd.voxel_num ∧
        nonUniformCell vd rx ry rz ((2 ^ l : Nat) : Int) ∧ i = vd.clcLinearIndex rx ry rz := by
  unfold levelContribution
  rw [Nat.one_shiftLeft]
  generalize 2 ^ l = S
  rw [List.mem_flatMap]
  constructor
  · rintro ⟨⟨x, y, z⟩, hc, hi⟩
    rw [mem_cells] at hc
    simp only at hi
    split at hi
    · rename_i h
      obtain ⟨hx, hy, hz, hxm, hym, hzm, hnu⟩ := h
      rw [List.mem_singleton] at hi
      have hx2 : S ≤ x := by exact_mod_cast hx
      have hy2 : S ≤ y := by exact_mod_cast hy
      have hz2 : S ≤ z := by exact_mod_cast hz
      have hxm2 : x % S = 0 := by exact_mod_cast hxm
      have hym2 : y % S = 0 := by exact_mod_cast hym
      have hzm2 : z % S = 0 := by exact_mod_cast hzm
      have ex : ((x : Int) - (S : Int)) = ((x - S : Nat) : Int) := by omega
      have ey : ((y : Int) - (S : Int)) = ((y - S : Nat) : Int) := by omega
      have ez : ((z : Int) - (S : Int)) = ((z - S : Nat) : Int) := by omega
      rw [ex, ey, ez] at hnu hi
      refine ⟨x - S, y - S, z - S,
        Nat.dvd_sub' (Nat.dvd_of_mod_eq_zero hxm2) (dvd_refl S),
        Nat.dvd_sub' (Nat.dvd_of_mod_eq_zero hym2) (dvd_refl S),
        Nat.dvd_sub' (Nat.dvd_of_mod_eq_zero hzm2) (dvd_refl S),
        by omega, by omega, by omega, hnu, hi⟩
    · simp at hi
  · rintro ⟨rx, ry, rz, dx, dy, dz, hx, hy, hz, hnu, hi⟩
    refine ⟨(rx + S, ry + S, rz + S), (mem_cells _ _ _ _).2 ⟨hx, hy, hz⟩, ?_⟩
    simp only
    have ex : (((rx + S : Nat) : Int) - (S : Int)) = (rx : Int) := by omega
    have ey : (((ry + S : Nat) : Int) - (S : Int)) = (ry : Int) := by omega
    have ez : (((rz + S : Nat) : Int) - (S : Int)) = (rz : Int) := by omega
    have mx : ((rx + S : Nat) : Int) % (S : Int) = 0 :=
      Int.emod_eq_zero_of_dvd (Int.natCast_dvd_natCast.2 (Nat.dvd_add dx (dvd_refl S)))
    have my : ((ry + S : Nat) : Int) % (S : Int) = 0 :=
      Int.emod_eq_zero_of_dvd (Int.natCast_dvd_natCast.2 (Nat.dvd_add dy (dvd_refl S)))
    have mz : ((rz + S : Nat) : Int) % (S : Int) = 0 :=
      Int.emod_eq_zero_of_dvd (Int.natCast_dvd_natCast.2 (Nat.dvd_add dz (dvd_refl S)))
    rw [if_pos]
    · rw [ex, ey, ez, List.mem_singleton]
      exact hi
    · rw [ex, ey, ez]
      exact ⟨by omega, by omega, by omega, mx, my, mz, hnu⟩

/-- A level's list names no cell twice. -/
theorem level_list_nodup (vd : TVoxelData) (l : Nat) :
    ((cells vd.voxel_num).flatMap
      (fun c => levelContribution vd l c.1 c.2.1 c.2.2)).Nodup := by
  rw [List.nodup_flatMap]
  constructor
  · intro c _
    unfold levelContribution
    split
    · exact List.nodup_singleton _
    · exact List.nodup_nil
  · apply List.Pairwise.imp_of_mem _ (cells_nodup vd.voxel_num)
    rintro ⟨x1, y1, z1⟩ ⟨x2, y2, z2⟩ h1 h2 hne
    rw [mem_cells] at h1 h2
    simp only [Function.onFun, List.disjoint_left]
    intro i hi1 hi2
    unfold levelContribution at hi1 hi2
    have hs := one_shiftLeft_pos l
    generalize ((1 <<< l : Nat) : Int) = s at hi1 hi2 hs
    split at hi1
    · split at hi2
      · rename_i c1 c2
        rw [List.mem_singleton] at hi1 hi2
        rw [hi1] at hi2
        unfold TVoxelData.clcLinearIndex at hi2
        have hy1 : ((y1 : Nat) : Int) < vd.voxel_num := by exact_mod_cast h1.2.1
        have hz1 : ((z1 : Nat) : Int) < vd.voxel_num := by exact_mod_cast h1.2.2
        have hy2 : ((y2 : Nat) : Int) < vd.voxel_num := by exact_mod_cast h2.2.1
        have hz2 : ((z2 : Nat) : Int) < vd.voxel_num := by exact_mod_cast h2.2.2
        have := clcLinearIndex_inj (vd.voxel_num : Int) _ _ _ _ _ _
          (by omega) (by omega) (by omega) (by omega) (by omega) (by omega) (by omega) (by omega)
          hi2
        apply hne
        have e1 : x1 = x2 := by omega
        have e2 : y1 = y2 := by omega
        have e3 : z1 = z2 := by omega
        rw [e1, e2, e3]
      · simp at hi2
    · simp at hi1

/-- C18: for a per-cell action that leaves the field alone, after
`forEachWithCache(action, LOD)` the seven cache lists do not depend on what
they held before.  On a dense field, each populated level `l` (`l = 0` when
`LOD` is false, every `l < 7` when it is true) lists, without repetition,
exactly the linear indices `clcLinearIndex(rx, ry, rz)` of the coarse cells of
step `s = 2 ^ l` with `rx, ry, rz` multiples of `s`, `rx + s, ry + s, rz + s ≤ N - 1`,
whose eight corner densities are neither all above 127 nor all at most 127;
with `LOD` false the levels above 0 are empty; on a field without dense buffer
all lists are empty. -/
theorem C18_cached_traversal (vd : TVoxelData)
    (func : Int → Int → Int → TVoxelData → TVoxelData) (LOD : Bool)
    (hfunc : ∀ x y z v, func x y z v = v)
    (hlen : vd.substanceCacheLOD.length = LOD_ARRAY_SIZE) :
    (vd.density_data.isSome = true → ∀ l, l < LOD_ARRAY_SIZE → (LOD = true ∨ l = 0) →
      (cacheList (vd.forEachWithCache func LOD) l).Nodup ∧
      ∀ i, i ∈ cacheList (vd.forEachWithCache func LOD) l ↔
        ∃ rx ry rz : Nat, 2 ^ l ∣ rx ∧ 2 ^ l ∣ ry ∧ 2 ^ l ∣ rz ∧
          rx + 2 ^ l < vd.voxel_num ∧ ry + 2 ^ l < vd.voxel_num ∧ rz + 2 ^ l < vd.voxel_num ∧
          nonUniformCell vd rx ry rz ((2 ^ l : Nat) : Int) ∧
          i = vd.clcLinearIndex rx ry rz) ∧
    (LOD = false → ∀ l, 0 < l → cacheList (vd.forEachWithCache func LOD) l = []) ∧
    (vd.density_data = none → ∀ l, cacheList (vd.forEachWithCache func LOD) l = []) ∧
    (vd.forEachWithCache func LOD).substanceCacheLOD.length = LOD_ARRAY_SIZE := by
  have hL := forEachWithCache_cacheList vd func LOD hfunc hlen
  refine ⟨?_, ?_, ?_, ?_⟩
  · intro hsome l hl hlod
    have e : cacheList (vd.forEachWithCache func LOD) l
        = (cells vd.voxel_num).flatMap (fun c => levelContribution vd l c.1 c.2.1 c.2.2) := by
      rw [hL l]
      simp only [hsome, hl, hlod, and_self, if_true]
    rw [e]
    exact ⟨level_list_nodup vd l, fun i => mem_level_list vd l i⟩
  · intro hlod l hl
    rw [hL l]
    have hne : ¬ l = 0 := by omega
    simp [hlod, hne]
  · intro hnone l
    rw [hL l]
    simp [hnone]
  · unfold TVoxelData.forEachWithCache
    simp only [hfunc]
    have h := forXYZ_invariant (fun v : TVoxelData => sameField vd v) vd.voxel_num
      (fun x y z v =>
        if LOD = true then v.performSubstanceCacheLOD x y z
        else v.performSubstanceCacheNoLOD x y z)
      vd.clearSubstanceCache
      ⟨rfl, rfl, by simp only [TVoxelData.clearSubstanceCache, List.length_map]; exact hlen⟩
      (fun x y z s _ _ _ hs => (cache_point_step vd s hs LOD x y z).1)
    exact h.2.2

/-- C18 on the dense sample field with the action that does nothing and all
levels populated: level 0 lists the two unit cells with the filled corner,
level 1 has no straddling cell. -/
theorem C18_cached_traversal_witness :
    sampleSingleCell.substanceCacheLOD.length = LOD_ARRAY_SIZE ∧
    cacheList (sampleSingleCell.forEachWithCache (fun _ _ _ v => v) true) 0 = [0, 16] ∧
    cacheList (sampleSingleCell.forEachWithCache (fun _ _ _ v => v) true) 1 = [] ∧
    (sampleSingleCell.density_data.isSome = true → ∀ l, l < LOD_ARRAY_SIZE →
      ((true : Bool) = true ∨ l = 0) →
      (cacheList (sampleSingleCell.forEachWithCache (fun _ _ _ v => v) true) l).Nodup ∧
      ∀ i, i ∈ cacheList (sampleSingleCell.forEachWithCache (fun _ _ _ v => v) true) l ↔
        ∃ rx ry rz : Nat, 2 ^ l ∣ rx ∧ 2 ^ l ∣ ry ∧ 2 ^ l ∣ rz ∧
          rx + 2 ^ l < sampleSingleCell.voxel_num ∧ ry + 2 ^ l < sampleSingleCell.voxel_num ∧
          rz + 2 ^ l < sampleSingleCell.voxel_num ∧
          nonUniformCell sampleSingleCell rx ry rz ((2 ^ l : Nat) : Int) ∧
          i = sampleSingleCell.clcLinearIndex rx ry rz) :=
  ⟨by decide!, by decide!, by decide!,
   (C18_cached_traversal sampleSingleCell (fun _ _ _ v => v) true (fun _ _ _ _ => rfl)
    (by decide!)).1⟩


/-! ## Keys of the cells below the lower faces -/

/-- C16, the failing input: on the field whose only filled cell is `(1, 0, 2)`
(`N = 4`), the X edge leaving `(0, 0, 2)` is a crossing; the keys the scan
inserts for its neighbour cells `(0, -1, 2)` and `(0, -1, 1)` are both
`0xFFFFFC00`, which is not below `2 ^ 30` and decodes to `(0, 1023, 1023)`. -/
theorem C16_negative_cell_key_invalid :
    sampleBoundaryCell.voxel_num = 4 ∧
    zeroCrossing sampleBoundaryCell 0 0 2 0 = true ∧
    (EDGE_NODE_OFFSETS.getD 0 []).getD 2 ⟨0, 0, 0, 0⟩ = ⟨0, 1, 0, 0⟩ ∧
    (EDGE_NODE_OFFSETS.getD 0 []).getD 3 ⟨0, 0, 0, 0⟩ = ⟨0, 1, 1, 0⟩ ∧
    EncodeVoxelUniqueID (⟨0, 0, 2, 0⟩ - ⟨0, 1, 0, 0⟩) = 0xFFFFFC00 ∧
    EncodeVoxelUniqueID (⟨0, 0, 2, 0⟩ - ⟨0, 1, 1, 0⟩) = 0xFFFFFC00 ∧
    0xFFFFFC00 ∈ (FindActiveVoxels sampleNormal sampleBoundaryCell [] []).1 ∧
    ¬ 0xFFFFFC00 < 2 ^ 30 ∧
    DecodeVoxelUniqueID 0xFFFFFC00 = ⟨0, 1023, 1023, 0⟩ ∧
    (⟨0, 0, 2, 0⟩ - ⟨0, 1, 0, 0⟩ : TVoxelIndex4) ≠ ⟨0, 0, 2, 0⟩ - ⟨0, 1, 1, 0⟩ := by
  refine ⟨by decide!, by decide!, by decide, by decide, by decide!, by decide!, by decide!,
    by decide, by decide!, by decide⟩


/-! ## Positions on the lattice edge -/

theorem UMap.mem_assign {β : Type} (m : UMap β) (k : Nat) (v : β) (e : Nat × β)
    (he : e ∈ m.assign k v) : e ∈ m ∨ e = (k, v) := by
  induction m with
  | nil =>
    simp only [UMap.assign, List.mem_singleton] at he
    exact Or.inr he
  | cons p m ih =>
    obtain ⟨k1, v1⟩ := p
    unfold UMap.assign at he
    split at he
    · rename_i h
      rw [List.mem_cons] at he
      rcases he with he | he
      · right
        rw [he, h]
      · left
        exact List.mem_cons_of_mem _ he
    · rw [List.mem_cons] at he
      rcases he with he | he
      · left
        rw [he]
        exact List.mem_cons_self _ _
      · rcases ih he with h | h
        · left
          exact List.mem_cons_of_mem _ h
        · right
          exact h

/-- Every entry of the edge map after a scan was either there before or is the
key and the record of a crossing edge of the scan. -/
theorem scan_entries (gsn : FVector4 → ℚ → FVector4) (vd : TVoxelData)
    (l : List ((Nat × Nat × Nat) × Nat)) (st : VoxelIDSet × EdgeInfoMap) (e : Nat × EdgeInfo)
    (he : e ∈ (l.foldl (fun st t => scanEdge gsn vd t.1.1 t.1.2.1 t.1.2.2 t.2 st) st).2) :
    e ∈ st.2 ∨ ∃ t ∈ l, zeroCrossing vd t.1.1 t.1.2.1 t.1.2.2 t.2 = true ∧
      e = (EncodeAxisUniqueID t.2 t.1.1 t.1.2.1 t.1.2.2,
        edgeInfo gsn vd t.1.1 t.1.2.1 t.1.2.2 t.2) := by
  induction l generalizing st with
  | nil => exact Or.inl he
  | cons a l ih =>
    rw [List.foldl_cons] at he
    rcases ih _ he with h | ⟨t, ht, hc, hte⟩
    · rw [scanEdge_edges] at h
      split at h
      · rename_i hc
        rcases UMap.mem_assign _ _ _ _ h with h2 | h2
        · exact Or.inl h2
        · exact Or.inr ⟨a, List.mem_cons_self _ _, hc, h2⟩
      · exact Or.inl h
    · exact Or.inr ⟨t, List.mem_cons_of_mem _ ht, hc, hte⟩

/-- The interpolation of a crossing: a point `p1 + (p2 - p1) t` with `t = 0` or
`t = 1` when a snap rule applies and `0 < t < 1` otherwise. -/
theorem vertexInterpolation_crossing (p1 p2 : FVector) (v1 v2 : ℚ)
    (hc : (v1 ≥ 1 / 2 ∧ v2 < 1 / 2) ∨ (v1 < 1 / 2 ∧ v2 ≥ 1 / 2)) :
    ∃ t : ℚ, vertexInterpolation p1 p2 v1 v2 = p1 + (p2 - p1) * t ∧ 0 ≤ t ∧ t ≤ 1 ∧
      ((|1 / 2 - v1| < 1 / 100000 ∨ |1 / 2 - v2| < 1 / 100000 ∨ |v1 - v2| < 1 / 100000) →
        t = 0 ∨ t = 1) ∧
      (¬ (|1 / 2 - v1| < 1 / 100000 ∨ |1 / 2 - v2| < 1 / 100000 ∨ |v1 - v2| < 1 / 100000) →
        0 < t ∧ t < 1) := by
  have e0 : p1 = p1 + (p2 - p1) * (0 : ℚ) := by
    rw [FVector_sub_def, FVector_mul_def, FVector_add_def]
    simp
  have e1 : p2 = p1 + (p2 - p1) * (1 : ℚ) := by
    rw [FVector_sub_def, FVector_mul_def, FVector_add_def]
    simp
  unfold vertexInterpolation
  simp only
  by_cases h1 : |(1 : ℚ) / 2 - v1| < 1 / 100000
  · rw [if_pos h1]
    exact ⟨0, e0, le_refl _, by norm_num, fun _ => Or.inl rfl, fun hn => absurd (Or.inl h1) hn⟩
  · rw [if_neg h1]
    by_cases h2 : |(1 : ℚ) / 2 - v2| < 1 / 100000
    · rw [if_pos h2]
      exact ⟨1, e1, by norm_num, le_refl _, fun _ => Or.inr rfl,
        fun hn => absurd (Or.inr (Or.inl h2)) hn⟩
    · rw [if_neg h2]
      by_cases h3 : |v1 - v2| < 1 / 100000
      · rw [if_pos h3]
        exact ⟨0, e0, le_refl _, by norm_num, fun _ => Or.inl rfl,
          fun hn => absurd (Or.inr (Or.inr h3)) hn⟩
      · rw [if_neg h3]
        have hne : v1 ≠ v2 := by
          rcases hc with ⟨a, b⟩ | ⟨a, b⟩ <;> intro e <;> linarith
        rw [if_neg hne]
        have h1' := not_lt.1 h1
        have h2' := not_lt.1 h2
        have hb : (v1 < 1 / 2 ∧ 1 / 2 < v2) ∨ (v2 < 1 / 2 ∧ 1 / 2 < v1) := by
          rcases hc with ⟨a, b⟩ | ⟨a, b⟩
          · right
            refine ⟨b, lt_of_le_of_ne a ?_⟩
            intro e
            rw [← e, sub_self, abs_zero] at h1'
            norm_num at h1'
          · left
            refine ⟨a, lt_of_le_of_ne b ?_⟩
            intro e
            rw [← e, sub_self, abs_zero] at h2'
            norm_num at h2'
        have hpos : 0 < (1 / 2 - v1) / (v2 - v1) := by
          rcases hb with ⟨a, b⟩ | ⟨a, b⟩
          · exact div_pos (by linarith) (by linarith)
          · exact div_pos_of_neg_of_neg (by linarith) (by linarith)
        have hlt : (1 / 2 - v1) / (v2 - v1) < 1 := by
          rcases hb with ⟨a, b⟩ | ⟨a, b⟩
          · rw [div_lt_one (by linarith)]
            linarith
          · rw [div_lt_one_of_neg (by linarith)]
            linarith
        exact ⟨_, rfl, le_of_lt hpos, le_of_lt hlt,
          fun hs => by
            rcases hs with hs | hs | hs
            · exact absurd hs h1
            · exact absurd hs h2
            · exact absurd hs h3,
          fun _ => ⟨hpos, hlt⟩⟩

/-- C25: for densities forming a crossing, `vertexInterpolation` returns
`p1 + t (p2 - p1)` with `0 ≤ t ≤ 1`, where `t` is 0 or 1 in the snap cases and
`0 < t < 1` otherwise; and every position stored in the active-edge map by
`FindActiveVoxels` (from empty containers) is such a point of the lattice edge
between the sample points of its cell and of the positive neighbour. -/
theorem C25_positions_on_edge :
    (∀ (p1 p2 : FVector) (v1 v2 : ℚ),
      ((v1 ≥ 1 / 2 ∧ v2 < 1 / 2) ∨ (v1 < 1 / 2 ∧ v2 ≥ 1 / 2)) →
      ∃ t : ℚ, vertexInterpolation p1 p2 v1 v2 = p1 + (p2 - p1) * t ∧ 0 ≤ t ∧ t ≤ 1 ∧
        ((|1 / 2 - v1| < 1 / 100000 ∨ |1 / 2 - v2| < 1 / 100000 ∨ |v1 - v2| < 1 / 100000) →
          t = 0 ∨ t = 1) ∧
        (¬ (|1 / 2 - v1| < 1 / 100000 ∨ |1 / 2 - v2| < 1 / 100000 ∨
            |v1 - v2| < 1 / 100000) → 0 < t ∧ t < 1)) ∧
    (∀ (GetSafeNormal : FVector4 → ℚ → FVector4) (voxelData : TVoxelData) (e : Nat × EdgeInfo),
      e ∈ (FindActiveVoxels GetSafeNormal voxelData [] []).2 →
      ∃ axis x y z : Nat, axis < 3 ∧ x < voxelData.voxel_num ∧ y < voxelData.voxel_num ∧
        z < voxelData.voxel_num ∧ isCrossing voxelData axis x y z ∧
        e.1 = EncodeAxisUniqueID axis x y z ∧
        ∃ t : ℚ, 0 ≤ t ∧ t ≤ 1 ∧
          e.2.pos = (voxelData.voxelIndexToVector x y z
            + (voxelData.voxelIndexToVector (positiveNeighbour axis x y z).1
                (positiveNeighbour axis x y z).2.1 (positiveNeighbour axis x y z).2.2
              - voxelData.voxelIndexToVector x y z) * t).toFVector4) := by
  refine ⟨vertexInterpolation_crossing, ?_⟩
  intro gsn vd e he
  rw [FindActiveVoxels_eq_foldl] at he
  rcases scan_entries gsn vd _ _ e he with h | ⟨⟨⟨x, y, z⟩, a⟩, ht, hc, hte⟩
  · simp at h
  · rw [mem_scanOrder] at ht
    obtain ⟨hx, hy, hz, ha⟩ := ht
    have hcr := (zeroCrossing_iff vd x y z a ha).1 hc
    refine ⟨a, x, y, z, ha, hx, hy, hz, hcr, by rw [hte], ?_⟩
    have hq : (positiveNeighbour a x y z)
        = ((⟨x, y, z, 0⟩ + AXIS_OFFSET.getD a ⟨0, 0, 0, 0⟩ : TVoxelIndex4).X,
           (⟨x, y, z, 0⟩ + AXIS_OFFSET.getD a ⟨0, 0, 0, 0⟩ : TVoxelIndex4).Y,
           (⟨x, y, z, 0⟩ + AXIS_OFFSET.getD a ⟨0, 0, 0, 0⟩ : TVoxelIndex4).Z) := by
      have h3 : a = 0 ∨ a = 1 ∨ a = 2 := by omega
      rcases h3 with rfl | rfl | rfl <;>
        simp [positiveNeighbour, AXIS_OFFSET, TVoxelIndex4_add_def]
    unfold isCrossing at hcr
    simp only at hcr
    obtain ⟨t, ht, h0, h1, _, _⟩ := vertexInterpolation_crossing
      (vd.voxelIndexToVector x y z)
      (vd.voxelIndexToVector (positiveNeighbour a x y z).1
        (positiveNeighbour a x y z).2.1 (positiveNeighbour a x y z).2.2)
      (vd.getDensity x y z)
      (vd.getDensity (positiveNeighbour a x y z).1
        (positiveNeighbour a x y z).2.1 (positiveNeighbour a x y z).2.2) hcr
    refine ⟨t, h0, h1, ?_⟩
    rw [hte, ← ht]
    simp only [edgeInfo, Density, hq]

/-! ## Winding -/

theorem edgeTriangles_of_four (vertexIndices : VoxelIndexMap) (edge : Nat) (info : EdgeInfo)
    (v0 v1 v2 v3 : Int) (h : edgeVoxels vertexIndices edge = [v0, v1, v2, v3]) :
    edgeTriangles vertexIndices edge info
      = if info.winding then [v0, v1, v3, v0, v3, v2] else [v0, v3, v1, v0, v2, v3] := by
  unfold edgeTriangles
  simp only [h]
  rfl

/-- A permutation of the three corners that carries the triangle `(a, b, c)`
with distinct corners to `(a, c, b)` is the transposition of the last two
corners, an odd permutation. -/
theorem reversal_odd (a b c : Int) (hab : a ≠ b) (hac : a ≠ c) (hbc : b ≠ c)
    (σ : Equiv.Perm (Fin 3))
    (h : ∀ i : Fin 3, [a, c, b].getD i.val 0 = [a, b, c].getD (σ i).val 0) :
    Equiv.Perm.sign σ = -1 := by
  have key : ∀ (i j : Fin 3), [a, c, b].getD i.val 0 = [a, b, c].getD j.val 0 →
      j = Equiv.swap (1 : Fin 3) 2 i := by
    intro i j hij
    fin_cases i <;> fin_cases j <;> simp at hij <;>
      first
        | rfl
        | exact absurd hij hab
        | exact absurd hij hac
        | exact absurd hij hbc
        | exact absurd hij.symm hab
        | exact absurd hij.symm hac
        | exact absurd hij.symm hbc
  have hσ : σ = Equiv.swap (1 : Fin 3) 2 := by
    apply Equiv.ext
    intro i
    exact key i (σ i) (h i)
  rw [hσ]
  decide

/-- C24: for an edge whose four neighbours resolve to `v0, v1, v2, v3` in table
order, `GenerateTriangles` appends `v0 v1 v3 v0 v3 v2` when the winding flag is
set and `v0 v3 v1 v0 v2 v3` when it is not.  In both cases each triangle
contains `v0` and `v3`, the triangles of the two cases are on the same corner
triples, the transposition of the last two corners, an odd permutation, carries
each triangle of the first case to the triangle of the second case, and for
distinct corners every permutation doing so is odd. -/
theorem C24_winding_orientation (vertexIndices : VoxelIndexMap) (edge : Nat)
    (pos normal : FVector4) (v0 v1 v2 v3 : Int)
    (h : edgeVoxels vertexIndices edge = [v0, v1, v2, v3]) :
    edgeTriangles vertexIndices edge ⟨pos, normal, true⟩ = [v0, v1, v3, v0, v3, v2] ∧
    edgeTriangles vertexIndices edge ⟨pos, normal, false⟩ = [v0, v3, v1, v0, v2, v3] ∧
    (∀ w : Bool, ∀ k < 2,
      v0 ∈ ((edgeTriangles vertexIndices edge ⟨pos, normal, w⟩).drop (3 * k)).take 3 ∧
      v3 ∈ ((edgeTriangles vertexIndices edge ⟨pos, normal, w⟩).drop (3 * k)).take 3) ∧
    (∀ k < 2,
      (((edgeTriangles vertexIndices edge ⟨pos, normal, false⟩).drop (3 * k)).take 3).Perm
        (((edgeTriangles vertexIndices edge ⟨pos, normal, true⟩).drop (3 * k)).take 3)) ∧
    ((edgeTriangles vertexIndices edge ⟨pos, normal, true⟩).take 3).Perm [v0, v1, v3] ∧
    ((edgeTriangles vertexIndices edge ⟨pos, normal, true⟩).drop 3).Perm [v0, v2, v3] ∧
    Equiv.Perm.sign (Equiv.swap (1 : Fin 3) 2) = -1 ∧
    (∀ k < 2, ∀ i : Fin 3,
      (edgeTriangles vertexIndices edge ⟨pos, normal, false⟩).getD (3 * k + i.val) 0
        = (edgeTriangles vertexIndices edge ⟨pos, normal, true⟩).getD
            (3 * k + (Equiv.swap (1 : Fin 3) 2 i).val) 0) ∧
    (v0 ≠ v1 → v0 ≠ v2 → v0 ≠ v3 → v1 ≠ v3 → v2 ≠ v3 →
      ∀ k < 2, ∀ σ : Equiv.Perm (Fin 3),
        (∀ i : Fin 3,
          (edgeTriangles vertexIndices edge ⟨pos, normal, false⟩).getD (3 * k + i.val) 0
            = (edgeTriangles vertexIndices edge ⟨pos, normal, true⟩).getD
                (3 * k + (σ i).val) 0) →
        Equiv.Perm.sign σ = -1) := by
  have hT := edgeTriangles_of_four vertexIndices edge ⟨pos, normal, true⟩ v0 v1 v2 v3 h
  have hF := edgeTriangles_of_four vertexIndices edge ⟨pos, normal, false⟩ v0 v1 v2 v3 h
  simp only [if_true, Bool.false_eq_true, if_false] at hT hF
  rw [hT, hF]
  refine ⟨rfl, rfl, ?_, ?_, ?_, ?_, by decide, ?_, ?_⟩
  · intro w k hk
    have hw := edgeTriangles_of_four vertexIndices edge ⟨pos, normal, w⟩ v0 v1 v2 v3 h
    rw [hw]
    cases w <;> interval_cases k <;> simp
  · intro k hk
    interval_cases k
    · exact List.Perm.cons _ (List.Perm.swap _ _ _)
    · exact List.Perm.cons _ (List.Perm.swap _ _ _)
  · exact List.Perm.refl _
  · exact List.Perm.cons _ (List.Perm.swap _ _ _)
  · intro k hk i
    interval_cases k <;> fin_cases i <;> rfl
  · intro h01 h02 h03 h13 h23 k hk σ hσ
    interval_cases k
    · apply reversal_odd v0 v1 v3 h01 h03 h13 σ
      intro i
      have := hσ i
      generalize σ i = j at this
      fin_cases i <;> fin_cases j <;> first | (simp; done) | simpa using this
    · apply reversal_odd v0 v3 v2 h03 h02 (Ne.symm h23) σ
      intro i
      have := hσ i
      generalize σ i = j at this
      fin_cases i <;> fin_cases j <;> first | (simp; done) | simpa using this

/-- C24 on an example: the edge along `x` at the cell `(1, 1, 1)` with its four
neighbours numbered 0 to 3. -/
theorem C24_winding_orientation_witness :
    edgeVoxels [(0x100401, 0), (0x401, 1), (0x100001, 2), (0x1, 3)]
        (EncodeAxisUniqueID 0 1 1 1) = [0, 1, 2, 3] ∧
    edgeTriangles [(0x100401, 0), (0x401, 1), (0x100001, 2), (0x1, 3)]
        (EncodeAxisUniqueID 0 1 1 1) ⟨FVector4.init, FVector4.init, true⟩
      = [0, 1, 3, 0, 3, 2] ∧
    edgeTriangles [(0x100401, 0), (0x401, 1), (0x100001, 2), (0x1, 3)]
        (EncodeAxisUniqueID 0 1 1 1) ⟨FVector4.init, FVector4.init, false⟩
      = [0, 3, 1, 0, 2, 3] :=
  have h : edgeVoxels [(0x100401, 0), (0x401, 1), (0x100001, 2), (0x1, 3)]
      (EncodeAxisUniqueID 0 1 1 1) = [0, 1, 2, 3] := by decide!
  have t := C24_winding_orientation [(0x100401, 0), (0x401, 1), (0x100001, 2), (0x1, 3)]
    (EncodeAxisUniqueID 0 1 1 1) FVector4.init FVector4.init 0 1 2 3 h
  ⟨h, t.1, t.2.1⟩

/-! ## The candidate edges of a cell -/

/-- The twelve candidate keys of an interior cell, written out. -/
theorem candidateEdgeKeys_eq (x y z : Nat) (hx : x < 1023) (hy : y < 1023) (hz : z < 1023) :
    candidateEdgeKeys (EncodeVoxelUniqueID ⟨x, y, z, 0⟩)
      = [ EncodeAxisUniqueID 0 x y z, EncodeAxisUniqueID 0 x y (z + 1 : Nat),
          EncodeAxisUniqueID 0 x (y + 1 : Nat) z,
          EncodeAxisUniqueID 0 x (y + 1 : Nat) (z + 1 : Nat),
          EncodeAxisUniqueID 1 x y z, EncodeAxisUniqueID 1 x y (z + 1 : Nat),
          EncodeAxisUniqueID 1 (x + 1 : Nat) y z,
          EncodeAxisUniqueID 1 (x + 1 : Nat) y (z + 1 : Nat),
          EncodeAxisUniqueID 2 x y z, EncodeAxisUniqueID 2 x (y + 1 : Nat) z,
          EncodeAxisUniqueID 2 (x + 1 : Nat) y z,
          EncodeAxisUniqueID 2 (x + 1 : Nat) (y + 1 : Nat) z ] := by
  have e0 := fun (a b c : Nat) (ha : a < 1024) (hb : b < 1024) (hc : c < 1024) =>
    EncodeAxisUniqueID_eq 0 a b c (by norm_num) ha hb hc
  have e1 := fun (a b c : Nat) (ha : a < 1024) (hb : b < 1024) (hc : c < 1024) =>
    EncodeAxisUniqueID_eq 1 a b c (by norm_num) ha hb hc
  have e2 := fun (a b c : Nat) (ha : a < 1024) (hb : b < 1024) (hc : c < 1024) =>
    EncodeAxisUniqueID_eq 2 a b c (by norm_num) ha hb hc
  simp only [Nat.cast_zero, Nat.cast_one, Nat.cast_ofNat] at e0 e1 e2
  rw [EncodeVoxelUniqueID_eq x y z 0 (by omega) (by omega) (by omega)]
  rw [e0 x y z (by omega) (by omega) (by omega), e0 x y (z + 1) (by omega) (by omega) (by omega),
    e0 x (y + 1) z (by omega) (by omega) (by omega),
    e0 x (y + 1) (z + 1) (by omega) (by omega) (by omega),
    e1 x y z (by omega) (by omega) (by omega), e1 x y (z + 1) (by omega) (by omega) (by omega),
    e1 (x + 1) y z (by omega) (by omega) (by omega),
    e1 (x + 1) y (z + 1) (by omega) (by omega) (by omega),
    e2 x y z (by omega) (by omega) (by omega), e2 x (y + 1) z (by omega) (by omega) (by omega),
    e2 (x + 1) y z (by omega) (by omega) (by omega),
    e2 (x + 1) (y + 1) z (by omega) (by omega) (by omega)]
  simp only [candidateEdgeKeys, ENCODED_EDGE_OFFSETS, List.map_cons, List.map_nil]
  simp only [List.cons.injEq, and_true]
  refine ⟨?_, ?_, ?_, ?_, ?_, ?_, ?_, ?_, ?_, ?_, ?_, ?_⟩ <;> omega

theorem range4_exists (P : Nat → Prop) : (∃ j < 4, P j) ↔ P 0 ∨ P 1 ∨ P 2 ∨ P 3 := by
  constructor
  · rintro ⟨j, hj, h⟩
    interval_cases j
    · exact Or.inl h
    · exact Or.inr (Or.inl h)
    · exact Or.inr (Or.inr (Or.inl h))
    · exact Or.inr (Or.inr (Or.inr h))
  · rintro (h | h | h | h)
    · exact ⟨0, by norm_num, h⟩
    · exact ⟨1, by norm_num, h⟩
    · exact ⟨2, by norm_num, h⟩
    · exact ⟨3, by norm_num, h⟩

theorem range3_exists (P : Nat → Prop) : (∃ a < 3, P a) ↔ P 0 ∨ P 1 ∨ P 2 := by
  constructor
  · rintro ⟨j, hj, h⟩
    interval_cases j
    · exact Or.inl h
    · exact Or.inr (Or.inl h)
    · exact Or.inr (Or.inr h)
  · rintro (h | h | h)
    · exact ⟨0, by norm_num, h⟩
    · exact ⟨1, by norm_num, h⟩
    · exact ⟨2, by norm_num, h⟩

/-- The key of a cell with a coordinate `-1` has bit 30 set. -/
theorem EncodeVoxelUniqueID_negative (X Y Z W : Int) (h : X = -1 ∨ Y = -1 ∨ Z = -1) :
    (EncodeVoxelUniqueID ⟨X, Y, Z, W⟩).testBit 30 = true := by
  have e : toU32 (-1) = 4294967295 := by decide
  have t30 : Nat.testBit 4294967295 30 = true := by decide
  have t20 : Nat.testBit 4294967295 20 = true := by decide
  have t10 : Nat.testBit 4294967295 10 = true := by decide
  unfold EncodeVoxelUniqueID
  simp only [Nat.testBit_mod_two_pow, Nat.testBit_or, Nat.testBit_shiftLeft]
  rcases h with rfl | rfl | rfl
  · simp [e, t30]
  · simp [e, t20]
  · simp [e, t10]

/-- The key of a cell with coordinates in `[-1, 1024)` equals the key of a cell
with coordinates in `[0, 1024)` only for the same cell. -/
theorem cellKey_eq_iff (X Y Z : Int) (x y z : Nat)
    (hX : -1 ≤ X ∧ X < 1024) (hY : -1 ≤ Y ∧ Y < 1024) (hZ : -1 ≤ Z ∧ Z < 1024)
    (hx : x < 1024) (hy : y < 1024) (hz : z < 1024) :
    EncodeVoxelUniqueID ⟨X, Y, Z, 0⟩ = EncodeVoxelUniqueID ⟨x, y, z, 0⟩ ↔
      X = x ∧ Y = y ∧ Z = z := by
  constructor
  · intro h
    have hv := EncodeVoxelUniqueID_eq x y z 0 hx hy hz
    by_cases hn : X = -1 ∨ Y = -1 ∨ Z = -1
    · have hb := EncodeVoxelUniqueID_negative X Y Z 0 hn
      rw [h, hv, Nat.testBit_lt_two_pow (by omega)] at hb
      exact absurd hb (by simp)
    · have h0 : 0 ≤ X ∧ 0 ≤ Y ∧ 0 ≤ Z := by omega
      obtain ⟨a, rfl⟩ := Int.eq_ofNat_of_zero_le h0.1
      obtain ⟨b, rfl⟩ := Int.eq_ofNat_of_zero_le h0.2.1
      obtain ⟨c, rfl⟩ := Int.eq_ofNat_of_zero_le h0.2.2
      rw [hv, EncodeVoxelUniqueID_eq a b c 0 (by omega) (by omega) (by omega)] at h
      omega
  · rintro ⟨rfl, rfl, rfl⟩
    rfl

/-- The key of an edge is among the twelve candidate keys of an interior cell
exactly when the cell is one of the four cells around the edge. -/
theorem candidate_iff_around (x y z a ex ey ez : Nat) (hx : x < 1023) (hy : y < 1023)
    (hz : z < 1023) (ha : a < 3) (hex : ex < 1024) (hey : ey < 1024) (hez : ez < 1024) :
    EncodeAxisUniqueID a ex ey ez ∈ candidateEdgeKeys (EncodeVoxelUniqueID ⟨x, y, z, 0⟩) ↔
      ∃ j < 4, (⟨ex, ey, ez, 0⟩ : TVoxelIndex4)
        - (EDGE_NODE_OFFSETS.getD a []).getD j ⟨0, 0, 0, 0⟩ = ⟨x, y, z, 0⟩ := by
  have e := fun (b p q r : Nat) (hb : b < 4) (hp : p < 1024) (hq : q < 1024) (hr : r < 1024) =>
    EncodeAxisUniqueID_eq b p q r hb hp hq hr
  have e0 := e 0
  have e1 := e 1
  have e2 := e 2
  simp only [Nat.cast_zero, Nat.cast_one, Nat.cast_ofNat] at e0 e1 e2
  rw [candidateEdgeKeys_eq x y z hx hy hz, range4_exists]
  rw [e0 x y z (by omega) (by omega) (by omega) (by omega),
    e0 x y (z + 1) (by omega) (by omega) (by omega) (by omega),
    e0 x (y + 1) z (by omega) (by omega) (by omega) (by omega),
    e0 x (y + 1) (z + 1) (by omega) (by omega) (by omega) (by omega),
    e1 x y z (by omega) (by omega) (by omega) (by omega),
    e1 x y (z + 1) (by omega) (by omega) (by omega) (by omega),
    e1 (x + 1) y z (by omega) (by omega) (by omega) (by omega),
    e1 (x + 1) y (z + 1) (by omega) (by omega) (by omega) (by omega),
    e2 x y z (by omega) (by omega) (by omega) (by omega),
    e2 x (y + 1) z (by omega) (by omega) (by omega) (by omega),
    e2 (x + 1) y z (by omega) (by omega) (by omega) (by omega),
    e2 (x + 1) (y + 1) z (by omega) (by omega) (by omega) (by omega),
    e a ex ey ez (by omega) hex hey hez]
  have h3 : a = 0 ∨ a = 1 ∨ a = 2 := by omega
  rcases h3 with rfl | rfl | rfl <;>
    simp only [EDGE_NODE_OFFSETS, List.getD_cons_zero, List.getD_cons_succ, TVoxelIndex4_sub_def,
      TVoxelIndex4.mk.injEq, List.mem_cons, List.mem_singleton, List.not_mem_nil, or_false] <;>
    constructor
  all_goals first
    | (rintro (h | h | h | h | h | h | h | h | h | h | h | h) <;>
        first
          | (exfalso; omega)
          | exact Or.inl ⟨by omega, by omega, by omega, by omega⟩
          | exact Or.inr (Or.inl ⟨by omega, by omega, by omega, by omega⟩)
          | exact Or.inr (Or.inr (Or.inl ⟨by omega, by omega, by omega, by omega⟩))
          | exact Or.inr (Or.inr (Or.inr ⟨by omega, by omega, by omega, by omega⟩)))
    | (rintro (⟨h1, h2, h3, -⟩ | ⟨h1, h2, h3, -⟩ | ⟨h1, h2, h3, -⟩ | ⟨h1, h2, h3, -⟩) <;> omega)

/-! ## The cells the scan registers -/

theorem VoxelIDSet.mem_insert (s : VoxelIDSet) (k j : Nat) :
    j ∈ VoxelIDSet.insert s k ↔ j ∈ s ∨ j = k := by
  unfold VoxelIDSet.insert
  split
  · rename_i h
    constructor
    · exact Or.inl
    · rintro (h1 | rfl)
      · exact h1
      · exact h
  · simp

theorem scanEdge_voxels (gsn : FVector4 → ℚ → FVector4) (vd : TVoxelData) (x y z axis : Nat)
    (st : VoxelIDSet × EdgeInfoMap) (k : Nat) :
    k ∈ (scanEdge gsn vd x y z axis st).1 ↔
      k ∈ st.1 ∨ (zeroCrossing vd x y z axis = true ∧ ∃ i < 4,
        k = EncodeVoxelUniqueID
          (⟨x, y, z, 0⟩ - (EDGE_NODE_OFFSETS.getD axis []).getD i ⟨0, 0, 0, 0⟩)) := by
  unfold scanEdge
  by_cases hc : zeroCrossing vd x y z axis = true
  · rw [if_pos hc]
    have hr : List.range 4 = [0, 1, 2, 3] := by decide
    simp only [hr, List.foldl_cons, List.foldl_nil, VoxelIDSet.mem_insert, hc, true_and]
    constructor
    · rintro ((((h | h) | h) | h) | h)
      · exact Or.inl h
      · exact Or.inr ⟨0, by norm_num, h⟩
      · exact Or.inr ⟨1, by norm_num, h⟩
      · exact Or.inr ⟨2, by norm_num, h⟩
      · exact Or.inr ⟨3, by norm_num, h⟩
    · rintro (h | ⟨i, hi, h⟩)
      · exact Or.inl (Or.inl (Or.inl (Or.inl h)))
      · interval_cases i
        · exact Or.inl (Or.inl (Or.inl (Or.inr h)))
        · exact Or.inl (Or.inl (Or.inr h))
        · exact Or.inl (Or.inr h)
        · exact Or.inr h
  · rw [if_neg hc]
    simp [hc]

/-- The voxel set after scanning the pairs of `l`: what was there before and
the four cells around every crossing edge. -/
theorem scan_voxels (gsn : FVector4 → ℚ → FVector4) (vd : TVoxelData)
    (l : List ((Nat × Nat × Nat) × Nat)) (st : VoxelIDSet × EdgeInfoMap) (k : Nat) :
    k ∈ (l.foldl (fun st t => scanEdge gsn vd t.1.1 t.1.2.1 t.1.2.2 t.2 st) st).1 ↔
      k ∈ st.1 ∨ ∃ t ∈ l, zeroCrossing vd t.1.1 t.1.2.1 t.1.2.2 t.2 = true ∧ ∃ i < 4,
        k = EncodeVoxelUniqueID
          (⟨t.1.1, t.1.2.1, t.1.2.2, 0⟩ - (EDGE_NODE_OFFSETS.getD t.2 []).getD i ⟨0, 0, 0, 0⟩) := by
  induction l generalizing st with
  | nil => simp
  | cons a l ih =>
    rw [List.foldl_cons, ih, scanEdge_voxels]
    simp only [List.mem_cons, exists_eq_or_imp]
    generalize (zeroCrossing vd a.1.1 a.1.2.1 a.1.2.2 a.2 = true ∧ ∃ i < 4,
        k = EncodeVoxelUniqueID
          (⟨a.1.1, a.1.2.1, a.1.2.2, 0⟩ - (EDGE_NODE_OFFSETS.getD a.2 []).getD i ⟨0, 0, 0, 0⟩)) = P
    generalize (∃ t ∈ l, zeroCrossing vd t.1.1 t.1.2.1 t.1.2.2 t.2 = true ∧ ∃ i < 4,
        k = EncodeVoxelUniqueID
          (⟨t.1.1, t.1.2.1, t.1.2.2, 0⟩ - (EDGE_NODE_OFFSETS.getD t.2 []).getD i ⟨0, 0, 0, 0⟩)) = Q
    tauto

/-- The voxel set of a scan from empty containers: the keys of the four cells
around every crossing edge. -/
theorem FindActiveVoxels_voxels (gsn : FVector4 → ℚ → FVector4) (vd : TVoxelData) (k : Nat) :
    k ∈ (FindActiveVoxels gsn vd [] []).1 ↔
      ∃ axis x y z : Nat, axis < 3 ∧ x < vd.voxel_num ∧ y < vd.voxel_num ∧ z < vd.voxel_num ∧
        isCrossing vd axis x y z ∧ ∃ i < 4,
          k = EncodeVoxelUniqueID
            (⟨x, y, z, 0⟩ - (EDGE_NODE_OFFSETS.getD axis []).getD i ⟨0, 0, 0, 0⟩) := by
  rw [FindActiveVoxels_eq_foldl, scan_voxels]
  simp only [List.not_mem_nil, false_or]
  constructor
  · rintro ⟨⟨⟨x, y, z⟩, a⟩, ht, hc, hk⟩
    rw [mem_scanOrder] at ht
    exact ⟨a, x, y, z, ht.2.2.2, ht.1, ht.2.1, ht.2.2.1,
      (zeroCrossing_iff vd x y z a ht.2.2.2).1 hc, hk⟩
  · rintro ⟨a, x, y, z, ha, hx, hy, hz, hc, hk⟩
    exact ⟨((x, y, z), a), (mem_scanOrder _ x y z a).2 ⟨hx, hy, hz, ha⟩,
      (zeroCrossing_iff vd x y z a ha).2 hc, hk⟩

/-- Every voxel of the set handed to `GenerateVertexData` is a key of the index
table it builds. -/
theorem GenerateVertexData_find_isSome
    (qef : List FVector4 → List FVector4 → Nat → FVector4) (edges : EdgeInfoMap)
    (l : List Nat) (st : VertexData) (k : Nat)
    (h : k ∈ l ∨ (st.vertexIndices.find k).isSome = true) :
    ((l.foldl (fun (st : VertexData) voxelID =>
      let vn := voxelVertex qef edges voxelID
      ({ idxCounter := st.idxCounter + 1,
         vertexIndices := st.vertexIndices.assign voxelID st.idxCounter,
         varray := st.varray ++ [vn.1],
         narray := st.narray ++ [vn.2] } : VertexData)) st).vertexIndices.find k).isSome
      = true := by
  induction l generalizing st with
  | nil =>
    rcases h with h | h
    · simp at h
    · exact h
  | cons a l ih =>
    rw [List.foldl_cons]
    apply ih
    by_cases hak : a = k
    · right
      simp only
      rw [hak, UMap.find_assign_same]
      rfl
    · rcases h with h | h
      · rw [List.mem_cons] at h
        rcases h with h | h
        · exact absurd h.symm hak
        · exact Or.inl h
      · right
        simp only
        rw [UMap.find_assign_ne _ _ _ _ (fun e => hak e.symm)]
        exact h

theorem UMap.mem_of_find {β : Type} (m : UMap β) (k : Nat) (v : β) (h : m.find k = some v) :
    (k, v) ∈ m := by
  induction m with
  | nil => simp [UMap.find] at h
  | cons p m ih =>
    obtain ⟨k1, v1⟩ := p
    unfold UMap.find at h
    split at h
    · rename_i hk
      rw [Option.some.injEq] at h
      rw [← hk, ← h]
      exact List.mem_cons_self _ _
    · exact List.mem_cons_of_mem _ (ih h)

theorem block_of_mem_flatMap {α β : Type} (f : α → List β) (l : List α) (a : α) (h : a ∈ l) :
    f a <:+: l.flatMap f := by
  obtain ⟨l1, l2, rfl⟩ := List.append_of_mem h
  refine ⟨l1.flatMap f, l2.flatMap f, ?_⟩
  simp [List.flatMap_append, List.flatMap_cons, List.append_assoc]

/-- C21: for a cell `v = (x, y, z)` with coordinates below 1023, the twelve
keys `EncodeVoxelUniqueID(v) + ENCODED_EDGE_OFFSETS[i]` are pairwise distinct;
they are exactly the keys `EncodeAxisUniqueID(a, v + EDGE_NODE_OFFSETS[a][j])`,
`a < 3`, `j < 4`; the key of an edge `(a, e)` of the lattice is among them
exactly when `v = e - EDGE_NODE_OFFSETS[a][j]` for some `j < 4`; and the scan
step of a crossing edge `(a, e)` registers the key of `v` exactly when the key
of the edge is among the twelve. -/
theorem C21_candidate_edges_of_cell (x y z : Nat) (hx : x < 1023) (hy : y < 1023)
    (hz : z < 1023) :
    (candidateEdgeKeys (EncodeVoxelUniqueID ⟨x, y, z, 0⟩)).length = 12 ∧
    (candidateEdgeKeys (EncodeVoxelUniqueID ⟨x, y, z, 0⟩)).Nodup ∧
    (∀ k, k ∈ candidateEdgeKeys (EncodeVoxelUniqueID ⟨x, y, z, 0⟩) ↔
      ∃ a : Nat, a < 3 ∧ ∃ j : Nat, j < 4 ∧ k = EncodeAxisUniqueID a
        ((⟨x, y, z, 0⟩ : TVoxelIndex4) + (EDGE_NODE_OFFSETS.getD a []).getD j ⟨0, 0, 0, 0⟩).X
        ((⟨x, y, z, 0⟩ : TVoxelIndex4) + (EDGE_NODE_OFFSETS.getD a []).getD j ⟨0, 0, 0, 0⟩).Y
        ((⟨x, y, z, 0⟩ : TVoxelIndex4) + (EDGE_NODE_OFFSETS.getD a []).getD j ⟨0, 0, 0, 0⟩).Z) ∧
    (∀ a ex ey ez : Nat, a < 3 → ex < 1024 → ey < 1024 → ez < 1024 →
      (EncodeAxisUniqueID a ex ey ez ∈ candidateEdgeKeys (EncodeVoxelUniqueID ⟨x, y, z, 0⟩) ↔
        ∃ j < 4, (⟨ex, ey, ez, 0⟩ : TVoxelIndex4)
          - (EDGE_NODE_OFFSETS.getD a []).getD j ⟨0, 0, 0, 0⟩ = ⟨x, y, z, 0⟩)) ∧
    (∀ (GetSafeNormal : FVector4 → ℚ → FVector4) (voxelData : TVoxelData) (a ex ey ez : Nat),
      a < 3 → ex < 1024 → ey < 1024 → ez < 1024 → zeroCrossing voxelData ex ey ez a = true →
      (EncodeVoxelUniqueID ⟨x, y, z, 0⟩
          ∈ (scanEdge GetSafeNormal voxelData ex ey ez a ([], [])).1 ↔
        EncodeAxisUniqueID a ex ey ez
          ∈ candidateEdgeKeys (EncodeVoxelUniqueID ⟨x, y, z, 0⟩))) := by
  refine ⟨by simp [candidateEdgeKeys, ENCODED_EDGE_OFFSETS], candidateEdgeKeys_nodup _, ?_,
    fun a ex ey ez ha hex hey hez => candidate_iff_around x y z a ex ey ez hx hy hz ha hex hey hez,
    ?_⟩
  · intro k
    rw [candidateEdgeKeys_eq x y z hx hy hz, range3_exists]
    simp only [range4_exists, EDGE_NODE_OFFSETS, List.getD_cons_zero, List.getD_cons_succ,
      TVoxelIndex4_add_def, List.mem_cons, List.mem_singleton, List.not_mem_nil, or_false,
      Nat.cast_zero, Nat.cast_one, Nat.cast_ofNat, Nat.cast_add, add_zero]
    constructor
    · rintro (h | h | h | h | h | h | h | h | h | h | h | h) <;> subst h <;> simp
    · rintro ((h | h | h | h) | (h | h | h | h) | (h | h | h | h)) <;> subst h <;> simp
  · intro gsn vd a ex ey ez ha hex hey hez hc
    rw [candidate_iff_around x y z a ex ey ez hx hy hz ha hex hey hez, scanEdge_voxels]
    simp only [List.not_mem_nil, false_or, hc, true_and]
    constructor
    · rintro ⟨j, hj, h⟩
      refine ⟨j, hj, ?_⟩
      have h3 : a = 0 ∨ a = 1 ∨ a = 2 := by omega
      rcases h3 with rfl | rfl | rfl <;> interval_cases j <;>
        simp only [EDGE_NODE_OFFSETS, List.getD_cons_zero, List.getD_cons_succ,
          TVoxelIndex4_sub_def, TVoxelIndex4.mk.injEq] at h ⊢ <;>
        (rw [sub_self] at h
         have h2 := (cellKey_eq_iff _ _ _ x y z (by omega) (by omega) (by omega)
            (by omega) (by omega) (by omega)).1 h.symm
         exact ⟨h2.1, h2.2.1, h2.2.2, sub_self 0⟩)
    · rintro ⟨j, hj, h⟩
      exact ⟨j, hj, by rw [h]⟩

/-- C21 on the cell `(1, 2, 3)`. -/
theorem C21_candidate_edges_of_cell_witness :
    (1 < 1023 ∧ 2 < 1023 ∧ 3 < 1023) ∧
    (candidateEdgeKeys (EncodeVoxelUniqueID ⟨(1 : Nat), (2 : Nat), (3 : Nat), 0⟩)).Nodup ∧
    (EncodeAxisUniqueID (1 : Nat) (2 : Nat) (2 : Nat) (3 : Nat)
        ∈ candidateEdgeKeys (EncodeVoxelUniqueID ⟨(1 : Nat), (2 : Nat), (3 : Nat), 0⟩) ↔
      ∃ j < 4, (⟨(2 : Nat), (2 : Nat), (3 : Nat), 0⟩ : TVoxelIndex4)
        - (EDGE_NODE_OFFSETS.getD 1 []).getD j ⟨0, 0, 0, 0⟩
          = ⟨(1 : Nat), (2 : Nat), (3 : Nat), 0⟩) :=
  have t := C21_candidate_edges_of_cell 1 2 3 (by decide) (by decide) (by decide)
  ⟨⟨by decide, by decide, by decide⟩, t.2.1,
    t.2.2.2.1 1 2 2 3 (by decide) (by decide) (by decide) (by decide)⟩

/-! ## The four cells around an edge -/

theorem cell_sub_key (x y z dx dy dz : Nat) (w : Int) (hdx : dx ≤ x) (hdy : dy ≤ y)
    (hdz : dz ≤ z) (hx : x < 1024) (hy : y < 1024) (hz : z < 1024) :
    EncodeVoxelUniqueID ⟨(x : Int) - (dx : Int), (y : Int) - (dy : Int), (z : Int) - (dz : Int), w⟩
      = (x - dx) + (y - dy) * 1024 + (z - dz) * 1048576 := by
  rw [← Nat.cast_sub hdx, ← Nat.cast_sub hdy, ← Nat.cast_sub hdz]
  exact EncodeVoxelUniqueID_eq (x - dx) (y - dy) (z - dz) w (by omega) (by omega) (by omega)

/-- The two offset tables agree entry by entry: `ENCODED_EDGE_NODE_OFFSETS[4a + i]`
packs the components of `EDGE_NODE_OFFSETS[a][i]`, which are 0 or 1 and 0 along
the axis `a`. -/
theorem node_offsets_tables :
    ∀ a < 3, ∀ i < 4,
      ((EDGE_NODE_OFFSETS.getD a []).getD i ⟨0, 0, 0, 0⟩).X
        = (((EDGE_NODE_OFFSETS.getD a []).getD i ⟨0, 0, 0, 0⟩).X.toNat : Int) ∧
      ((EDGE_NODE_OFFSETS.getD a []).getD i ⟨0, 0, 0, 0⟩).Y
        = (((EDGE_NODE_OFFSETS.getD a []).getD i ⟨0, 0, 0, 0⟩).Y.toNat : Int) ∧
      ((EDGE_NODE_OFFSETS.getD a []).getD i ⟨0, 0, 0, 0⟩).Z
        = (((EDGE_NODE_OFFSETS.getD a []).getD i ⟨0, 0, 0, 0⟩).Z.toNat : Int) ∧
      ((EDGE_NODE_OFFSETS.getD a []).getD i ⟨0, 0, 0, 0⟩).W = 0 ∧
      ((EDGE_NODE_OFFSETS.getD a []).getD i ⟨0, 0, 0, 0⟩).X.toNat ≤ 1 ∧
      ((EDGE_NODE_OFFSETS.getD a []).getD i ⟨0, 0, 0, 0⟩).Y.toNat ≤ 1 ∧
      ((EDGE_NODE_OFFSETS.getD a []).getD i ⟨0, 0, 0, 0⟩).Z.toNat ≤ 1 ∧
      (a = 0 → ((EDGE_NODE_OFFSETS.getD a []).getD i ⟨0, 0, 0, 0⟩).X.toNat = 0) ∧
      (a = 1 → ((EDGE_NODE_OFFSETS.getD a []).getD i ⟨0, 0, 0, 0⟩).Y.toNat = 0) ∧
      (a = 2 → ((EDGE_NODE_OFFSETS.getD a []).getD i ⟨0, 0, 0, 0⟩).Z.toNat = 0) ∧
      ENCODED_EDGE_NODE_OFFSETS.getD (a * 4 + i) 0
        = ((EDGE_NODE_OFFSETS.getD a []).getD i ⟨0, 0, 0, 0⟩).X.toNat
          + ((EDGE_NODE_OFFSETS.getD a []).getD i ⟨0, 0, 0, 0⟩).Y.toNat * 1024
          + ((EDGE_NODE_OFFSETS.getD a []).getD i ⟨0, 0, 0, 0⟩).Z.toNat * 1048576 := by
  intro a ha i hi
  interval_cases a <;> interval_cases i <;> decide

theorem map4_getD (f : Nat → Nat) (i : Nat) (hi : i < 4) :
    ((List.range 4).map f).getD i 0 = f i := by
  have hr : List.range 4 = [0, 1, 2, 3] := by decide
  rw [hr]
  interval_cases i <;> rfl

/-- The key `GenerateTriangles` computes for the `i`-th cell around an edge is
the key the scan registered for it, when the edge's cell has its two
coordinates across the axis at least 1. -/
theorem edgeVoxelIDs_encode (a x y z i : Nat) (ha : a < 3) (hx : x < 1024) (hy : y < 1024)
    (hz : z < 1024) (hox : a ≠ 0 → 1 ≤ x) (hoy : a ≠ 1 → 1 ≤ y) (hoz : a ≠ 2 → 1 ≤ z)
    (hi : i < 4) :
    (edgeVoxelIDs (EncodeAxisUniqueID a x y z)).getD i 0
      = EncodeVoxelUniqueID
          (⟨x, y, z, 0⟩ - (EDGE_NODE_OFFSETS.getD a []).getD i ⟨0, 0, 0, 0⟩) := by
  have hn : ∀ e : Nat, e &&& 0x3fffffff = e % 1073741824 := by
    intro e
    have e2 : (0x3fffffff : Nat) = 2 ^ 30 - 1 := by norm_num
    rw [e2, Nat.and_pow_two_sub_one_eq_mod]
  obtain ⟨tX, tY, tZ, tW, bX, bY, bZ, aX, aY, aZ, tE⟩ := node_offsets_tables a ha i hi
  unfold edgeVoxelIDs
  simp only
  rw [map4_getD _ i hi, edgeAxis_encode a x y z ha hx hy hz, hn, tE,
    EncodeAxisUniqueID_eq a x y z (by omega) hx hy hz]
  generalize (EDGE_NODE_OFFSETS.getD a []).getD i ⟨0, 0, 0, 0⟩ = o at tX tY tZ tW bX bY bZ aX aY aZ
  obtain ⟨X, Y, Z, W⟩ := o
  simp only at tX tY tZ tW bX bY bZ aX aY aZ ⊢
  rw [TVoxelIndex4_sub_def]
  simp only
  rw [tX, tY, tZ]
  simp only [Int.toNat_ofNat]
  generalize X.toNat = dx at bX aX
  generalize Y.toNat = dy at bY aY
  generalize Z.toNat = dz at bZ aZ
  have h3 : a = 0 ∨ a = 1 ∨ a = 2 := by omega
  have hdx : dx ≤ x := by
    rcases h3 with rfl | rfl | rfl
    · rw [aX rfl]; exact Nat.zero_le _
    · have := hox (by norm_num); omega
    · have := hox (by norm_num); omega
  have hdy : dy ≤ y := by
    rcases h3 with rfl | rfl | rfl
    · have := hoy (by norm_num); omega
    · rw [aY rfl]; exact Nat.zero_le _
    · have := hoy (by norm_num); omega
  have hdz : dz ≤ z := by
    rcases h3 with rfl | rfl | rfl
    · have := hoz (by norm_num); omega
    · have := hoz (by norm_num); omega
    · rw [aZ rfl]; exact Nat.zero_le _
  rw [cell_sub_key x y z dx dy dz _ hdx hdy hdz hx hy hz]
  omega

theorem edgeVoxelIDs_mem (edge id : Nat) (h : id ∈ edgeVoxelIDs edge) :
    ∃ i < 4, id = (edgeVoxelIDs edge).getD i 0 := by
  obtain ⟨p, q, r, s, e⟩ := edgeVoxelIDs_eq_four edge
  rw [e] at h ⊢
  simp only [List.mem_cons, List.mem_singleton, List.not_mem_nil, or_false] at h
  rcases h with h | h | h | h
  · exact ⟨0, by norm_num, h⟩
  · exact ⟨1, by norm_num, h⟩
  · exact ⟨2, by norm_num, h⟩
  · exact ⟨3, by norm_num, h⟩

/-- C22: for an axis `a < 3` and an edge cell `p = (x, y, z)` with coordinates
below 1024 whose two coordinates across the axis are at least 1, the four keys
`GenerateTriangles` computes from the edge key,
`(edgeID & ~0xc0000000) - ENCODED_EDGE_NODE_OFFSETS[4a + i]` in 32-bit
arithmetic, are for each `i < 4` the key `EncodeVoxelUniqueID(p - EDGE_NODE_OFFSETS[a][i])`
that `FindActiveVoxels` inserts.  Hence, for every field with `N ≤ 1024` in
which that edge is a crossing edge of the lattice, and for every order in which
the two containers are iterated, the four keys are in the scan's voxel set, all
four are resolved by the index table of `GenerateVertexData`, and the six
indices of the edge's quad are a block of the triangle array. -/
theorem C22_edge_neighbours_resolved (a x y z : Nat) (ha : a < 3) (hx : x < 1024)
    (hy : y < 1024) (hz : z < 1024) (hox : a ≠ 0 → 1 ≤ x) (hoy : a ≠ 1 → 1 ≤ y)
    (hoz : a ≠ 2 → 1 ≤ z) :
    (∀ i < 4, (edgeVoxelIDs (EncodeAxisUniqueID a x y z)).getD i 0
      = EncodeVoxelUniqueID
          (⟨x, y, z, 0⟩ - (EDGE_NODE_OFFSETS.getD a []).getD i ⟨0, 0, 0, 0⟩)) ∧
    (∀ (GetSafeNormal : FVector4 → ℚ → FVector4)
      (qef : List FVector4 → List FVector4 → Nat → FVector4) (voxelData : TVoxelData)
      (voxelOrder : VoxelIDSet) (edgeOrder : EdgeInfoMap),
      voxelData.voxel_num ≤ 1024 → x < voxelData.voxel_num → y < voxelData.voxel_num →
      z < voxelData.voxel_num → isCrossing voxelData a x y z →
      voxelOrder.Perm (FindActiveVoxels GetSafeNormal voxelData [] []).1 →
      edgeOrder.Perm (FindActiveVoxels GetSafeNormal voxelData [] []).2 →
      (∀ i < 4, (edgeVoxelIDs (EncodeAxisUniqueID a x y z)).getD i 0
        ∈ (FindActiveVoxels GetSafeNormal voxelData [] []).1) ∧
      resolved (GenerateVertexData qef voxelOrder
        (FindActiveVoxels GetSafeNormal voxelData [] []).2 [] [] []).vertexIndices
        (EncodeAxisUniqueID a x y z) = true ∧
      (FindActiveVoxels GetSafeNormal voxelData [] []).2.find (EncodeAxisUniqueID a x y z)
        = some (edgeInfo GetSafeNormal voxelData x y z a) ∧
      (edgeTriangles (GenerateVertexData qef voxelOrder
        (FindActiveVoxels GetSafeNormal voxelData [] []).2 [] [] []).vertexIndices
        (EncodeAxisUniqueID a x y z) (edgeInfo GetSafeNormal voxelData x y z a)).length = 6 ∧
      edgeTriangles (GenerateVertexData qef voxelOrder
        (FindActiveVoxels GetSafeNormal voxelData [] []).2 [] [] []).vertexIndices
        (EncodeAxisUniqueID a x y z) (edgeInfo GetSafeNormal voxelData x y z a)
        <:+: GenerateTriangles edgeOrder (GenerateVertexData qef voxelOrder
          (FindActiveVoxels GetSafeNormal voxelData [] []).2 [] [] []).vertexIndices []) := by
  have hkey := fun i hi => edgeVoxelIDs_encode a x y z i ha hx hy hz hox hoy hoz hi
  refine ⟨hkey, ?_⟩
  intro gsn qef vd voxelOrder edgeOrder hN hxN hyN hzN hc hvo heo
  have hmem : ∀ i < 4, (edgeVoxelIDs (EncodeAxisUniqueID a x y z)).getD i 0
      ∈ (FindActiveVoxels gsn vd [] []).1 := by
    intro i hi
    rw [FindActiveVoxels_voxels]
    exact ⟨a, x, y, z, ha, hxN, hyN, hzN, hc, i, hi, hkey i hi⟩
  have hres : resolved (GenerateVertexData qef voxelOrder
      (FindActiveVoxels gsn vd [] []).2 [] [] []).vertexIndices
      (EncodeAxisUniqueID a x y z) = true := by
    unfold resolved
    rw [List.all_eq_true]
    intro id hid
    obtain ⟨i, hi, rfl⟩ := edgeVoxelIDs_mem _ id hid
    unfold GenerateVertexData
    exact GenerateVertexData_find_isSome qef _ voxelOrder _ _
      (Or.inl (hvo.mem_iff.2 (hmem i hi)))
  have hfind := (FindActiveVoxels_edges gsn vd).2 hN a x y z ha hxN hyN hzN hc
  refine ⟨hmem, hres, hfind, ?_, ?_⟩
  · rw [edgeTriangles_length, hres]
    rfl
  · rw [GenerateTriangles_eq, List.nil_append]
    exact block_of_mem_flatMap
      (fun e : Nat × EdgeInfo => edgeTriangles (GenerateVertexData qef voxelOrder
        (FindActiveVoxels gsn vd [] []).2 [] [] []).vertexIndices e.1 e.2) edgeOrder
      (EncodeAxisUniqueID a x y z, edgeInfo gsn vd x y z a)
      (heo.mem_iff.2 (UMap.mem_of_find _ _ _ hfind))

/-- C22 on the sample field with the single filled cell `(1, 0, 2)`: the edge
leaving that cell along Y is a crossing edge with `x ≥ 1` and `z ≥ 1`, and its
quad is emitted. -/
theorem C22_edge_neighbours_resolved_witness :
    ((1 : Nat) < 3 ∧ (1 : Nat) < 1024 ∧ (0 : Nat) < 1024 ∧ (2 : Nat) < 1024) ∧
    isCrossing sampleBoundaryCell 1 1 0 2 ∧
    (∀ i < 4, (edgeVoxelIDs (EncodeAxisUniqueID (1 : Nat) (1 : Nat) (0 : Nat) (2 : Nat))).getD i 0
      = EncodeVoxelUniqueID
          (⟨(1 : Nat), (0 : Nat), (2 : Nat), 0⟩
            - (EDGE_NODE_OFFSETS.getD 1 []).getD i ⟨0, 0, 0, 0⟩)) ∧
    resolved (GenerateVertexData sampleSolver
        (FindActiveVoxels sampleNormal sampleBoundaryCell [] []).1
        (FindActiveVoxels sampleNormal sampleBoundaryCell [] []).2 [] [] []).vertexIndices
        (EncodeAxisUniqueID (1 : Nat) (1 : Nat) (0 : Nat) (2 : Nat)) = true ∧
    (edgeTriangles (GenerateVertexData sampleSolver
        (FindActiveVoxels sampleNormal sampleBoundaryCell [] []).1
        (FindActiveVoxels sampleNormal sampleBoundaryCell [] []).2 [] [] []).vertexIndices
        (EncodeAxisUniqueID (1 : Nat) (1 : Nat) (0 : Nat) (2 : Nat))
        (edgeInfo sampleNormal sampleBoundaryCell 1 0 2 1)).length = 6 :=
  have hc : isCrossing sampleBoundaryCell 1 1 0 2 :=
    (zeroCrossing_iff sampleBoundaryCell 1 0 2 1 (by decide)).1 (by decide!)
  have t := C22_edge_neighbours_resolved 1 1 0 2 (by decide) (by decide) (by decide)
    (by decide) (fun _ => by decide) (fun h => absurd rfl h) (fun _ => by decide)
  have p := t.2 sampleNormal sampleSolver sampleBoundaryCell _ _ (by decide!) (by decide!)
    (by decide!) (by decide!) hc (List.Perm.refl _) (List.Perm.refl _)
  ⟨⟨by decide, by decide, by decide, by decide⟩, hc, t.1, p.2.1, p.2.2.2.1⟩

/-! ## The cache and the scan classify alike -/

theorem byte_threshold (b : Nat) : b > 127 ↔ (b : ℚ) / 255 ≥ 1 / 2 := by
  rw [ge_iff_le, le_div_iff₀ (by norm_num : (0 : ℚ) < 255)]
  constructor
  · intro h
    have : (128 : ℚ) ≤ b := by exact_mod_cast h
    linarith
  · intro h
    have h2 : ((255 : Nat) : ℚ) ≤ ((2 * b : Nat) : ℚ) := by
      push_cast
      linarith
    have h3 : 255 ≤ 2 * b := by exact_mod_cast h2
    omega

/-- On a dense field, inside the lattice, a density is at least `1 / 2`
exactly when its byte is above 127. -/
theorem getDensity_ge_half_iff (vd : TVoxelData) (h : vd.density_data.isSome = true)
    (x y z : Int) (hx : x < vd.voxel_num) (hy : y < vd.voxel_num) (hz : z < vd.voxel_num) :
    vd.getDensity x y z ≥ 1 / 2 ↔ vd.getRawDensity x y z > 127 := by
  obtain ⟨buf, hb⟩ := Option.isSome_iff_exists.1 h
  unfold TVoxelData.getDensity TVoxelData.getRawDensity
  rw [hb]
  simp only
  rw [if_pos ⟨hx, hy, hz⟩]
  exact (byte_threshold _).symm

theorem cube_bool : ∀ a b c d e f g h : Bool,
    (¬ (a = true ∧ b = true ∧ c = true ∧ d = true ∧ e = true ∧ f = true ∧ g = true ∧ h = true) ∧
      ¬ (a = false ∧ b = false ∧ c = false ∧ d = false ∧ e = false ∧ f = false ∧ g = false ∧
        h = false)) ↔
    ((g ≠ e) ∨ (c ≠ a) ∨ (h ≠ f) ∨ (d ≠ b) ∨
     (g ≠ h) ∨ (c ≠ d) ∨ (e ≠ f) ∨ (a ≠ b) ∨
     (g ≠ c) ∨ (h ≠ d) ∨ (e ≠ a) ∨ (f ≠ b)) := by
  intro a b c d e f g h
  cases a <;> cases b <;> cases c <;> cases d <;> cases e <;> cases f <;> cases g <;>
    cases h <;> decide

/-- On a dense field an edge inside the lattice is a crossing exactly when the
bytes at its two ends are on different sides of 127. -/
theorem crossing_iff_raw (vd : TVoxelData) (h : vd.density_data.isSome = true)
    (a x y z : Nat) (hx : x < vd.voxel_num) (hy : y < vd.voxel_num) (hz : z < vd.voxel_num)
    (hnx : (positiveNeighbour a x y z).1 < vd.voxel_num)
    (hny : (positiveNeighbour a x y z).2.1 < vd.voxel_num)
    (hnz : (positiveNeighbour a x y z).2.2 < vd.voxel_num) :
    isCrossing vd a x y z ↔
      decide (vd.getRawDensity x y z > 127)
        ≠ decide (vd.getRawDensity (positiveNeighbour a x y z).1
            (positiveNeighbour a x y z).2.1 (positiveNeighbour a x y z).2.2 > 127) := by
  have h1 := getDensity_ge_half_iff vd h x y z (by exact_mod_cast hx) (by exact_mod_cast hy)
    (by exact_mod_cast hz)
  have h2 := getDensity_ge_half_iff vd h _ _ _ hnx hny hnz
  unfold isCrossing
  simp only [← not_le, ← ge_iff_le]
  rw [h1, h2]
  by_cases p : vd.getRawDensity x y z > 127 <;>
    by_cases q : vd.getRawDensity (positiveNeighbour a x y z).1
      (positiveNeighbour a x y z).2.1 (positiveNeighbour a x y z).2.2 > 127 <;>
    simp [p, q]

/-- On a dense field a finest-level cell inside the lattice straddles the byte
threshold exactly when one of its twelve lattice edges is a crossing. -/
theorem nonUniform_iff_crossing (vd : TVoxelData) (h : vd.density_data.isSome = true)
    (rx ry rz : Nat) (hx : rx + 1 < vd.voxel_num) (hy : ry + 1 < vd.voxel_num)
    (hz : rz + 1 < vd.voxel_num) :
    nonUniformCell vd rx ry rz 1 ↔
      ∃ e ∈ cellEdges rx ry rz, isCrossing vd e.1 e.2.1 e.2.2.1 e.2.2.2 := by
  have hN : ((rx + 1 : Nat) : Int) < vd.voxel_num ∧ ((ry + 1 : Nat) : Int) < vd.voxel_num ∧
      ((rz + 1 : Nat) : Int) < vd.voxel_num :=
    ⟨by exact_mod_cast hx, by exact_mod_cast hy, by exact_mod_cast hz⟩
  have C := fun (a x y z : Nat) (h1 : x < vd.voxel_num) (h2 : y < vd.voxel_num)
      (h3 : z < vd.voxel_num) (h4 : (positiveNeighbour a x y z).1 < vd.voxel_num)
      (h5 : (positiveNeighbour a x y z).2.1 < vd.voxel_num)
      (h6 : (positiveNeighbour a x y z).2.2 < vd.voxel_num) =>
    crossing_iff_raw vd h a x y z h1 h2 h3 h4 h5 h6
  have R : ∀ (a x y z : Nat), a < 3 → x ≤ rx + 1 → y ≤ ry + 1 → z ≤ rz + 1 →
      (a = 0 → x ≤ rx) → (a = 1 → y ≤ ry) → (a = 2 → z ≤ rz) →
      (isCrossing vd a x y z ↔
        decide (vd.getRawDensity x y z > 127)
          ≠ decide (vd.getRawDensity (positiveNeighbour a x y z).1
              (positiveNeighbour a x y z).2.1 (positiveNeighbour a x y z).2.2 > 127)) := by
    intro a x y z ha h1 h2 h3 h4 h5 h6
    have h7 : a = 0 ∨ a = 1 ∨ a = 2 := by omega
    apply crossing_iff_raw vd h a x y z (by omega) (by omega) (by omega)
    · rcases h7 with rfl | rfl | rfl <;> simp [positiveNeighbour] <;> omega
    · rcases h7 with rfl | rfl | rfl <;> simp [positiveNeighbour] <;> omega
    · rcases h7 with rfl | rfl | rfl <;> simp [positiveNeighbour] <;> omega
  unfold cellEdges
  simp only [List.mem_cons, List.mem_singleton, List.not_mem_nil, or_false, exists_eq_or_imp,
    exists_eq_left]
  rw [R 0 rx ry rz (by omega) (by omega) (by omega) (by omega) (by omega) (by omega) (by omega),
    R 0 rx ry (rz + 1) (by omega) (by omega) (by omega) (by omega) (by omega) (by omega) (by omega),
    R 0 rx (ry + 1) rz (by omega) (by omega) (by omega) (by omega) (by omega) (by omega) (by omega),
    R 0 rx (ry + 1) (rz + 1) (by omega) (by omega) (by omega) (by omega) (by omega) (by omega)
      (by omega),
    R 1 rx ry rz (by omega) (by omega) (by omega) (by omega) (by omega) (by omega) (by omega),
    R 1 rx ry (rz + 1) (by omega) (by omega) (by omega) (by omega) (by omega) (by omega) (by omega),
    R 1 (rx + 1) ry rz (by omega) (by omega) (by omega) (by omega) (by omega) (by omega) (by omega),
    R 1 (rx + 1) ry (rz + 1) (by omega) (by omega) (by omega) (by omega) (by omega) (by omega)
      (by omega),
    R 2 rx ry rz (by omega) (by omega) (by omega) (by omega) (by omega) (by omega) (by omega),
    R 2 rx (ry + 1) rz (by omega) (by omega) (by omega) (by omega) (by omega) (by omega) (by omega),
    R 2 (rx + 1) ry rz (by omega) (by omega) (by omega) (by omega) (by omega) (by omega) (by omega),
    R 2 (rx + 1) (ry + 1) rz (by omega) (by omega) (by omega) (by omega) (by omega) (by omega)
      (by omega)]
  unfold nonUniformCell cellCorners
  simp only [positiveNeighbour, if_true, List.mem_cons, List.mem_singleton, List.not_mem_nil,
    or_false, forall_eq_or_imp, forall_eq, Nat.cast_add, Nat.cast_one, OfNat.ofNat_ne_zero,
    OfNat.one_ne_ofNat, one_ne_zero, if_false]
  have key := cube_bool
    (decide (vd.getRawDensity ((rx : Int) + 1) ry ((rz : Int) + 1) > 127))
    (decide (vd.getRawDensity ((rx : Int) + 1) ((ry : Int) + 1) ((rz : Int) + 1) > 127))
    (decide (vd.getRawDensity rx ry ((rz : Int) + 1) > 127))
    (decide (vd.getRawDensity rx ((ry : Int) + 1) ((rz : Int) + 1) > 127))
    (decide (vd.getRawDensity ((rx : Int) + 1) ry rz > 127))
    (decide (vd.getRawDensity ((rx : Int) + 1) ((ry : Int) + 1) rz > 127))
    (decide (vd.getRawDensity rx ry rz > 127))
    (decide (vd.getRawDensity rx ((ry : Int) + 1) rz > 127))
  simp only [decide_eq_true_eq, decide_eq_false_iff_not, not_lt, gt_iff_lt] at key
  simp only [gt_iff_lt]
  exact key

theorem performCellSubstanceCaching_flag (v : TVoxelData) (x y z : Int) (lod : Nat)
    (step : Int) :
    (v.performCellSubstanceCaching x y z lod step).2 = true ↔
      0 < x ∧ 0 < y ∧ 0 < z ∧ step ≤ x ∧ step ≤ y ∧ step ≤ z ∧
        nonUniformCell v (x - step) (y - step) (z - step) step := by
  unfold TVoxelData.performCellSubstanceCaching
  by_cases h1 : x ≤ 0 ∨ y ≤ 0 ∨ z ≤ 0
  · rw [if_pos h1]
    constructor
    · intro h
      exact absurd h (by simp)
    · rintro ⟨a, b, c, _⟩
      omega
  · rw [if_neg h1]
    by_cases h2 : x < step ∨ y < step ∨ z < step
    · rw [if_pos h2]
      constructor
      · intro h
        exact absurd h (by simp)
      · rintro ⟨_, _, _, a, b, c, _⟩
        omega
    · rw [if_neg h2]
      have hpos : 0 < x ∧ 0 < y ∧ 0 < z ∧ step ≤ x ∧ step ≤ y ∧ step ≤ z := by omega
      simp only [List.all_eq_true, decide_eq_true_eq]
      have hc : cellCorners v (x - step) (y - step) (z - step) step
          = [ v.getRawDensity x (y - step) z, v.getRawDensity x y z,
              v.getRawDensity (x - step) (y - step) z, v.getRawDensity (x - step) y z,
              v.getRawDensity x (y - step) (z - step), v.getRawDensity x y (z - step),
              v.getRawDensity (x - step) (y - step) (z - step),
              v.getRawDensity (x - step) y (z - step) ] := by
        simp only [cellCorners, sub_add_cancel]
      rw [← hc]
      by_cases h3 : ∀ d ∈ cellCorners v (x - step) (y - step) (z - step) step, d > 127
      · rw [if_pos h3]
        constructor
        · intro h
          exact absurd h (by simp)
        · rintro ⟨_, _, _, _, _, _, hn⟩
          exact absurd h3 hn.1
      · rw [if_neg h3]
        by_cases h4 : ∀ d ∈ cellCorners v (x - step) (y - step) (z - step) step, d ≤ 127
        · rw [if_pos h4]
          constructor
          · intro h
            exact absurd h (by simp)
          · rintro ⟨_, _, _, _, _, _, hn⟩
            exact absurd h4 hn.2
        · rw [if_neg h4]
          constructor
          · intro _
            exact ⟨hpos.1, hpos.2.1, hpos.2.2.1, hpos.2.2.2.1, hpos.2.2.2.2.1, hpos.2.2.2.2.2,
              h3, h4⟩
          · intro _
            rfl

/-- C23: a raw density byte `b` is above 127 exactly when `b / 255 ≥ 1 / 2`.
Hence, on a field with a dense buffer and for a finest-level cell with origin
`(rx, ry, rz)` in `[0, N - 2]³`, `performCellSubstanceCaching(rx + 1, ry + 1,
rz + 1, 0, 1)` returns `true` exactly when one of the cell's twelve lattice
edges passes the crossing test of the scan; and after the cached traversal
(with an action that leaves the field alone) the cell's index is in the
level-0 cache exactly when the cell has a crossing edge, so a cell absent from
that cache has none. -/
theorem C23_cache_agrees_with_scan (vd : TVoxelData) (h : vd.density_data.isSome = true)
    (rx ry rz : Nat) (hx : rx + 1 < vd.voxel_num) (hy : ry + 1 < vd.voxel_num)
    (hz : rz + 1 < vd.voxel_num) :
    (∀ b : Nat, b > 127 ↔ (b : ℚ) / 255 ≥ 1 / 2) ∧
    (∀ x y z : Nat, x < vd.voxel_num → y < vd.voxel_num → z < vd.voxel_num →
      (vd.getRawDensity x y z > 127 ↔ vd.getDensity x y z ≥ 1 / 2)) ∧
    ((vd.performCellSubstanceCaching ((rx : Int) + 1) ((ry : Int) + 1) ((rz : Int) + 1) 0 1).2
        = true ↔
      ∃ e ∈ cellEdges rx ry rz, isCrossing vd e.1 e.2.1 e.2.2.1 e.2.2.2) ∧
    (∀ (func : Int → Int → Int → TVoxelData → TVoxelData) (LOD : Bool),
      (∀ x y z v, func x y z v = v) → vd.substanceCacheLOD.length = LOD_ARRAY_SIZE →
      ((vd.clcLinearIndex rx ry rz ∈ cacheList (vd.forEachWithCache func LOD) 0 ↔
          ∃ e ∈ cellEdges rx ry rz, isCrossing vd e.1 e.2.1 e.2.2.1 e.2.2.2) ∧
        (vd.clcLinearIndex rx ry rz ∉ cacheList (vd.forEachWithCache func LOD) 0 →
          ∀ e ∈ cellEdges rx ry rz, ¬ isCrossing vd e.1 e.2.1 e.2.2.1 e.2.2.2))) := by
  have hnu := nonUniform_iff_crossing vd h rx ry rz hx hy hz
  have hcache : ∀ (func : Int → Int → Int → TVoxelData → TVoxelData) (LOD : Bool),
      (∀ x y z v, func x y z v = v) → vd.substanceCacheLOD.length = LOD_ARRAY_SIZE →
      (vd.clcLinearIndex rx ry rz ∈ cacheList (vd.forEachWithCache func LOD) 0 ↔
        ∃ e ∈ cellEdges rx ry rz, isCrossing vd e.1 e.2.1 e.2.2.1 e.2.2.2) := by
    intro func LOD hfunc hlen
    have e : cacheList (vd.forEachWithCache func LOD) 0
        = (cells vd.voxel_num).flatMap (fun c => levelContribution vd 0 c.1 c.2.1 c.2.2) := by
      rw [forEachWithCache_cacheList vd func LOD hfunc hlen 0]
      have h7 : 0 < LOD_ARRAY_SIZE := by decide
      simp only [h, h7, or_true, and_self, if_true]
    rw [e, mem_level_list, ← hnu]
    simp only [pow_zero, one_dvd, true_and, Nat.cast_one]
    constructor
    · rintro ⟨x2, y2, z2, h1, h2, h3, hn, hi⟩
      unfold TVoxelData.clcLinearIndex at hi
      obtain ⟨e1, e2, e3⟩ := clcLinearIndex_inj vd.voxel_num rx ry rz x2 y2 z2
        (by omega) (by omega) (by omega) (by omega) (by omega) (by omega) (by omega) (by omega) hi
      have e1n : rx = x2 := by exact_mod_cast e1
      have e2n : ry = y2 := by exact_mod_cast e2
      have e3n : rz = z2 := by exact_mod_cast e3
      rw [e1n, e2n, e3n]
      exact hn
    · intro hn
      exact ⟨rx, ry, rz, hx, hy, hz, hn, rfl⟩
  refine ⟨byte_threshold, ?_, ?_, ?_⟩
  · intro x y z h1 h2 h3
    exact (getDensity_ge_half_iff vd h x y z (by exact_mod_cast h1) (by exact_mod_cast h2)
      (by exact_mod_cast h3)).symm
  · rw [performCellSubstanceCaching_flag, ← hnu]
    simp only [add_sub_cancel_right]
    constructor
    · intro hh
      exact hh.2.2.2.2.2.2
    · intro hh
      exact ⟨by omega, by omega, by omega, by omega, by omega, by omega, hh⟩
  · intro func LOD hfunc hlen
    have hc := hcache func LOD hfunc hlen
    refine ⟨hc, ?_⟩
    intro hnot e he hcr
    exact hnot (hc.2 ⟨e, he, hcr⟩)

/-- C23 on the dense sample field with the single filled cell `(1, 0, 0)`: the
cell with origin `(0, 0, 0)` is recorded, and its edge along X is a crossing. -/
theorem C23_cache_agrees_with_scan_witness :
    sampleSingleCell.density_data.isSome = true ∧
    (0 : Nat) + 1 < sampleSingleCell.voxel_num ∧
    (sampleSingleCell.performCellSubstanceCaching ((0 : Nat) + 1) ((0 : Nat) + 1)
        ((0 : Nat) + 1) 0 1).2 = true ∧
    ∃ e ∈ cellEdges 0 0 0, isCrossing sampleSingleCell e.1 e.2.1 e.2.2.1 e.2.2.2 :=
  have hs : sampleSingleCell.density_data.isSome = true := by decide!
  have hn : (0 : Nat) + 1 < sampleSingleCell.voxel_num := by decide!
  have hf : (sampleSingleCell.performCellSubstanceCaching ((0 : Nat) + 1) ((0 : Nat) + 1)
      ((0 : Nat) + 1) 0 1).2 = true := by decide!
  ⟨hs, hn, hf, (C23_cache_agrees_with_scan sampleSingleCell hs 0 0 0 hn hn hn).2.2.1.1 hf⟩

end FastDc
